import Mathlib

/-!
Verification of tracexec: remote instruction execution in a traced process.

A shallow embedding of `src/tracexec.hpp` (struct `tracexec`): the macros
`ALIGN_UP`, `ALIGN_DOWN`, `try_ptrace`, the two `tracee_syscall` variants
(amd64 and arm), `execute`, and the wrappers `ioctl`, `fcntl`, `read`; and of the
single-event `Inputs::handle_evdev` of `src/input.hpp` (namespace `Inputs`).

Conventions of the embedding.

* A C `long` / `unsigned long` is kept as its two's-complement bit pattern, a
  natural number below `2 ^ bits`; `neg1` is the pattern of `-1`, and `toSigned`
  gives the signed reading where the source returns a `long` to its caller.
  C `int`s that are compared or counted (`ninstr`, `nwords`, `narg`) are `Int`.
  A pointer difference is the wrapped subtraction of the two words read as signed
  (`ptrdiff`), and its conversion to `int` wraps at 32 bits (`toInt32`).
* A variadic argument read with `va_arg(ap, long)` is the `long` found in the argument's
  slot: for a 32-bit argument on the 64-bit profile that is the argument's bits in the low
  half and zero above, not the argument converted to `long`.
* The operating system is a state: the tracee (registers, byte memory, alive
  flag), the wait status of its last state change, and a log of every trace
  request issued.  What one single-stepped instruction does to the tracee is a
  parameter `step`, an arbitrary function.
* A trace request on a tracee that is gone fails with `-1` and `errno = ESRCH`;
  on a live tracee it succeeds and leaves `errno` as it was.
* A function of the controller either returns or halts the controller
  (`exit`, a failed `assert`, an out-of-bounds store into the scratch buffer) or,
  for the unbounded trap loop, runs out of the fuel given to the model.
* There is one tracee, so the field `pid` is left out; `no_dead_code` keeps its initial
  value 1, so the controller always jumps over the snippet bytes in its own code.
-/

namespace Tracexec

/-! ## Machine words and the alignment macros -/

/-- Bit pattern of `-1` in a word of the given width. -/
def neg1 (bits : Nat) : Nat := 2 ^ bits - 1

/-- Signed reading of a bit pattern (conversion of an unsigned register to `long`). -/
def toSigned (bits : Nat) (u : Nat) : Int :=
  if u % 2 ^ bits < 2 ^ (bits - 1) then ((u % 2 ^ bits : Nat) : Int)
  else ((u % 2 ^ bits : Nat) : Int) - ((2 ^ bits : Nat) : Int)

/-- Bit pattern of a signed value (conversion of a `long` to an unsigned register). -/
def toUnsigned (bits : Nat) (x : Int) : Nat := (x % ((2 ^ bits : Nat) : Int)).toNat

/-- Conversion of a pointer difference to `int` (`int nwords = lend - lbegin`). -/
def toInt32 (z : Int) : Int := (z + 2 ^ 31) % 2 ^ 32 - 2 ^ 31

/-- Difference `a - b` of two addresses in bytes as the machine computes it: the
subtraction of the two words, read as the signed `ptrdiff_t` of the same width. -/
def ptrdiff (bits a b : Nat) : Int := toSigned bits (toUnsigned bits ((a : Int) - (b : Int)))

/-- The macro `#define ALIGN_UP(addr, align) (((addr)+align-1) & ~(align-1))` on unsigned words. -/
def ALIGN_UP (bits addr align : Nat) : Nat :=
  ((addr + align - 1) % 2 ^ bits) &&& (2 ^ bits - 1 - (align - 1))

/-- The macro `#define ALIGN_DOWN(addr, align) ((addr) & ~(align-1))` on unsigned words. -/
def ALIGN_DOWN (bits addr align : Nat) : Nat :=
  addr &&& (2 ^ bits - 1 - (align - 1))

/-! ## The traced process and the trace requests -/

/-- The process under trace: its register set, its memory as bytes, whether it still
exists, and `other`, an opaque code for everything else its next instruction may depend on. -/
structure Tracee (R : Type) where
  regs : R
  mem : Nat → Fin 256
  alive : Bool
  other : Nat

/-- Trace requests, as recorded in the log. -/
inductive Op where
  | GETREGS
  | SETREGS
  | PEEKTEXT (addr : Nat)
  | POKETEXT (addr data : Nat)
  | SINGLESTEP
  | WAITPID
  deriving DecidableEq, Repr

/-- Ways the controller stops without returning from the function. -/
inductive Halt where
  | exit (code : Nat)
  | assertFail
  | bufferOverrun
  | outOfFuel
  deriving DecidableEq, Repr

/-- Fields of `struct tracexec` (`reset_regs`, `regs`), the controller's `errno` and its own
code bytes read as words (`text`), and the operating system's side: the tracee, the wait
status of its last stop, and the log of requests issued so far. -/
structure World (R : Type) where
  reset_regs : R
  regs : R
  errno : Nat
  text : Nat → Nat
  tracee : Tracee R
  status : Nat
  log : List Op

/-- What the build-time architecture fixes: `sizeof(long)`, the `IP(regs)` accessor
(read and write), and whether the build is the `__arm__` one.  The two proof fields say
that `IP(regs) = v` stores `v`, and that a `long` has at least one byte. -/
structure Profile (R : Type) where
  sizeof_long : Nat
  IP : R → Nat
  setIP : R → Nat → R
  arm : Bool
  IP_setIP : ∀ r v, IP (setIP r v) = v
  sizeof_pos : 0 < sizeof_long

/-- Width of `long` in bits. -/
def Profile.bits {R : Type} (P : Profile R) : Nat := 8 * P.sizeof_long

/-- Result of a controller function: halted (with the world at that moment) or returned. -/
abbrev Result (R α : Type) := Except (Halt × World R) α

/-- The `errno` value "no such process". -/
def ESRCH : Nat := 3
/-- The signal number of SIGTRAP. -/
def SIGTRAP : Nat := 5

/-- The macro `WIFSTOPPED(status)` of `<sys/wait.h>`. -/
def WIFSTOPPED (status : Nat) : Bool := status &&& 0xff == 0x7f
/-- The macro `WSTOPSIG(status)` of `<sys/wait.h>`. -/
def WSTOPSIG (status : Nat) : Nat := (status &&& 0xff00) >>> 8
/-- The macro `WIFEXITED(status)` of `<sys/wait.h>`. -/
def WIFEXITED (status : Nat) : Bool := status &&& 0x7f == 0

/-- Little-endian word of `n` bytes read at `addr`. -/
def peek_word (mem : Nat → Fin 256) (addr : Nat) : Nat → Nat
  | 0 => 0
  | n + 1 => (mem addr).val + 256 * peek_word mem (addr + 1) n

/-- Memory after storing the `n` little-endian bytes of `data` at `addr`. -/
def poke_word (mem : Nat → Fin 256) (addr data n : Nat) : Nat → Fin 256 :=
  fun a => if addr ≤ a ∧ a < addr + n then Fin.ofNat (data / 256 ^ (a - addr)) else mem a

section Requests
variable {R : Type}

/-- The request failed because the tracee is gone: `-1`, `errno = ESRCH`. -/
def failed (P : Profile R) (op : Op) (w : World R) : Nat × World R :=
  (neg1 P.bits, { w with errno := ESRCH, log := w.log ++ [op] })

/-- The request `ptrace(PTRACE_GETREGS, pid, 0, &regs)`. -/
def ptrace_GETREGS (P : Profile R) (w : World R) : Nat × World R :=
  if w.tracee.alive then (0, { w with regs := w.tracee.regs, log := w.log ++ [Op.GETREGS] })
  else failed P Op.GETREGS w

/-- The request `ptrace(PTRACE_SETREGS, pid, 0, &r)`. -/
def ptrace_SETREGS (P : Profile R) (w : World R) (r : R) : Nat × World R :=
  if w.tracee.alive then
    (0, { w with tracee := { w.tracee with regs := r }, log := w.log ++ [Op.SETREGS] })
  else failed P Op.SETREGS w

/-- The request `ptrace(PTRACE_PEEKTEXT, pid, addr, 0)`: the word at `addr` is the return value. -/
def ptrace_PEEKTEXT (P : Profile R) (w : World R) (addr : Nat) : Nat × World R :=
  if w.tracee.alive then
    (peek_word w.tracee.mem addr P.sizeof_long, { w with log := w.log ++ [Op.PEEKTEXT addr] })
  else failed P (Op.PEEKTEXT addr) w

/-- The request `ptrace(PTRACE_POKETEXT, pid, addr, data)`. -/
def ptrace_POKETEXT (P : Profile R) (w : World R) (addr data : Nat) : Nat × World R :=
  if w.tracee.alive then
    (0, { w with
            tracee := { w.tracee with mem := poke_word w.tracee.mem addr data P.sizeof_long },
            log := w.log ++ [Op.POKETEXT addr data] })
  else failed P (Op.POKETEXT addr data) w

/-- The request `ptrace(PTRACE_SINGLESTEP, pid, 0, 0)`: the tracee runs one instruction, `step` says
what that does to it and with which wait status it stops or ends. -/
def ptrace_SINGLESTEP (P : Profile R) (step : Tracee R → Tracee R × Nat) (w : World R) :
    Nat × World R :=
  if w.tracee.alive then
    (0, { w with tracee := (step w.tracee).1, status := (step w.tracee).2,
                 log := w.log ++ [Op.SINGLESTEP] })
  else failed P Op.SINGLESTEP w

/-- The call `waitpid(pid, &status, 0)`: hands over the status of the last state change. -/
def waitpid (w : World R) : Nat × World R :=
  (w.status, { w with log := w.log ++ [Op.WAITPID] })

/-- The `try_ptrace` wrapper applied to a request's outcome:
`err = ptrace(..); if (err == -1 && errno != 0) { perror(..); printf(..); exit(1); }`. -/
def try_ptrace (P : Profile R) (r : Nat × World R) : Result R (Nat × World R) :=
  if r.1 = neg1 P.bits ∧ r.2.errno ≠ 0 then .error (Halt.exit 1, r.2) else .ok r

end Requests

/-! ## `execute` -/

section Execute
variable {R : Type}

/-- The save-and-overwrite loop of `execute` (lines 152-157), from index `i`, with `n`
iterations left:
`errno = 0; try_ptrace(PEEKTEXT, &ip[i]); buffer[i] = err; try_ptrace(POKETEXT, &ip[i], lbegin[i]);`
The scratch buffer is `long buffer[512]`; a store past its end stops the model. -/
def save_loop (P : Profile R) (ip lbegin : Nat) :
    Nat → Nat → (Nat → Nat) → World R → Result R ((Nat → Nat) × World R)
  | 0, _, buffer, w => .ok (buffer, w)
  | n + 1, i, buffer, w =>
    match try_ptrace P (ptrace_PEEKTEXT P { w with errno := 0 } (ip + P.sizeof_long * i)) with
    | .error e => .error e
    | .ok (err, w1) =>
      if 512 ≤ i then .error (Halt.bufferOverrun, w1) else
      match try_ptrace P (ptrace_POKETEXT P w1 (ip + P.sizeof_long * i)
              (w1.text (lbegin + P.sizeof_long * i))) with
      | .error e => .error e
      | .ok (_, w2) => save_loop P ip lbegin n (i + 1) (Function.update buffer i err) w2

/-- The restore loop of `execute` (lines 186-188), from index `i`, `n` iterations left:
`try_ptrace(POKETEXT, &ip[i], buffer[i]);` -/
def restore_loop (P : Profile R) (ip : Nat) (buffer : Nat → Nat) :
    Nat → Nat → World R → Result R (World R)
  | 0, _, w => .ok w
  | n + 1, i, w =>
    match try_ptrace P (ptrace_POKETEXT P w (ip + P.sizeof_long * i) (buffer i)) with
    | .error e => .error e
    | .ok (_, w1) => restore_loop P ip buffer n (i + 1) w1

/-- The fixed-count loop (lines 161-164), `n` iterations left:
`try_ptrace(SINGLESTEP); waitpid(pid, 0, 0);` -/
def step_fixed (P : Profile R) (step : Tracee R → Tracee R × Nat) :
    Nat → World R → Result R (World R)
  | 0, w => .ok w
  | n + 1, w =>
    match try_ptrace P (ptrace_SINGLESTEP P step w) with
    | .error e => .error e
    | .ok (_, w1) => step_fixed P step n (waitpid w1).2

/-- The trap loop `while (1) { .. }` (lines 170-183); `fuel` bounds the iterations the
model follows. -/
def step_trap (P : Profile R) (step : Tracee R → Tracee R × Nat) :
    Nat → World R → Result R (World R)
  | 0, w => .error (Halt.outOfFuel, w)
  | fuel + 1, w =>
    match try_ptrace P (ptrace_SINGLESTEP P step w) with
    | .error e => .error e
    | .ok (_, w1) =>
      let status := (waitpid w1).1
      let w2 := (waitpid w1).2
      if WIFSTOPPED status && WSTOPSIG status == SIGTRAP then
        match try_ptrace P (ptrace_GETREGS P w2) with
        | .error e => .error e
        | .ok (_, w3) =>
          match try_ptrace P (ptrace_PEEKTEXT P { w3 with errno := 0 } (P.IP w3.regs)) with
          | .error e => .error e
          | .ok (err, w4) =>
            if err &&& 0xff = 0xcc then .ok w4 else step_trap P step fuel w4
      else if WIFEXITED status then .error (Halt.exit 1, w2)
      else step_trap P step fuel w2

/-- Number of words `execute` handles: `int nwords = lend - lbegin` with
`lend = ALIGN_UP(end, sizeof(long))` (lines 142-144).  The operands are `const long*`:
the difference is the signed `ptrdiff_t` byte difference divided by `sizeof(long)`,
and the initialisation converts it to `int`. -/
def nwords (P : Profile R) (begin_ end_ : Nat) : Int :=
  toInt32 (Int.tdiv (ptrdiff P.bits (ALIGN_UP P.bits end_ P.sizeof_long) begin_) P.sizeof_long)

/-- Lines 138-158 of `execute`: the two asserts, the first-call register read, the
alignment of the instruction pointer, the save-and-overwrite loop and the register
push.  Returns the scratch buffer with the world.  The second assert compares the
`ptrdiff_t` value of `end - begin` (two `const char*`) with 0. -/
def execute_inject (P : Profile R) (begin_ end_ : Nat) (w : World R) :
    Result R ((Nat → Nat) × World R) :=
  if begin_ ≠ ALIGN_DOWN P.bits begin_ P.sizeof_long then .error (Halt.assertFail, w)
  else if ¬ (ptrdiff P.bits end_ begin_ > 0) then .error (Halt.assertFail, w)
  else
    match (if P.IP w.regs = 0 then try_ptrace P (ptrace_GETREGS P w) else .ok (0, w)) with
    | .error e => .error e
    | .ok (_, w1) =>
      let w2 := { w1 with regs := P.setIP w1.regs (ALIGN_DOWN P.bits (P.IP w1.regs) P.sizeof_long) }
      match save_loop P (P.IP w2.regs) begin_ (nwords P begin_ end_).toNat 0 (fun _ => 0) w2 with
      | .error e => .error e
      | .ok (buffer, w3) =>
        match try_ptrace P (ptrace_SETREGS P w3 w3.regs) with
        | .error e => .error e
        | .ok (_, w4) => .ok (buffer, w4)

/-- Lines 160-184 of `execute`: the stepping, fixed-count or until the trap. -/
def execute_run (P : Profile R) (step : Tracee R → Tracee R × Nat) (fuel : Nat)
    (ninstr : Int) (w : World R) : Result R (World R) :=
  if ninstr ≠ -1 then step_fixed P step ninstr.toNat w
  else if P.arm then .error (Halt.exit 2, w)
  else step_trap P step fuel w

/-- Lines 186-191 of `execute`: the restore loop over `ip[0..nwords)`, then
`try_ptrace(GETREGS, &regs); try_ptrace(SETREGS, &reset_regs);`.  The pointer `ip` is the
local computed before the stepping. -/
def execute_restore (P : Profile R) (ip : Nat) (n : Int) (buffer : Nat → Nat) (w : World R) :
    Result R (World R) :=
  match restore_loop P ip buffer n.toNat 0 w with
  | .error e => .error e
  | .ok w1 =>
    match try_ptrace P (ptrace_GETREGS P w1) with
    | .error e => .error e
    | .ok (_, w2) =>
      match try_ptrace P (ptrace_SETREGS P w2 w2.reset_regs) with
      | .error e => .error e
      | .ok (_, w3) => .ok w3

/-- The working register set `execute` starts from when entered in world `w`: `regs`, read
afresh from the tracee when `IP(regs) == 0` (lines 146-148). -/
def working_regs (P : Profile R) (w : World R) : R :=
  if P.IP w.regs = 0 then w.tracee.regs else w.regs

/-- The injection address `ip` of a call of `execute` entered in world `w`: the working
instruction pointer aligned down to the word size (lines 150-151). -/
def injection_address (P : Profile R) (w : World R) : Nat :=
  ALIGN_DOWN P.bits (P.IP (working_regs P w)) P.sizeof_long

/-- The method `void execute(const char * begin, const char * end, int ninstr)`. -/
def execute (P : Profile R) (step : Tracee R → Tracee R × Nat) (fuel : Nat)
    (begin_ end_ : Nat) (ninstr : Int) (w : World R) : Result R (World R) :=
  match execute_inject P begin_ end_ w with
  | .error e => .error e
  | .ok (buffer, w1) =>
    match execute_run P step fuel ninstr w1 with
    | .error e => .error e
    | .ok w2 =>
      execute_restore P (P.IP w1.regs) (nwords P begin_ end_) buffer w2

end Execute

/-! ## Request logs, for stating what a call issues -/

/-- Requests of the save-and-overwrite loop from index `i`, `n` words left: one peek and one
poke per word, the poke carrying the snippet word `lbegin[i]`. -/
def save_log (s ip lbegin : Nat) (text : Nat → Nat) : Nat → Nat → List Op
  | 0, _ => []
  | n + 1, i =>
    Op.PEEKTEXT (ip + s * i) :: Op.POKETEXT (ip + s * i) (text (lbegin + s * i)) ::
      save_log s ip lbegin text n (i + 1)

/-- Requests of the restore loop from index `i`, `n` words left: one poke per word, carrying
`buffer[i]`. -/
def restore_log (s ip : Nat) (buffer : Nat → Nat) : Nat → Nat → List Op
  | 0, _ => []
  | n + 1, i => Op.POKETEXT (ip + s * i) (buffer i) :: restore_log s ip buffer n (i + 1)

/-- The log of `n` single-steps, each followed by one wait. -/
def step_log : Nat → List Op
  | 0 => []
  | n + 1 => Op.SINGLESTEP :: Op.WAITPID :: step_log n

/-- The tracee after `k` single-steps. -/
def tracee_after {R : Type} (step : Tracee R → Tracee R × Nat) : Nat → Tracee R → Tracee R
  | 0, t => t
  | k + 1, t => tracee_after step k (step t).1

/-- The wait status reported for the `k`-th single-step (`k ≥ 1`) from tracee state `t`. -/
def status_after {R : Type} (step : Tracee R → Tracee R × Nat) (k : Nat) (t : Tracee R) : Nat :=
  (step (tracee_after step (k - 1) t)).2

/-- After the `k`-th single-step (`k ≥ 1`) the tracee is stopped with SIGTRAP and the byte at
its instruction pointer is the breakpoint opcode `0xcc`. -/
def trap_seen {R : Type} (P : Profile R) (step : Tracee R → Tracee R × Nat) (t : Tracee R)
    (k : Nat) : Bool :=
  WIFSTOPPED (status_after step k t) && WSTOPSIG (status_after step k t) == SIGTRAP &&
    ((tracee_after step k t).mem (P.IP (tracee_after step k t).regs)).val == 0xcc

/-! ## The 64-bit profile (`__amd64__`) -/

/-- The type `struct user_regs_struct` of `<sys/user.h>` on x86-64. -/
structure user_regs_struct where
  r15 : Nat
  r14 : Nat
  r13 : Nat
  r12 : Nat
  rbp : Nat
  rbx : Nat
  r11 : Nat
  r10 : Nat
  r9 : Nat
  r8 : Nat
  rax : Nat
  rcx : Nat
  rdx : Nat
  rsi : Nat
  rdi : Nat
  orig_rax : Nat
  rip : Nat
  cs : Nat
  eflags : Nat
  rsp : Nat
  ss : Nat
  fs_base : Nat
  gs_base : Nat
  ds : Nat
  es : Nat
  fs : Nat
  gs : Nat
  deriving DecidableEq, Repr

/-- The `__amd64__` build: `sizeof(long) = 8`, `IP(regs) = regs.rip`. -/
def amd64 : Profile user_regs_struct where
  sizeof_long := 8
  IP := fun r => r.rip
  setIP := fun r v => { r with rip := v }
  arm := false
  IP_setIP := fun _ _ => rfl
  sizeof_pos := by decide

namespace Amd64

/-- Lines 101-110 of the amd64 `tracee_syscall`: read the registers, store the call number
in `rax` and the first `narg` arguments in `rdi, rsi, rdx, r10, r8, r9`.  A guarded
assignment `if (narg >= k) regs.f = v;` is written `regs.f = (narg >= k) ? v : regs.f`.
The variadic arguments are `args 0, args 1, ..` in order; because each test `narg >= k`
implies the ones before it, the k-th `va_arg` always yields `args (k-1)`. -/
def tracee_syscall_marshal (nr narg : Int) (args : Nat → Int) (w : World user_regs_struct) :
    Result user_regs_struct (World user_regs_struct) :=
  match try_ptrace amd64 (ptrace_GETREGS amd64 w) with
  | .error e => .error e
  | .ok (_, w1) =>
    let r0 := { w1.regs with rax := toUnsigned 64 nr }
    let r1 := { r0 with rdi := if narg ≥ 1 then toUnsigned 64 (args 0) else r0.rdi }
    let r2 := { r1 with rsi := if narg ≥ 2 then toUnsigned 64 (args 1) else r1.rsi }
    let r3 := { r2 with rdx := if narg ≥ 3 then toUnsigned 64 (args 2) else r2.rdx }
    let r4 := { r3 with r10 := if narg ≥ 4 then toUnsigned 64 (args 3) else r3.r10 }
    let r5 := { r4 with r8 := if narg ≥ 5 then toUnsigned 64 (args 4) else r4.r8 }
    let r6 := { r5 with r9 := if narg ≥ 6 then toUnsigned 64 (args 5) else r5.r9 }
    .ok { w1 with regs := r6 }

/-- The amd64 `long tracee_syscall(long nr, long narg, ...)`: marshal, then
`TRACEE_ASM("syscall")`, that is `execute(&&begin, &&end, -1)` on the bytes of
`syscall; int3` between the two labels (`no_dead_code` is 1, so the controller jumps over
them), then `return regs.rax`.  `code_begin`, `code_end` are the addresses of the labels. -/
def tracee_syscall (step : Tracee user_regs_struct → Tracee user_regs_struct × Nat)
    (fuel : Nat) (code_begin code_end : Nat) (nr narg : Int) (args : Nat → Int)
    (w : World user_regs_struct) : Result user_regs_struct (Int × World user_regs_struct) :=
  match tracee_syscall_marshal nr narg args w with
  | .error e => .error e
  | .ok w1 =>
    match execute amd64 step fuel code_begin code_end (-1) w1 with
    | .error e => .error e
    | .ok w2 => .ok (toSigned 64 w2.regs.rax, w2)

def NR_read : Int := 0
def NR_ioctl : Int := 16
def NR_fcntl : Int := 72

/-- The variadic argument list holding exactly `a, b, c`. -/
def args3 (a b c : Int) : Nat → Int := fun k => [a, b, c].getD k 0

/-- What `va_arg(ap, long)` reads where the caller passed a 32-bit argument (`int fd`,
`unsigned int cmd`) through `...`: the argument keeps its 32 bits, it is not converted
to `long`.  It sits in the low half of an 8-byte slot whose upper half the 32-bit
register move has cleared, so the `long` read is the 32-bit pattern, zero-extended:
`fd = -1` is read as `0xffffffff`. -/
def slot32 (x : Int) : Int := (toUnsigned 32 x : Int)

/-- What `va_arg(ap, long)` reads where the caller passed a 64-bit argument
(`unsigned long`, `void*`, `size_t`): the same 64 bits, read as signed. -/
def slot64 (u : Nat) : Int := toSigned 64 u

/-- The wrapper `long ioctl(int fd, unsigned int cmd, unsigned long arg)`:
`return tracee_syscall(__NR_ioctl, 3, fd, cmd, arg)`. -/
def ioctl (step : Tracee user_regs_struct → Tracee user_regs_struct × Nat)
    (fuel : Nat) (code_begin code_end : Nat) (fd : Int) (cmd arg : Nat)
    (w : World user_regs_struct) : Result user_regs_struct (Int × World user_regs_struct) :=
  tracee_syscall step fuel code_begin code_end NR_ioctl 3
    (args3 (slot32 fd) (slot32 cmd) (slot64 arg)) w

/-- The wrapper `long fcntl(int fd, unsigned int cmd, unsigned long arg)`:
`return tracee_syscall(__NR_fcntl, 3, fd, cmd, arg)`. -/
def fcntl (step : Tracee user_regs_struct → Tracee user_regs_struct × Nat)
    (fuel : Nat) (code_begin code_end : Nat) (fd : Int) (cmd arg : Nat)
    (w : World user_regs_struct) : Result user_regs_struct (Int × World user_regs_struct) :=
  tracee_syscall step fuel code_begin code_end NR_fcntl 3
    (args3 (slot32 fd) (slot32 cmd) (slot64 arg)) w

/-- The wrapper `long read(int fd, void * buf, size_t count)`:
`return tracee_syscall(__NR_read, 3, fd, buf, count)`. -/
def read (step : Tracee user_regs_struct → Tracee user_regs_struct × Nat)
    (fuel : Nat) (code_begin code_end : Nat) (fd : Int) (buf count : Nat)
    (w : World user_regs_struct) : Result user_regs_struct (Int × World user_regs_struct) :=
  tracee_syscall step fuel code_begin code_end NR_read 3
    (args3 (slot32 fd) (slot64 buf) (slot64 count)) w

/-- One call issued on the handle: `execute` on a snippet, or `tracee_syscall`. -/
inductive Call where
  | execute (begin_ end_ : Nat) (ninstr : Int)
  | tracee_syscall (code_begin code_end : Nat) (nr narg : Int) (args : Nat → Int)

/-- The world after one call, when it returns. -/
def run_call (step : Tracee user_regs_struct → Tracee user_regs_struct × Nat) (fuel : Nat) :
    Call → World user_regs_struct → Result user_regs_struct (World user_regs_struct)
  | Call.execute b e n, w => Tracexec.execute amd64 step fuel b e n w
  | Call.tracee_syscall b e nr narg args, w =>
    match tracee_syscall step fuel b e nr narg args w with
    | .error e => .error e
    | .ok (_, w1) => .ok w1

/-- A sequence of calls issued one after the other on the same handle. -/
def run_calls (step : Tracee user_regs_struct → Tracee user_regs_struct × Nat) (fuel : Nat) :
    List Call → World user_regs_struct → Result user_regs_struct (World user_regs_struct)
  | [], w => .ok w
  | c :: cs, w =>
    match run_call step fuel c w with
    | .error e => .error e
    | .ok w1 => run_calls step fuel cs w1

end Amd64

/-! ## The 32-bit profile (`__arm__`) -/

/-- The type `struct user_regs` of `<sys/user.h>` on arm: `unsigned long uregs[18]`. -/
structure user_regs where
  uregs : Fin 18 → Nat

/-- The `__arm__` build: `sizeof(long) = 4`, `IP(regs) = regs.uregs[15]`. -/
def arm32 : Profile user_regs where
  sizeof_long := 4
  IP := fun r => r.uregs 15
  setIP := fun r v => { r with uregs := Function.update r.uregs 15 v }
  arm := true
  IP_setIP := fun _ _ => by simp
  sizeof_pos := by decide

namespace Arm

/-- The assignment `regs.uregs[k] = v`. -/
def set_ureg (r : user_regs) (k : Fin 18) (v : Nat) : user_regs :=
  { r with uregs := Function.update r.uregs k v }

/-- Lines 121-131 of the arm `tracee_syscall`: read the registers, store the call number in
`uregs[7]` and the first `narg` arguments in `uregs[0..6]`. -/
def tracee_syscall_marshal (nr narg : Int) (args : Nat → Int) (w : World user_regs) :
    Result user_regs (World user_regs) :=
  match try_ptrace arm32 (ptrace_GETREGS arm32 w) with
  | .error e => .error e
  | .ok (_, w1) =>
    let r0 := set_ureg w1.regs 7 (toUnsigned 32 nr)
    let r1 := if narg ≥ 1 then set_ureg r0 0 (toUnsigned 32 (args 0)) else r0
    let r2 := if narg ≥ 2 then set_ureg r1 1 (toUnsigned 32 (args 1)) else r1
    let r3 := if narg ≥ 3 then set_ureg r2 2 (toUnsigned 32 (args 2)) else r2
    let r4 := if narg ≥ 4 then set_ureg r3 3 (toUnsigned 32 (args 3)) else r3
    let r5 := if narg ≥ 5 then set_ureg r4 4 (toUnsigned 32 (args 4)) else r4
    let r6 := if narg ≥ 6 then set_ureg r5 5 (toUnsigned 32 (args 5)) else r5
    let r7 := if narg ≥ 7 then set_ureg r6 6 (toUnsigned 32 (args 6)) else r6
    .ok { w1 with regs := r7 }

/-- The arm `long tracee_syscall(long nr, long narg, ...)`: marshal, then
`TRACEE_ASMN(1, "swi #0")`, that is `execute(&&begin, &&end, 1)`, then
`return regs.uregs[0]`. -/
def tracee_syscall (step : Tracee user_regs → Tracee user_regs × Nat)
    (fuel : Nat) (code_begin code_end : Nat) (nr narg : Int) (args : Nat → Int)
    (w : World user_regs) : Result user_regs (Int × World user_regs) :=
  match tracee_syscall_marshal nr narg args w with
  | .error e => .error e
  | .ok w1 =>
    match execute arm32 step fuel code_begin code_end 1 w1 with
    | .error e => .error e
    | .ok w2 => .ok (toSigned 32 (w2.regs.uregs 0), w2)

def NR_read : Int := 3
def NR_ioctl : Int := 54
def NR_fcntl : Int := 55

/-- What `va_arg(ap, long)` reads for a variadic argument of the 32-bit profile: `int`,
`unsigned int`, `unsigned long`, `void*` and `size_t` are all as wide as `long` there, so
it is the argument's 32 bits read as signed. -/
def slot (x : Int) : Int := toSigned 32 (toUnsigned 32 x)

/-- The wrapper `long ioctl(int fd, unsigned int cmd, unsigned long arg)`:
`return tracee_syscall(__NR_ioctl, 3, fd, cmd, arg)`. -/
def ioctl (step : Tracee user_regs → Tracee user_regs × Nat)
    (fuel : Nat) (code_begin code_end : Nat) (fd : Int) (cmd arg : Nat)
    (w : World user_regs) : Result user_regs (Int × World user_regs) :=
  tracee_syscall step fuel code_begin code_end NR_ioctl 3
    (Amd64.args3 (slot fd) (slot cmd) (slot arg)) w

/-- The wrapper `long fcntl(int fd, unsigned int cmd, unsigned long arg)`:
`return tracee_syscall(__NR_fcntl, 3, fd, cmd, arg)`. -/
def fcntl (step : Tracee user_regs → Tracee user_regs × Nat)
    (fuel : Nat) (code_begin code_end : Nat) (fd : Int) (cmd arg : Nat)
    (w : World user_regs) : Result user_regs (Int × World user_regs) :=
  tracee_syscall step fuel code_begin code_end NR_fcntl 3
    (Amd64.args3 (slot fd) (slot cmd) (slot arg)) w

/-- The wrapper `long read(int fd, void * buf, size_t count)`:
`return tracee_syscall(__NR_read, 3, fd, buf, count)`. -/
def read (step : Tracee user_regs → Tracee user_regs × Nat)
    (fuel : Nat) (code_begin code_end : Nat) (fd : Int) (buf count : Nat)
    (w : World user_regs) : Result user_regs (Int × World user_regs) :=
  tracee_syscall step fuel code_begin code_end NR_read 3
    (Amd64.args3 (slot fd) (slot buf) (slot count)) w

end Arm

/-! ## Concrete tracees and worlds, used to exercise the theorems -/

namespace Sample

def zero_regs : user_regs_struct :=
  ⟨0, 0, 0, 0, 0, 0, 0, 0, 0, 0, 0, 0, 0, 0, 0, 0, 0, 0, 0, 0, 0, 0, 0, 0, 0, 0, 0⟩

/-- Registers of a stopped 64-bit user-mode process: the user code and stack selectors
`cs = 0x33`, `ss = 0x2b`, flags `0x246`, a stack pointer; the other registers zero. -/
def user_mode_regs : user_regs_struct :=
  { zero_regs with cs := 0x33, ss := 0x2b, eflags := 0x246, rsp := 0x7ffc12345000 }

/-- A small x86-64 tracee: `0f 05` (syscall) puts -9 in `rax` and advances by 2, any other
byte is a one-byte instruction; every step stops with SIGTRAP (status `0x057f`). -/
def toy_step (t : Tracee user_regs_struct) : Tracee user_regs_struct × Nat :=
  if t.mem t.regs.rip = 0x0f ∧ t.mem (t.regs.rip + 1) = 0x05 then
    ({ t with regs := { t.regs with rax := neg1 64 - 8, rip := t.regs.rip + 2 } }, 0x057f)
  else ({ t with regs := { t.regs with rip := t.regs.rip + 1 } }, 0x057f)

/-- A user-mode tracee stopped at `0x1003` with `rax = 7`, memory filled with `0x90` except
a `0xff` byte at `0x1001`; the handle has its baseline set to the tracee's registers, its
working set still zero, and a stale `errno`; the controller's code at `0x2000` holds
`0f 05 cc` (syscall; int3) followed by `0x90` bytes. -/
def world0 : World user_regs_struct where
  reset_regs := { user_mode_regs with rip := 0x1003, rax := 7 }
  regs := zero_regs
  errno := 11
  text := fun a => if a = 0x2000 then 0x9090909090cc050f else 0
  tracee :=
    { regs := { user_mode_regs with rip := 0x1003, rax := 7 }
      mem := fun a => if a = 0x1001 then 0xff else 0x90
      alive := true
      other := 0 }
  status := 0
  log := []

/-- The world after `execute(0x2000, 0x2003, -1)` on `world0`. -/
def world0_done : World user_regs_struct :=
  match execute amd64 toy_step 5 0x2000 0x2003 (-1) world0 with
  | .ok w => w
  | .error e => e.2

/-- The same tracee under a freshly zeroed handle: `regs` and `reset_regs` all zero. -/
def fresh : World user_regs_struct :=
  { world0 with reset_regs := zero_regs }

/-- Scratch buffer and world after lines 138-158 (with the first-call register read of
lines 146-148) of `execute(0x2000, 0x2003, -1)` on `fresh`. -/
def fresh_injected : (Nat → Nat) × World user_regs_struct :=
  match execute_inject amd64 0x2000 0x2003 fresh with
  | .ok x => x
  | .error e => (fun _ => 0, e.2)

/-- The same tracee under a fresh handle whose storage was not zero: `struct tracexec`
initialises neither register field, and here `reset_regs` happens to hold a user-mode
register set with `rip = 0x4000` and `rbx = 5`, while `regs` is zero. -/
def fresh_nonzero : World user_regs_struct :=
  { world0 with reset_regs := { user_mode_regs with rip := 0x4000, rbx := 5 } }

/-- The world after the one-call sequence `execute(0x2000, 0x2003, -1)` on
`fresh_nonzero`. -/
def fresh_nonzero_done : World user_regs_struct :=
  match Amd64.run_calls toy_step 5 [Amd64.Call.execute 0x2000 0x2003 (-1)] fresh_nonzero with
  | .ok w => w
  | .error e => e.2

/-- The world after `tracee_syscall(16, 3, 1, 2, 3)` and then `execute(0x2000, 0x2003, -1)`
on `world0`. -/
def world0_twice : World user_regs_struct :=
  match Amd64.run_calls toy_step 5
      [Amd64.Call.tracee_syscall 0x2000 0x2003 16 3 (Amd64.args3 1 2 3),
       Amd64.Call.execute 0x2000 0x2003 (-1)] world0 with
  | .ok w => w
  | .error e => e.2

/-- The tracee of `world0` with the breakpoint opcode first in the snippet:
`cc 90 90 ..` at `0x2000`. -/
def world_cc : World user_regs_struct :=
  { world0 with text := fun a => if a = 0x2000 then 0x90909090909090cc else 0 }

/-- The world after `execute(0x2000, 0x2008, 3)` on `world_cc`. -/
def world_cc_done : World user_regs_struct :=
  match execute amd64 toy_step 0 0x2000 0x2008 3 world_cc with
  | .ok w => w
  | .error e => e.2

/-- The tracee of `world0` with the snippet `90 0f 05 cc` (nop; syscall; int3). -/
def world_nop : World user_regs_struct :=
  { world0 with text := fun a => if a = 0x2000 then 0x90909090cc050f90 else 0 }

/-- Scratch buffer and world after lines 138-158 of `execute(0x2000, 0x2004, ..)` on
`world_nop`. -/
def world_nop_injected : (Nat → Nat) × World user_regs_struct :=
  match execute_inject amd64 0x2000 0x2004 world_nop with
  | .ok x => x
  | .error e => (fun _ => 0, e.2)

/-- A user-mode tracee stopped with its instruction pointer at 0 (and `rax = 7`), under the
handle of `world0`. -/
def world_null : World user_regs_struct :=
  { world0 with
    tracee := { world0.tracee with regs := { user_mode_regs with rip := 0, rax := 7 } } }

/-- Working set after the marshalling of `tracee_syscall(16, 3, 1, 2, 3)` on `world_null`. -/
def world_null_marshalled : World user_regs_struct :=
  match Amd64.tracee_syscall_marshal 16 3 (Amd64.args3 1 2 3) world_null with
  | .ok w => w
  | .error e => e.2

/-- Scratch buffer and world after lines 138-158 of the `execute` that this
`tracee_syscall` calls. -/
def world_null_injected : (Nat → Nat) × World user_regs_struct :=
  match execute_inject amd64 0x2000 0x2003 world_null_marshalled with
  | .ok x => x
  | .error e => (fun _ => 0, e.2)

/-- Working set after the marshalling of `tracee_syscall(16, 2, 1, 2)` on `world0`. -/
def world0_marshalled : World user_regs_struct :=
  match Amd64.tracee_syscall_marshal 16 2 (Amd64.args3 1 2 3) world0 with
  | .ok w => w
  | .error e => e.2

/-- Scratch buffer and world after lines 138-158 of the `execute` that this
`tracee_syscall` calls. -/
def world0_injected : (Nat → Nat) × World user_regs_struct :=
  match execute_inject amd64 0x2000 0x2003 world0_marshalled with
  | .ok x => x
  | .error e => (fun _ => 0, e.2)

/-- An arm tracee whose register `k` holds `100 + k`, under a zeroed handle. -/
def arm_world : World user_regs where
  reset_regs := ⟨fun _ => 0⟩
  regs := ⟨fun _ => 0⟩
  errno := 0
  text := fun _ => 0
  tracee := { regs := ⟨fun k => 100 + k.val⟩, mem := fun _ => 0, alive := true, other := 0 }
  status := 0
  log := []

/-- The variadic arguments `1, 2, 3, ..`. -/
def counting_args : Nat → Int := fun k => (k : Int) + 1

/-- Working set after the marshalling of the arm `tracee_syscall(54, 7, 1, .., 7)`. -/
def arm_marshalled7 : World user_regs :=
  match Arm.tracee_syscall_marshal 54 7 counting_args arm_world with
  | .ok w => w
  | .error e => e.2

/-- Working set after the marshalling of the arm `tracee_syscall(54, 3, 1, 2, 3)`. -/
def arm_marshalled3 : World user_regs :=
  match Arm.tracee_syscall_marshal 54 3 counting_args arm_world with
  | .ok w => w
  | .error e => e.2

/-- A tracee like `toy_step`, except that its `0f 05` (syscall) is `exit(0)`: the tracee is
gone afterwards and the wait status is `0` (exited, code 0). -/
def dying_step (t : Tracee user_regs_struct) : Tracee user_regs_struct × Nat :=
  if t.mem t.regs.rip = 0x0f ∧ t.mem (t.regs.rip + 1) = 0x05 then
    ({ t with alive := false }, 0)
  else ({ t with regs := { t.regs with rip := t.regs.rip + 1 } }, 0x057f)

/-- Scratch buffer and world after lines 138-158 of `execute(0x2000, 0x2003, ..)` on
`world0`. -/
def world0_injected_raw : (Nat → Nat) × World user_regs_struct :=
  match execute_inject amd64 0x2000 0x2003 world0 with
  | .ok x => x
  | .error e => (fun _ => 0, e.2)

/-- The tracee of `world0` with every byte of the injection region `0x1000..0x1007` set to
`0xff`, so that the one word `execute` saves has all bits set; the handle's `errno` is the
stale, nonzero 11. -/
def world_ones : World user_regs_struct :=
  { world0 with
    tracee := { world0.tracee with
      mem := (fun a => if 0x1000 ≤ a ∧ a < 0x1008 then 0xff else 0x90) } }

/-- The world after `execute(0x2000, 0x2003, -1)` on `world_ones`. -/
def world_ones_done : World user_regs_struct :=
  match execute amd64 toy_step 5 0x2000 0x2003 (-1) world_ones with
  | .ok w => w
  | .error e => e.2

/-- Result of `ioctl(1, 2, 3)` on `world0`. -/
def world0_ioctl : Int × World user_regs_struct :=
  match Amd64.ioctl toy_step 5 0x2000 0x2003 1 2 3 world0 with
  | .ok x => x
  | .error e => (0, e.2)

/-- Registers of a stopped 32-bit user-mode process: `pc = 0x8004`, `cpsr = 0x10` (user
mode), a stack pointer, `r0 = 7`; the other registers zero. -/
def arm_user_regs : user_regs :=
  ⟨fun k => if k = 15 then 0x8004 else if k = 16 then 0x10 else if k = 13 then 0xbeff0000
    else if k = 0 then 7 else 0⟩

/-- A small arm tracee: every instruction is four bytes long and leaves -9 in `r0`; every
step stops with SIGTRAP. -/
def arm_toy_step (t : Tracee user_regs) : Tracee user_regs × Nat :=
  ({ t with regs := ⟨fun k => if k = 0 then neg1 32 - 8 else if k = 15 then t.regs.uregs 15 + 4
      else t.regs.uregs k⟩ }, 0x057f)

/-- An arm user-mode tracee stopped at `0x8004`; the handle has its baseline set to the
tracee's registers and its working set still zero; the controller's code at `0x2000` holds
`swi #0` (`0xef000000`). -/
def arm_live : World user_regs where
  reset_regs := arm_user_regs
  regs := ⟨fun _ => 0⟩
  errno := 0
  text := fun a => if a = 0x2000 then 0xef000000 else 0
  tracee := { regs := arm_user_regs, mem := fun _ => 0, alive := true, other := 0 }
  status := 0
  log := []

/-- Result of the arm `read(-1, 0x9000, 16)` on `arm_live`. -/
def arm_live_read : Int × World user_regs :=
  match Arm.read arm_toy_step 0 0x2000 0x2004 (-1) 0x9000 16 arm_live with
  | .ok x => x
  | .error e => (0, e.2)

/-- Scratch buffer and world after lines 138-158 of `execute(0x10000, 0x8000ffff, ..)` on
`arm_live`: a snippet of `2 ^ 31 - 1` bytes. -/
def arm_live_injected : (Nat → Nat) × World user_regs :=
  match execute_inject arm32 0x10000 0x8000ffff arm_live with
  | .ok x => x
  | .error e => (fun _ => 0, e.2)

end Sample

end Tracexec

/-! ## The touch state machine of `input.hpp` -/

namespace Inputs

/-- The enumeration `contact_tool` of class `Inputs`. -/
inductive contact_tool where
  | UNKNOWN_TOOL
  | FINGER
  | PEN
  deriving DecidableEq, Repr

/-- The enumeration `contact_state` of class `Inputs`. -/
inductive contact_state where
  | UNKNOWN_STATE
  | DOWN
  | UP
  deriving DecidableEq, Repr

/-- The member `istate` of class `Inputs`; the four coordinates are `int32_t`. -/
structure istate where
  x : Int
  y : Int
  prev_x : Int
  prev_y : Int
  tool : contact_tool
  state : contact_state
  moved : Bool
  deriving DecidableEq, Repr

/-- The fields of `struct input_event` that `handle_evdev` reads: `__u16 type`,
`__u16 code`, `__s32 value`. -/
structure input_event where
  type : Nat
  code : Nat
  value : Int
  deriving DecidableEq, Repr

/-! Event types and codes of `<linux/input-event-codes.h>`. -/

def EV_SYN : Nat := 0x00
def EV_KEY : Nat := 0x01
def EV_ABS : Nat := 0x03
def SYN_REPORT : Nat := 0
def BTN_TOOL_PEN : Nat := 0x140
def BTN_TOOL_FINGER : Nat := 0x145
def BTN_TOUCH : Nat := 0x14a
def ABS_X : Nat := 0x00
def ABS_Y : Nat := 0x01
def ABS_PRESSURE : Nat := 0x18
def ABS_MT_WIDTH_MAJOR : Nat := 0x32
def ABS_MT_POSITION_X : Nat := 0x35
def ABS_MT_POSITION_Y : Nat := 0x36
def ABS_MT_TOOL_TYPE : Nat := 0x37
def ABS_MT_TRACKING_ID : Nat := 0x39
def ABS_MT_PRESSURE : Nat := 0x3a

/-- The statement `if (ev->value > 0) istate.state = DOWN; else istate.state = UP;`. -/
def down_or_up (value : Int) : contact_state :=
  if value > 0 then contact_state.DOWN else contact_state.UP

/-- The `switch (ev->code)` of the `EV_KEY` branch (lines 107-135). -/
def switch_key (s : istate) (ev : input_event) : istate :=
  if ev.code = BTN_TOOL_PEN then
    { s with tool := contact_tool.PEN, state := down_or_up ev.value }
  else if ev.code = BTN_TOOL_FINGER then
    { s with tool := contact_tool.FINGER, state := down_or_up ev.value }
  else if ev.code = BTN_TOUCH then
    { s with state := down_or_up ev.value }
  else s

/-- The `switch (ev->code)` of the `EV_ABS` branch (lines 139-180). -/
def switch_abs (s : istate) (ev : input_event) : istate :=
  if ev.code = ABS_MT_TOOL_TYPE then
    if ev.value = 0 then { s with tool := contact_tool.FINGER }
    else if ev.value = 1 then { s with tool := contact_tool.PEN }
    else s
  else if ev.code = ABS_PRESSURE ∨ ev.code = ABS_MT_WIDTH_MAJOR ∨ ev.code = ABS_MT_PRESSURE then
    { s with state := down_or_up ev.value }
  else if ev.code = ABS_X ∨ ev.code = ABS_MT_POSITION_X then
    { s with x := ev.value }
  else if ev.code = ABS_Y ∨ ev.code = ABS_MT_POSITION_Y then
    { s with y := ev.value }
  else if ev.code = ABS_MT_TRACKING_ID then
    if ev.value = -1 then { s with state := contact_state.UP } else s
  else s

/-- The method `bool handle_evdev(Buffers & buffers, struct input_event * ev)` (lines 85-184)
as a function of `istate`; `buffers` is unused.  The sums `prev_x + 2`, `prev_x - 2` are
`int` arithmetic, kept to 32 bits with `toInt32`. -/
def handle_evdev (s : istate) (ev : input_event) : Bool × istate :=
  if ev.type = EV_SYN ∧ ev.code = SYN_REPORT then
    if (s.x > Tracexec.toInt32 (s.prev_x + 2) ∨ s.x < Tracexec.toInt32 (s.prev_x - 2)) ∨
        (s.y > Tracexec.toInt32 (s.prev_y + 2) ∨ s.y < Tracexec.toInt32 (s.prev_y - 2)) then
      (true, { s with prev_x := s.x, prev_y := s.y, moved := true })
    else (true, s)
  else
    let s1 := if ev.type = EV_KEY then switch_key s ev else s
    let s2 := if ev.type = EV_ABS then switch_abs s1 ev else s1
    (false, s2)

/-- A finger resting at `(100, 200)`, last reported there too, now read at `(103, 200)`. -/
def touch0 : istate :=
  { x := 103, y := 200, prev_x := 100, prev_y := 200,
    tool := contact_tool.FINGER, state := contact_state.DOWN, moved := false }

/-- The event `EV_SYN / SYN_REPORT`. -/
def syn_report : input_event := { type := 0, code := 0, value := 0 }

/-- The event `EV_ABS / ABS_MT_POSITION_X` carrying 640. -/
def abs_x_640 : input_event := { type := 3, code := 0x35, value := 640 }

end Inputs

namespace Tracexec

/-! ## Basic facts about words, memory and the trace requests -/

section Basics
variable {R : Type}

theorem neg1_ne_zero (P : Profile R) : neg1 P.bits ≠ 0 := by
  have h := P.sizeof_pos
  have h2 : 2 ^ 1 ≤ 2 ^ P.bits := Nat.pow_le_pow_right (by decide) (by unfold Profile.bits; omega)
  unfold neg1
  omega

theorem try_GETREGS (P : Profile R) (w : World R) :
    try_ptrace P (ptrace_GETREGS P w) =
      if w.tracee.alive then
        .ok (0, { w with regs := w.tracee.regs, log := w.log ++ [Op.GETREGS] })
      else .error (Halt.exit 1, { w with errno := ESRCH, log := w.log ++ [Op.GETREGS] }) := by
  have h := neg1_ne_zero P
  unfold try_ptrace ptrace_GETREGS failed
  split <;> simp [ESRCH, Ne.symm h]

theorem try_SETREGS (P : Profile R) (w : World R) (r : R) :
    try_ptrace P (ptrace_SETREGS P w r) =
      if w.tracee.alive then
        .ok (0, { w with tracee := { w.tracee with regs := r }, log := w.log ++ [Op.SETREGS] })
      else .error (Halt.exit 1, { w with errno := ESRCH, log := w.log ++ [Op.SETREGS] }) := by
  have h := neg1_ne_zero P
  unfold try_ptrace ptrace_SETREGS failed
  split <;> simp [ESRCH, Ne.symm h]

theorem try_POKETEXT (P : Profile R) (w : World R) (addr data : Nat) :
    try_ptrace P (ptrace_POKETEXT P w addr data) =
      if w.tracee.alive then
        .ok (0, { w with
          tracee := { w.tracee with mem := poke_word w.tracee.mem addr data P.sizeof_long },
          log := w.log ++ [Op.POKETEXT addr data] })
      else .error (Halt.exit 1,
        { w with errno := ESRCH, log := w.log ++ [Op.POKETEXT addr data] }) := by
  have h := neg1_ne_zero P
  unfold try_ptrace ptrace_POKETEXT failed
  split <;> simp [ESRCH, Ne.symm h]

theorem try_SINGLESTEP (P : Profile R) (step : Tracee R → Tracee R × Nat) (w : World R) :
    try_ptrace P (ptrace_SINGLESTEP P step w) =
      if w.tracee.alive then
        .ok (0, { w with tracee := (step w.tracee).1, status := (step w.tracee).2,
                         log := w.log ++ [Op.SINGLESTEP] })
      else .error (Halt.exit 1, { w with errno := ESRCH, log := w.log ++ [Op.SINGLESTEP] }) := by
  have h := neg1_ne_zero P
  unfold try_ptrace ptrace_SINGLESTEP failed
  split <;> simp [ESRCH, Ne.symm h]

/-- With `errno` cleared just before, a peek on a live tracee is never taken for a failure,
whatever word it returns. -/
theorem try_PEEKTEXT (P : Profile R) (w : World R) (addr : Nat) :
    try_ptrace P (ptrace_PEEKTEXT P { w with errno := 0 } addr) =
      if w.tracee.alive then
        .ok (peek_word w.tracee.mem addr P.sizeof_long,
          { w with errno := 0, log := w.log ++ [Op.PEEKTEXT addr] })
      else .error (Halt.exit 1,
        { w with errno := ESRCH, log := w.log ++ [Op.PEEKTEXT addr] }) := by
  unfold try_ptrace ptrace_PEEKTEXT failed
  split <;> simp [ESRCH]

theorem peek_word_congr (m1 m2 : Nat → Fin 256) :
    ∀ (n a : Nat), (∀ b, b < n → m1 (a + b) = m2 (a + b)) → peek_word m1 a n = peek_word m2 a n := by
  intro n
  induction n with
  | zero => intro a _; rfl
  | succ n ih =>
    intro a h
    have h0 : m1 a = m2 a := by simpa using h 0 (Nat.succ_pos n)
    have h1 : peek_word m1 (a + 1) n = peek_word m2 (a + 1) n := by
      apply ih
      intro b hb
      have := h (b + 1) (by omega)
      rwa [show a + 1 + b = a + (b + 1) by omega]
    simp only [peek_word, h0, h1]

theorem poke_word_outside (m : Nat → Fin 256) (addr data n a : Nat)
    (h : a < addr ∨ addr + n ≤ a) : poke_word m addr data n a = m a := by
  unfold poke_word
  rw [if_neg]
  omega

theorem poke_word_inside (m : Nat → Fin 256) (addr data n b : Nat) (h : b < n) :
    poke_word m addr data n (addr + b) = Fin.ofNat (data / 256 ^ b) := by
  unfold poke_word
  rw [if_pos (by omega)]
  simp

theorem peek_word_byte (m : Nat → Fin 256) :
    ∀ (n a b : Nat), b < n → (Fin.ofNat (peek_word m a n / 256 ^ b) : Fin 256) = m (a + b) := by
  intro n
  induction n with
  | zero => intro a b h; omega
  | succ n ih =>
    intro a b h
    cases b with
    | zero =>
      apply Fin.ext
      have := (m a).isLt
      simp only [peek_word, Fin.ofNat, pow_zero, Nat.div_one, Nat.add_zero]
      omega
    | succ b =>
      have hb : b < n := by omega
      have hd : (peek_word m a (n + 1)) / 256 ^ (b + 1) = peek_word m (a + 1) n / 256 ^ b := by
        have := (m a).isLt
        rw [pow_succ, mul_comm, ← Nat.div_div_eq_div_mul]
        congr 1
        simp only [peek_word]
        omega
      rw [hd, ih (a + 1) b hb]
      congr 1
      omega

theorem peek_word_low_byte (m : Nat → Fin 256) (a n : Nat) :
    peek_word m a (n + 1) &&& 0xff = (m a).val := by
  have h := Nat.and_pow_two_sub_one_eq_mod (peek_word m a (n + 1)) 8
  have h2 : (2 ^ 8 - 1 : Nat) = 0xff := by norm_num
  rw [h2] at h
  rw [h]
  have := (m a).isLt
  simp only [peek_word]
  omega
/-- The same with `errno` known to be 0 in the world the peek is issued from. -/
theorem try_PEEKTEXT_of_errno (P : Profile R) (w : World R) (addr : Nat) (h0 : w.errno = 0) :
    try_ptrace P (ptrace_PEEKTEXT P w addr) =
      if w.tracee.alive then
        .ok (peek_word w.tracee.mem addr P.sizeof_long,
          { w with log := w.log ++ [Op.PEEKTEXT addr] })
      else .error (Halt.exit 1,
        { w with errno := ESRCH, log := w.log ++ [Op.PEEKTEXT addr] }) := by
  unfold try_ptrace ptrace_PEEKTEXT failed
  split <;> simp [ESRCH, h0]

end Basics

theorem toUnsigned_toSigned_64 (u : Nat) : toUnsigned 64 (toSigned 64 u) = u % 2 ^ 64 := by
  unfold toUnsigned toSigned
  have h : u % 2 ^ 64 < 2 ^ 64 := Nat.mod_lt _ (by norm_num)
  norm_num at h ⊢
  split <;> omega

theorem toUnsigned_toSigned_32 (u : Nat) : toUnsigned 32 (toSigned 32 u) = u % 2 ^ 32 := by
  unfold toUnsigned toSigned
  have h : u % 2 ^ 32 < 2 ^ 32 := Nat.mod_lt _ (by norm_num)
  norm_num at h ⊢
  split <;> omega

/-! ## Counting requests in the logs -/

theorem count_save_log (op : Op) (hop : op = Op.SINGLESTEP ∨ op = Op.WAITPID)
    (s ip lb : Nat) (text : Nat → Nat) :
    ∀ (n i : Nat), (save_log s ip lb text n i).count op = 0 := by
  intro n
  induction n with
  | zero => intro i; rfl
  | succ n ih =>
    intro i
    rcases hop with rfl | rfl <;> simp [save_log, ih]

theorem count_restore_log (op : Op) (hop : op = Op.SINGLESTEP ∨ op = Op.WAITPID)
    (s ip : Nat) (buf : Nat → Nat) :
    ∀ (n i : Nat), (restore_log s ip buf n i).count op = 0 := by
  intro n
  induction n with
  | zero => intro i; rfl
  | succ n ih =>
    intro i
    rcases hop with rfl | rfl <;> simp [restore_log, ih]

theorem count_step_log (op : Op) (hop : op = Op.SINGLESTEP ∨ op = Op.WAITPID) :
    ∀ (n : Nat), (step_log n).count op = n := by
  intro n
  induction n with
  | zero => rfl
  | succ n ih =>
    rcases hop with rfl | rfl <;> simp [step_log, ih]

theorem restore_log_congr (s ip : Nat) (buf buf' : Nat → Nat) :
    ∀ (n i : Nat), (∀ j, i ≤ j → j < i + n → buf j = buf' j) →
      restore_log s ip buf n i = restore_log s ip buf' n i := by
  intro n
  induction n with
  | zero => intro i _; rfl
  | succ n ih =>
    intro i h
    simp only [restore_log]
    rw [h i (Nat.le_refl _) (by omega), ih (i + 1) (fun j h1 h2 => h j (by omega) (by omega))]

/-! ## The loops of `execute` -/

section Loops
variable {R : Type}

theorem save_loop_ok (P : Profile R) (ip lb : Nat) :
    ∀ (n i : Nat) (buf : Nat → Nat) (w : World R) (buf' : Nat → Nat) (w' : World R),
      save_loop P ip lb n i buf w = .ok (buf', w') →
      w'.reset_regs = w.reset_regs ∧ w'.regs = w.regs ∧ w'.text = w.text ∧
      w'.tracee.regs = w.tracee.regs ∧ w'.tracee.alive = w.tracee.alive ∧
      w'.tracee.other = w.tracee.other ∧ w'.status = w.status ∧
      w'.log = w.log ++ save_log P.sizeof_long ip lb w.text n i ∧
      (∀ j, j < i → buf' j = buf j) ∧
      (∀ j, i ≤ j → j < i + n →
        buf' j = peek_word w.tracee.mem (ip + P.sizeof_long * j) P.sizeof_long) ∧
      (∀ a, a < ip + P.sizeof_long * i ∨ ip + P.sizeof_long * (i + n) ≤ a →
        w'.tracee.mem a = w.tracee.mem a) ∧
      (0 < n → w.tracee.alive = true ∧ i + n ≤ 512) := by
  intro n
  induction n with
  | zero =>
    intro i buf w buf' w' h
    simp only [save_loop, Except.ok.injEq, Prod.mk.injEq] at h
    obtain ⟨rfl, rfl⟩ := h
    simp only [save_log, List.append_nil, Nat.add_zero, true_and]
    refine ⟨fun _ _ => trivial, fun j h1 h2 => ?_, fun _ _ => trivial, fun h0 => ?_⟩ <;> omega
  | succ n ih =>
    intro i buf w buf' w' h
    rw [save_loop, try_PEEKTEXT] at h
    by_cases ha : w.tracee.alive = true
    · simp only [ha, if_true] at h
      by_cases hi : 512 ≤ i
      · simp [hi] at h
      · simp only [hi, if_false, try_POKETEXT, ha, if_true] at h
        obtain ⟨h1, h2, h3, h4, h5, h6, h7, h8, h9, h10, h11, h12⟩ := ih _ _ _ _ _ h
        simp only at h1 h2 h3 h4 h5 h6 h7 h8 h10 h11 h12
        refine ⟨h1, h2, h3, h4, ?_, h6, h7, ?_, ?_, ?_, ?_, ?_⟩
        · rw [h5, ha]
        · rw [h8]; simp [save_log]
        · intro j hj
          rw [h9 j (by omega), Function.update_noteq (by omega)]
        · intro j hj1 hj2
          by_cases hji : j = i
          · subst hji
            rw [h9 j (by omega), Function.update_same]
          · rw [h10 j (by omega) (by omega)]
            apply peek_word_congr
            intro b hb
            apply poke_word_outside
            right
            have : P.sizeof_long * (i + 1) ≤ P.sizeof_long * j := Nat.mul_le_mul_left _ (by omega)
            rw [Nat.mul_add] at this
            omega
        · intro a hA
          have e1 : P.sizeof_long * (i + 1) = P.sizeof_long * i + P.sizeof_long := by
            rw [Nat.mul_add, Nat.mul_one]
          have e2 : P.sizeof_long * (i + (n + 1)) = P.sizeof_long * (i + 1 + n) := by
            congr 1; omega
          have e3 : P.sizeof_long * i + P.sizeof_long ≤ P.sizeof_long * (i + 1 + n) := by
            rw [← e1]; exact Nat.mul_le_mul_left _ (by omega)
          rw [h11 a (by rw [e1]; rw [e2] at hA; omega)]
          apply poke_word_outside
          rw [e2] at hA
          omega
        · intro _
          refine ⟨ha, ?_⟩
          by_cases hn : 0 < n
          · have := (h12 hn).2; omega
          · omega
    · simp [ha] at h

theorem save_loop_alive (P : Profile R) (ip lb : Nat) :
    ∀ (n i : Nat) (buf : Nat → Nat) (w : World R), w.tracee.alive = true → i + n ≤ 512 →
      ∃ buf' w', save_loop P ip lb n i buf w = .ok (buf', w') := by
  intro n
  induction n with
  | zero => intro i buf w _ _; exact ⟨buf, w, rfl⟩
  | succ n ih =>
    intro i buf w ha hi
    rw [save_loop, try_PEEKTEXT]
    have hi2 : ¬ 512 ≤ i := by omega
    simp only [ha, if_true, hi2, if_false, try_POKETEXT]
    exact ih _ _ _ rfl (by omega)

/-- With more than 512 words to go the save loop runs past the scratch buffer: it issues the
peek and the poke of each of the words below index 512, overwriting tracee memory, then the
peek of word 512, whose result has no place in the buffer. -/
theorem save_loop_overrun (P : Profile R) (ip lb : Nat) :
    ∀ (n i : Nat) (buf : Nat → Nat) (w : World R), w.tracee.alive = true → i ≤ 512 →
      512 < i + n →
      ∃ w', save_loop P ip lb n i buf w = .error (Halt.bufferOverrun, w') ∧
        w'.log = w.log ++ save_log P.sizeof_long ip lb w.text (512 - i) i ++
          [Op.PEEKTEXT (ip + P.sizeof_long * 512)] ∧
        (∀ a, a < ip + P.sizeof_long * i → w'.tracee.mem a = w.tracee.mem a) ∧
        (i < 512 → ∀ b, b < P.sizeof_long →
          w'.tracee.mem (ip + P.sizeof_long * i + b) =
            Fin.ofNat (w.text (lb + P.sizeof_long * i) / 256 ^ b)) := by
  intro n
  induction n with
  | zero => intro i buf w _ h1 h2; omega
  | succ n ih =>
    intro i buf w ha h1 h2
    rw [save_loop, try_PEEKTEXT]
    simp only [ha, if_true]
    by_cases hi : 512 ≤ i
    · have e : i = 512 := by omega
      subst e
      simp only [Nat.le_refl, if_true]
      refine ⟨_, rfl, ?_, fun _ _ => rfl, fun h => absurd h (by omega)⟩
      simp [save_log]
    · simp only [hi, if_false, try_POKETEXT, ha, if_true]
      obtain ⟨w', r1, r2, r3, r4⟩ := ih (i + 1)
        (Function.update buf i (peek_word w.tracee.mem (ip + P.sizeof_long * i) P.sizeof_long))
        { w with
            errno := 0,
            tracee := { w.tracee with
              mem := (poke_word w.tracee.mem (ip + P.sizeof_long * i)
                (w.text (lb + P.sizeof_long * i)) P.sizeof_long) },
            log := (w.log ++ [Op.PEEKTEXT (ip + P.sizeof_long * i)] ++
              [Op.POKETEXT (ip + P.sizeof_long * i) (w.text (lb + P.sizeof_long * i))]) }
        ha (by omega) (by omega)
      have e1 : P.sizeof_long * (i + 1) = P.sizeof_long * i + P.sizeof_long := by
        rw [Nat.mul_add, Nat.mul_one]
      simp only at r2 r3 r4
      refine ⟨w', ?_, ?_, ?_, ?_⟩
      · rw [← r1]
        simp [ha]
      · rw [r2]
        have e2 : 512 - i = (512 - (i + 1)) + 1 := by omega
        rw [e2]
        simp [save_log]
      · intro a hA
        rw [r3 a (by rw [e1]; omega)]
        apply poke_word_outside
        omega
      · intro _ b hb
        rw [r3 _ (by rw [e1]; omega)]
        exact poke_word_inside _ _ _ _ _ hb

theorem restore_loop_ok (P : Profile R) (ip : Nat) (buf : Nat → Nat) :
    ∀ (n i : Nat) (w w' : World R), restore_loop P ip buf n i w = .ok w' →
      w'.reset_regs = w.reset_regs ∧ w'.regs = w.regs ∧ w'.text = w.text ∧
      w'.tracee.regs = w.tracee.regs ∧ w'.tracee.alive = w.tracee.alive ∧
      w'.log = w.log ++ restore_log P.sizeof_long ip buf n i ∧
      (∀ j b, i ≤ j → j < i + n → b < P.sizeof_long →
        w'.tracee.mem (ip + P.sizeof_long * j + b) = Fin.ofNat (buf j / 256 ^ b)) ∧
      (∀ a, a < ip + P.sizeof_long * i ∨ ip + P.sizeof_long * (i + n) ≤ a →
        w'.tracee.mem a = w.tracee.mem a) := by
  intro n
  induction n with
  | zero =>
    intro i w w' h
    simp only [restore_loop, Except.ok.injEq] at h
    subst h
    simp only [restore_log, List.append_nil, Nat.add_zero, true_and]
    refine ⟨fun j b h1 h2 => ?_, fun _ _ => trivial⟩
    omega
  | succ n ih =>
    intro i w w' h
    rw [restore_loop, try_POKETEXT] at h
    by_cases ha : w.tracee.alive = true
    · simp only [ha, if_true] at h
      obtain ⟨h1, h2, h3, h4, h5, h6, h7, h8⟩ := ih _ _ _ h
      simp only at h1 h2 h3 h4 h5 h6 h8
      have e1 : P.sizeof_long * (i + 1) = P.sizeof_long * i + P.sizeof_long := by
        rw [Nat.mul_add, Nat.mul_one]
      have e2 : P.sizeof_long * (i + (n + 1)) = P.sizeof_long * (i + 1 + n) := by
        congr 1; omega
      have e3 : P.sizeof_long * i + P.sizeof_long ≤ P.sizeof_long * (i + 1 + n) := by
        rw [← e1]; exact Nat.mul_le_mul_left _ (by omega)
      refine ⟨h1, h2, h3, h4, ?_, ?_, ?_, ?_⟩
      · rw [h5, ha]
      · rw [h6]; simp [restore_log]
      · intro j b hj1 hj2 hb
        by_cases hji : j = i
        · subst hji
          rw [h8 _ (by rw [e1]; omega)]
          exact poke_word_inside _ _ _ _ _ hb
        · exact h7 j b (by omega) (by omega) hb
      · intro a hA
        rw [e2] at hA
        rw [h8 a (by rw [e1]; omega)]
        apply poke_word_outside
        omega
    · simp [ha] at h

theorem restore_loop_alive (P : Profile R) (ip : Nat) (buf : Nat → Nat) :
    ∀ (n i : Nat) (w : World R), w.tracee.alive = true →
      ∃ w', restore_loop P ip buf n i w = .ok w' := by
  intro n
  induction n with
  | zero => intro i w _; exact ⟨w, rfl⟩
  | succ n ih =>
    intro i w ha
    rw [restore_loop, try_POKETEXT]
    simp only [ha, if_true]
    exact ih _ _ rfl

theorem step_fixed_ok (P : Profile R) (step : Tracee R → Tracee R × Nat) :
    ∀ (n : Nat) (w w' : World R), step_fixed P step n w = .ok w' →
      w'.reset_regs = w.reset_regs ∧ w'.regs = w.regs ∧ w'.text = w.text ∧
      w'.tracee = tracee_after step n w.tracee ∧ w'.log = w.log ++ step_log n := by
  intro n
  induction n with
  | zero =>
    intro w w' h
    simp only [step_fixed, Except.ok.injEq] at h
    subst h
    simp [tracee_after, step_log]
  | succ n ih =>
    intro w w' h
    rw [step_fixed, try_SINGLESTEP] at h
    by_cases ha : w.tracee.alive = true
    · simp only [ha, if_true, waitpid] at h
      obtain ⟨h1, h2, h3, h4, h5⟩ := ih _ _ h
      simp only at h1 h2 h3 h4 h5
      refine ⟨h1, h2, h3, ?_, ?_⟩
      · rw [h4]; rfl
      · rw [h5]; simp [step_log]
    · simp [ha] at h

/-- The fixed-count loop returns when the tracee is alive before each of its steps. -/
theorem step_fixed_alive (P : Profile R) (step : Tracee R → Tracee R × Nat) :
    ∀ (n : Nat) (w : World R), (∀ j, j < n → (tracee_after step j w.tracee).alive = true) →
      ∃ w', step_fixed P step n w = .ok w' := by
  intro n
  induction n with
  | zero => intro w _; exact ⟨w, rfl⟩
  | succ n ih =>
    intro w h
    have ha : w.tracee.alive = true := h 0 (Nat.succ_pos n)
    rw [step_fixed, try_SINGLESTEP]
    simp only [ha, if_true, waitpid]
    apply ih
    intro j hj
    exact h (j + 1) (by omega)

/-- The fixed-count loop ends the controller when the tracee is gone before one of its
steps. -/
theorem step_fixed_dead (P : Profile R) (step : Tracee R → Tracee R × Nat) :
    ∀ (n : Nat) (w : World R) (j : Nat), j < n → (tracee_after step j w.tracee).alive = false →
      ∃ w', step_fixed P step n w = .error (Halt.exit 1, w') := by
  intro n
  induction n with
  | zero => intro w j hj; omega
  | succ n ih =>
    intro w j hj hd
    rw [step_fixed, try_SINGLESTEP]
    by_cases ha : w.tracee.alive = true
    · simp only [ha, if_true, waitpid]
      cases j with
      | zero => simp [tracee_after, ha] at hd
      | succ j => exact ih _ j (by omega) hd
    · simp only [ha]
      exact ⟨_, rfl⟩

/-- One iteration of the trap loop on a live tracee, in closed form. -/
theorem step_trap_succ (P : Profile R) (step : Tracee R → Tracee R × Nat) (fuel : Nat)
    (w : World R) (ha : w.tracee.alive = true) :
    step_trap P step (fuel + 1) w =
      if WIFSTOPPED (step w.tracee).2 && WSTOPSIG (step w.tracee).2 == SIGTRAP then
        if (step w.tracee).1.alive then
          if ((step w.tracee).1.mem (P.IP (step w.tracee).1.regs)).val = 0xcc then
            .ok { w with tracee := (step w.tracee).1, status := (step w.tracee).2,
                         regs := (step w.tracee).1.regs, errno := 0,
                         log := w.log ++ [Op.SINGLESTEP, Op.WAITPID, Op.GETREGS,
                           Op.PEEKTEXT (P.IP (step w.tracee).1.regs)] }
          else
            step_trap P step fuel
              { w with tracee := (step w.tracee).1, status := (step w.tracee).2,
                       regs := (step w.tracee).1.regs, errno := 0,
                       log := w.log ++ [Op.SINGLESTEP, Op.WAITPID, Op.GETREGS,
                         Op.PEEKTEXT (P.IP (step w.tracee).1.regs)] }
        else
          .error (Halt.exit 1,
            { w with tracee := (step w.tracee).1, status := (step w.tracee).2, errno := ESRCH,
                     log := w.log ++ [Op.SINGLESTEP, Op.WAITPID, Op.GETREGS] })
      else if WIFEXITED (step w.tracee).2 then
        .error (Halt.exit 1,
          { w with tracee := (step w.tracee).1, status := (step w.tracee).2,
                   log := w.log ++ [Op.SINGLESTEP, Op.WAITPID] })
      else
        step_trap P step fuel
          { w with tracee := (step w.tracee).1, status := (step w.tracee).2,
                   log := w.log ++ [Op.SINGLESTEP, Op.WAITPID] } := by
  obtain ⟨m, hm⟩ : ∃ m, P.sizeof_long = m + 1 := ⟨P.sizeof_long - 1, by have := P.sizeof_pos; omega⟩
  rw [step_trap, try_SINGLESTEP]
  simp only [ha, if_true, waitpid]
  by_cases h1 : (WIFSTOPPED (step w.tracee).2 && WSTOPSIG (step w.tracee).2 == SIGTRAP) = true
  · simp only [h1, if_true, try_GETREGS]
    by_cases h2 : (step w.tracee).1.alive = true
    · rw [if_pos h2, if_pos h2]
      simp only []
      rw [try_PEEKTEXT_of_errno P _ _ rfl]
      simp only [h2, if_true, hm, peek_word_low_byte, List.append_assoc,
        List.singleton_append, List.cons_append, List.nil_append]
    · simp only [h2, List.append_assoc, List.singleton_append, List.cons_append,
        List.nil_append]
      simp
  · simp only [h1, List.append_assoc, List.singleton_append, List.cons_append,
      List.nil_append]
    simp

theorem step_trap_dead (P : Profile R) (step : Tracee R → Tracee R × Nat) (fuel : Nat)
    (w : World R) (ha : w.tracee.alive = false) :
    ∃ w', step_trap P step (fuel + 1) w = .error (Halt.exit 1, w') := by
  rw [step_trap, try_SINGLESTEP]
  simp only [ha]
  exact ⟨_, rfl⟩

/-- The trap loop never returns without fuel, and what it returns keeps the baseline. -/
theorem step_trap_frame (P : Profile R) (step : Tracee R → Tracee R × Nat) :
    ∀ (fuel : Nat) (w w' : World R), step_trap P step fuel w = .ok w' →
      w'.reset_regs = w.reset_regs ∧ w'.text = w.text := by
  intro fuel
  induction fuel with
  | zero => intro w w' h; simp [step_trap] at h
  | succ fuel ih =>
    intro w w' h
    by_cases ha : w.tracee.alive = true
    · rw [step_trap_succ P step fuel w ha] at h
      split at h
      · split at h
        · split at h
          · simp only [Except.ok.injEq] at h
            subst h
            exact ⟨rfl, rfl⟩
          · have := ih _ _ h
            exact this
        · simp at h
      · split at h
        · simp at h
        · have := ih _ _ h
          exact this
    · obtain ⟨w2, h2⟩ := step_trap_dead P step fuel w (by simpa using ha)
      rw [h2] at h
      simp at h

end Loops

/-! ## The trap loop against the tracee's run -/

section TrapRun
variable {R : Type}

theorem status_after_succ (step : Tracee R → Tracee R × Nat) (j : Nat) (t : Tracee R)
    (hj : 1 ≤ j) : status_after step (j + 1) t = status_after step j (step t).1 := by
  obtain ⟨i, rfl⟩ : ∃ i, j = i + 1 := ⟨j - 1, by omega⟩
  rfl

theorem trap_seen_succ (P : Profile R) (step : Tracee R → Tracee R × Nat) (j : Nat)
    (t : Tracee R) (hj : 1 ≤ j) :
    trap_seen P step t (j + 1) = trap_seen P step (step t).1 j := by
  unfold trap_seen
  rw [status_after_succ step j t hj]
  rfl

theorem trap_seen_one (P : Profile R) (step : Tracee R → Tracee R × Nat) (t : Tracee R) :
    trap_seen P step t 1 =
      (WIFSTOPPED (step t).2 && WSTOPSIG (step t).2 == SIGTRAP &&
        ((step t).1.mem (P.IP (step t).1.regs)).val == 0xcc) := rfl

/-- The trap loop returns at the first step after which the trap is seen, having issued
exactly that many single-steps. -/
theorem step_trap_run (P : Profile R) (step : Tracee R → Tracee R × Nat) :
    ∀ (k fuel : Nat) (w : World R), 1 ≤ k → k ≤ fuel →
      (∀ j, j ≤ k → (tracee_after step j w.tracee).alive = true) →
      (∀ j, 1 ≤ j → j < k → WIFEXITED (status_after step j w.tracee) = false) →
      (∀ j, 1 ≤ j → j < k → trap_seen P step w.tracee j = false) →
      trap_seen P step w.tracee k = true →
      ∃ w', step_trap P step fuel w = .ok w' ∧ w'.tracee = tracee_after step k w.tracee ∧
        w'.log.count Op.SINGLESTEP = w.log.count Op.SINGLESTEP + k := by
  intro k
  induction k with
  | zero => intro fuel w h; omega
  | succ k ih =>
    intro fuel w _ hf halive hnoexit hleast htrap
    obtain ⟨fuel, rfl⟩ : ∃ f, fuel = f + 1 := ⟨fuel - 1, by omega⟩
    have ha0 : w.tracee.alive = true := halive 0 (Nat.zero_le _)
    have ha1 : (step w.tracee).1.alive = true := halive 1 (by omega)
    rw [step_trap_succ P step fuel w ha0]
    cases k with
    | zero =>
      rw [trap_seen_one] at htrap
      simp only [Bool.and_eq_true, beq_iff_eq] at htrap
      obtain ⟨⟨h1, h2⟩, h3⟩ := htrap
      simp only [h1, h2, h3, ha1, Bool.and_self, beq_self_eq_true, if_true]
      exact ⟨_, rfl, rfl, by simp⟩
    | succ k =>
      have hl1 := hleast 1 (Nat.le_refl _) (by omega)
      rw [trap_seen_one] at hl1
      have hrec : ∀ (w2 : World R), w2.tracee = (step w.tracee).1 →
          w2.log.count Op.SINGLESTEP = w.log.count Op.SINGLESTEP + 1 →
          ∃ w', step_trap P step fuel w2 = .ok w' ∧
            w'.tracee = tracee_after step (k + 1 + 1) w.tracee ∧
            w'.log.count Op.SINGLESTEP = w.log.count Op.SINGLESTEP + (k + 1 + 1) := by
        intro w2 e2 c2
        obtain ⟨w', r1, r2, r3⟩ := ih fuel w2 (by omega) (by omega)
          (fun j hj => by rw [e2]; exact halive (j + 1) (by omega))
          (fun j hj1 hj2 => by
            rw [e2, ← status_after_succ step j _ hj1]; exact hnoexit (j + 1) (by omega) (by omega))
          (fun j hj1 hj2 => by
            rw [e2, ← trap_seen_succ P step j _ hj1]; exact hleast (j + 1) (by omega) (by omega))
          (by rw [e2, ← trap_seen_succ P step (k + 1) _ (by omega)]; exact htrap)
        refine ⟨w', r1, ?_, ?_⟩
        · rw [r2, e2]; rfl
        · rw [r3, c2]; omega
      by_cases hs : (WIFSTOPPED (step w.tracee).2 && WSTOPSIG (step w.tracee).2 == SIGTRAP) = true
      · rw [hs] at hl1
        simp only [Bool.true_and, beq_eq_false_iff_ne, ne_eq] at hl1
        simp only [hs, if_true, ha1, hl1, if_false]
        exact hrec _ rfl (by simp)
      · have hx := hnoexit 1 (Nat.le_refl _) (by omega)
        have hx' : WIFEXITED (step w.tracee).2 = false := hx
        simp only [hs, hx', if_false, Bool.false_eq_true]
        exact hrec _ rfl (by simp)

/-- With too little fuel for the trap to be reached, the model runs out of fuel: it never
reports a return. -/
theorem step_trap_starve (P : Profile R) (step : Tracee R → Tracee R × Nat) :
    ∀ (fuel : Nat) (w : World R),
      (∀ j, j ≤ fuel → (tracee_after step j w.tracee).alive = true) →
      (∀ j, 1 ≤ j → j ≤ fuel → WIFEXITED (status_after step j w.tracee) = false) →
      (∀ j, 1 ≤ j → j ≤ fuel → trap_seen P step w.tracee j = false) →
      ∃ w', step_trap P step fuel w = .error (Halt.outOfFuel, w') := by
  intro fuel
  induction fuel with
  | zero => intro w _ _ _; exact ⟨w, rfl⟩
  | succ fuel ih =>
    intro w halive hnoexit hleast
    have ha0 : w.tracee.alive = true := halive 0 (Nat.zero_le _)
    have ha1 : (step w.tracee).1.alive = true := halive 1 (by omega)
    rw [step_trap_succ P step fuel w ha0]
    have hl1 := hleast 1 (Nat.le_refl _) (by omega)
    rw [trap_seen_one] at hl1
    have hrec : ∀ (w2 : World R), w2.tracee = (step w.tracee).1 →
        ∃ w', step_trap P step fuel w2 = .error (Halt.outOfFuel, w') := by
      intro w2 e2
      exact ih w2
        (fun j hj => by rw [e2]; exact halive (j + 1) (by omega))
        (fun j hj1 hj2 => by
          rw [e2, ← status_after_succ step j _ hj1]; exact hnoexit (j + 1) (by omega) (by omega))
        (fun j hj1 hj2 => by
          rw [e2, ← trap_seen_succ P step j _ hj1]; exact hleast (j + 1) (by omega) (by omega))
    by_cases hs : (WIFSTOPPED (step w.tracee).2 && WSTOPSIG (step w.tracee).2 == SIGTRAP) = true
    · rw [hs] at hl1
      simp only [Bool.true_and, beq_eq_false_iff_ne, ne_eq] at hl1
      simp only [hs, if_true, ha1, hl1, if_false]
      exact hrec _ rfl
    · have hx := hnoexit 1 (Nat.le_refl _) (by omega)
      have hx' : WIFEXITED (step w.tracee).2 = false := hx
      simp only [hs, hx', if_false, Bool.false_eq_true]
      exact hrec _ rfl

/-- Once the tracee is gone after its `k`-th step, with no trap seen before, the trap loop
never returns: it ends the controller, at the latest on the request after that step. -/
theorem step_trap_fatal (P : Profile R) (step : Tracee R → Tracee R × Nat) :
    ∀ (k fuel : Nat) (w : World R), 1 ≤ k →
      (∀ j, j < k → (tracee_after step j w.tracee).alive = true) →
      (tracee_after step k w.tracee).alive = false →
      (∀ j, 1 ≤ j → j < k → trap_seen P step w.tracee j = false) →
      (∃ h w', step_trap P step fuel w = .error (h, w')) ∧
      (k < fuel → ∃ w', step_trap P step fuel w = .error (Halt.exit 1, w')) := by
  intro k
  induction k with
  | zero => intro fuel w h; omega
  | succ k ih =>
    intro fuel w _ halive hdead hleast
    cases fuel with
    | zero => exact ⟨⟨_, _, rfl⟩, fun h => by omega⟩
    | succ fuel =>
      have ha0 : w.tracee.alive = true := halive 0 (Nat.succ_pos k)
      rw [step_trap_succ P step fuel w ha0]
      cases k with
      | zero =>
        have hd1 : (step w.tracee).1.alive = false := hdead
        have hrec : ∀ (w2 : World R), w2.tracee = (step w.tracee).1 →
            (∃ h w', step_trap P step fuel w2 = .error (h, w')) ∧
            (0 + 1 < fuel + 1 → ∃ w', step_trap P step fuel w2 = .error (Halt.exit 1, w')) := by
          intro w2 e2
          cases fuel with
          | zero => exact ⟨⟨_, _, rfl⟩, fun h => by omega⟩
          | succ f =>
            obtain ⟨w', hw'⟩ := step_trap_dead P step f w2 (by rw [e2]; exact hd1)
            exact ⟨⟨_, _, hw'⟩, fun _ => ⟨_, hw'⟩⟩
        by_cases hs : (WIFSTOPPED (step w.tracee).2 && WSTOPSIG (step w.tracee).2 == SIGTRAP) = true
        · simp only [hs, if_true, hd1, Bool.false_eq_true, if_false]
          exact ⟨⟨_, _, rfl⟩, fun _ => ⟨_, rfl⟩⟩
        · by_cases hx : WIFEXITED (step w.tracee).2 = true
          · simp only [hs, hx, if_true, Bool.false_eq_true, if_false]
            exact ⟨⟨_, _, rfl⟩, fun _ => ⟨_, rfl⟩⟩
          · simp only [hs, hx, Bool.false_eq_true, if_false]
            exact hrec _ rfl
      | succ k =>
        have ha1 : (step w.tracee).1.alive = true := halive 1 (by omega)
        have hl1 := hleast 1 (Nat.le_refl _) (by omega)
        rw [trap_seen_one] at hl1
        have hrec : ∀ (w2 : World R), w2.tracee = (step w.tracee).1 →
            (∃ h w', step_trap P step fuel w2 = .error (h, w')) ∧
            (k + 1 + 1 < fuel + 1 →
              ∃ w', step_trap P step fuel w2 = .error (Halt.exit 1, w')) := by
          intro w2 e2
          obtain ⟨r1, r2⟩ := ih fuel w2 (by omega)
            (fun j hj => by rw [e2]; exact halive (j + 1) (by omega))
            (by rw [e2]; exact hdead)
            (fun j hj1 hj2 => by
              rw [e2, ← trap_seen_succ P step j _ hj1]
              exact hleast (j + 1) (by omega) (by omega))
          exact ⟨r1, fun h => r2 (by omega)⟩
        by_cases hs : (WIFSTOPPED (step w.tracee).2 && WSTOPSIG (step w.tracee).2 == SIGTRAP) = true
        · rw [hs] at hl1
          simp only [Bool.true_and, beq_eq_false_iff_ne, ne_eq] at hl1
          simp only [hs, if_true, ha1, hl1, if_false]
          exact hrec _ rfl
        · by_cases hx : WIFEXITED (step w.tracee).2 = true
          · simp only [hs, hx, if_true, Bool.false_eq_true, if_false]
            exact ⟨⟨_, _, rfl⟩, fun _ => ⟨_, rfl⟩⟩
          · simp only [hs, hx, Bool.false_eq_true, if_false]
            exact hrec _ rfl

end TrapRun

/-! ## The three phases of `execute` -/

section Phases
variable {R : Type}

theorem execute_inject_ok (P : Profile R) (begin_ end_ : Nat) (w : World R)
    (buf : Nat → Nat) (w1 : World R) (h : execute_inject P begin_ end_ w = .ok (buf, w1)) :
    w1.reset_regs = w.reset_regs ∧ w1.text = w.text ∧
    w1.regs = P.setIP (working_regs P w) (injection_address P w) ∧
    P.IP w1.regs = injection_address P w ∧
    w1.tracee.regs = w1.regs ∧ w1.tracee.alive = true ∧
    w1.log = w.log ++ (if P.IP w.regs = 0 then [Op.GETREGS] else []) ++
      save_log P.sizeof_long (injection_address P w) begin_ w.text (nwords P begin_ end_).toNat 0
      ++ [Op.SETREGS] ∧
    (∀ j, j < (nwords P begin_ end_).toNat →
      buf j = peek_word w.tracee.mem (injection_address P w + P.sizeof_long * j) P.sizeof_long) ∧
    (∀ a, a < injection_address P w ∨
        injection_address P w + P.sizeof_long * (nwords P begin_ end_).toNat ≤ a →
      w1.tracee.mem a = w.tracee.mem a) ∧
    (nwords P begin_ end_).toNat ≤ 512 ∧
    begin_ = ALIGN_DOWN P.bits begin_ P.sizeof_long ∧ ptrdiff P.bits end_ begin_ > 0 := by
  unfold execute_inject at h
  by_cases hb : begin_ = ALIGN_DOWN P.bits begin_ P.sizeof_long
  case neg => simp [hb] at h
  by_cases he : ptrdiff P.bits end_ begin_ > 0
  case neg => simp [he] at h
  rw [if_neg (not_not.mpr hb), if_neg (not_not.mpr he)] at h
  -- the world after the first-call register read
  have key : ∀ (w0 : World R), w0.reset_regs = w.reset_regs → w0.text = w.text →
      w0.regs = working_regs P w → w0.tracee = w.tracee →
      w0.log = w.log ++ (if P.IP w.regs = 0 then [Op.GETREGS] else []) →
      (match save_loop P
          (P.IP (P.setIP w0.regs (ALIGN_DOWN P.bits (P.IP w0.regs) P.sizeof_long)))
          begin_ (nwords P begin_ end_).toNat 0 (fun _ => 0)
          { w0 with regs := P.setIP w0.regs (ALIGN_DOWN P.bits (P.IP w0.regs) P.sizeof_long) } with
        | .error e => (.error e : Result R ((Nat → Nat) × World R))
        | .ok (buffer, w3) =>
          match try_ptrace P (ptrace_SETREGS P w3 w3.regs) with
          | .error e => .error e
          | .ok (_, w4) => .ok (buffer, w4)) = .ok (buf, w1) →
      w1.reset_regs = w.reset_regs ∧ w1.text = w.text ∧
      w1.regs = P.setIP (working_regs P w) (injection_address P w) ∧
      P.IP w1.regs = injection_address P w ∧
      w1.tracee.regs = w1.regs ∧ w1.tracee.alive = true ∧
      w1.log = w.log ++ (if P.IP w.regs = 0 then [Op.GETREGS] else []) ++
        save_log P.sizeof_long (injection_address P w) begin_ w.text
          (nwords P begin_ end_).toNat 0 ++ [Op.SETREGS] ∧
      (∀ j, j < (nwords P begin_ end_).toNat →
        buf j = peek_word w.tracee.mem (injection_address P w + P.sizeof_long * j)
          P.sizeof_long) ∧
      (∀ a, a < injection_address P w ∨
          injection_address P w + P.sizeof_long * (nwords P begin_ end_).toNat ≤ a →
        w1.tracee.mem a = w.tracee.mem a) ∧
      (nwords P begin_ end_).toNat ≤ 512 := by
    intro w0 e1 e2 e3 e4 e5 hk
    rw [P.IP_setIP, e3] at hk
    change (match save_loop P (injection_address P w) begin_ (nwords P begin_ end_).toNat 0
        (fun _ => 0) { w0 with regs := P.setIP (working_regs P w) (injection_address P w) } with
        | .error e => (.error e : Result R ((Nat → Nat) × World R))
        | .ok (buffer, w3) =>
          match try_ptrace P (ptrace_SETREGS P w3 w3.regs) with
          | .error e => .error e
          | .ok (_, w4) => .ok (buffer, w4)) = .ok (buf, w1) at hk
    split at hk
    · simp at hk
    · rename_i buffer w3 hs
      obtain ⟨h1, h2, h3, h4, h5, _, _, h8, _, h10, h11, h12⟩ := save_loop_ok P _ _ _ _ _ _ _ _ hs
      simp only at h1 h2 h3 h4 h5 h8 h10 h11 h12
      rw [try_SETREGS] at hk
      by_cases ha : w3.tracee.alive = true
      · simp only [ha, if_true, Except.ok.injEq, Prod.mk.injEq] at hk
        obtain ⟨rfl, rfl⟩ := hk
        simp only [Nat.mul_zero, Nat.add_zero, Nat.zero_add] at h10 h11
        refine ⟨by rw [h1, e1], by rw [h3, e2], h2, by rw [h2, P.IP_setIP], rfl, rfl, ?_, ?_, ?_, ?_⟩
        · show w3.log ++ [Op.SETREGS] = _
          rw [h8, e5, e2]
        · intro j hj
          rw [h10 j (Nat.zero_le _) hj, e4]
        · intro a hA
          show w3.tracee.mem a = _
          rw [h11 a hA, e4]
        · by_cases hn : 0 < (nwords P begin_ end_).toNat
          · have := (h12 hn).2; omega
          · omega
      · simp [ha] at hk
  by_cases h0 : P.IP w.regs = 0
  · rw [if_pos h0, try_GETREGS] at h
    by_cases ha : w.tracee.alive = true
    · simp only [ha, if_true] at h
      obtain ⟨k1, k2, k3, k4, k5, k6, k7, k8, k9, k10⟩ :=
        key { w with regs := w.tracee.regs, log := w.log ++ [Op.GETREGS] } rfl rfl
          (by simp [working_regs, h0]) rfl (by simp [h0]) h
      exact ⟨k1, k2, k3, k4, k5, k6, k7, k8, k9, k10, hb, he⟩
    · simp [ha] at h
  · rw [if_neg h0] at h
    obtain ⟨k1, k2, k3, k4, k5, k6, k7, k8, k9, k10⟩ :=
      key w rfl rfl (by simp [working_regs, h0]) rfl (by simp [h0]) h
    exact ⟨k1, k2, k3, k4, k5, k6, k7, k8, k9, k10, hb, he⟩

/-- A snippet of more than 512 words that passes the two asserts on a live tracee: `execute`
has no capacity check, so it goes into the save loop, overwrites the first 512 words of the
injection region with snippet words, and then runs past the scratch buffer. -/
theorem execute_overrun (P : Profile R) (step : Tracee R → Tracee R × Nat) (fuel : Nat)
    (begin_ end_ : Nat) (ninstr : Int) (w : World R)
    (hb : begin_ = ALIGN_DOWN P.bits begin_ P.sizeof_long)
    (he : ptrdiff P.bits end_ begin_ > 0) (ha : w.tracee.alive = true)
    (hn : 512 < (nwords P begin_ end_).toNat) :
    ∃ w', execute P step fuel begin_ end_ ninstr w = .error (Halt.bufferOverrun, w') ∧
      Op.POKETEXT (injection_address P w) (w.text begin_) ∈ w'.log ∧
      (∀ b, b < P.sizeof_long →
        w'.tracee.mem (injection_address P w + b) = Fin.ofNat (w.text begin_ / 256 ^ b)) := by
  have key : ∀ (w0 : World R), w0.text = w.text → w0.regs = working_regs P w →
      w0.tracee.alive = true →
      ∃ w', save_loop P
          (P.IP (P.setIP w0.regs (ALIGN_DOWN P.bits (P.IP w0.regs) P.sizeof_long)))
          begin_ (nwords P begin_ end_).toNat 0 (fun _ => 0)
          { w0 with regs := P.setIP w0.regs (ALIGN_DOWN P.bits (P.IP w0.regs) P.sizeof_long) }
          = .error (Halt.bufferOverrun, w') ∧
        Op.POKETEXT (injection_address P w) (w.text begin_) ∈ w'.log ∧
        (∀ b, b < P.sizeof_long →
          w'.tracee.mem (injection_address P w + b) = Fin.ofNat (w.text begin_ / 256 ^ b)) := by
    intro w0 e1 e2 e3
    rw [P.IP_setIP, e2]
    obtain ⟨w', r1, r2, _, r4⟩ := save_loop_overrun P (injection_address P w) begin_
      (nwords P begin_ end_).toNat 0 (fun _ => 0)
      { w0 with
          regs := (P.setIP (working_regs P w)
            (ALIGN_DOWN P.bits (P.IP (working_regs P w)) P.sizeof_long)) }
      e3 (by omega) (by omega)
    refine ⟨w', r1, ?_, ?_⟩
    · rw [r2]
      have e : save_log P.sizeof_long (injection_address P w) begin_ w0.text (512 - 0) 0 =
          Op.PEEKTEXT (injection_address P w + P.sizeof_long * 0) ::
            Op.POKETEXT (injection_address P w + P.sizeof_long * 0)
              (w0.text (begin_ + P.sizeof_long * 0)) ::
            save_log P.sizeof_long (injection_address P w) begin_ w0.text 511 1 := rfl
      show Op.POKETEXT (injection_address P w) (w.text begin_) ∈
        w0.log ++ save_log P.sizeof_long (injection_address P w) begin_ w0.text (512 - 0) 0 ++
          [Op.PEEKTEXT (injection_address P w + P.sizeof_long * 512)]
      rw [e, e1]
      simp only [Nat.mul_zero, Nat.add_zero, List.mem_append, List.mem_cons, true_or, or_true]
    · intro b hb
      have := r4 (by omega) b hb
      simpa [e1] using this
  unfold execute execute_inject
  rw [if_neg (not_not.mpr hb), if_neg (not_not.mpr he)]
  by_cases h0 : P.IP w.regs = 0
  · rw [if_pos h0, try_GETREGS, if_pos ha]
    obtain ⟨w', k1, k2, k3⟩ :=
      key { w with regs := w.tracee.regs, log := w.log ++ [Op.GETREGS] } rfl
        (by simp [working_regs, h0]) ha
    simp only [] at k1 ⊢
    rw [k1]
    exact ⟨w', rfl, k2, k3⟩
  · rw [if_neg h0]
    obtain ⟨w', k1, k2, k3⟩ := key w rfl (by simp [working_regs, h0]) ha
    simp only [] at k1 ⊢
    rw [k1]
    exact ⟨w', rfl, k2, k3⟩

theorem execute_restore_ok (P : Profile R) (ip : Nat) (n : Int) (buf : Nat → Nat)
    (w w' : World R) (h : execute_restore P ip n buf w = .ok w') :
    w'.reset_regs = w.reset_regs ∧ w'.text = w.text ∧ w'.regs = w.tracee.regs ∧
    w'.tracee.regs = w.reset_regs ∧ w'.tracee.alive = true ∧
    w'.log = w.log ++ restore_log P.sizeof_long ip buf n.toNat 0 ++ [Op.GETREGS, Op.SETREGS] ∧
    (∀ j b, j < n.toNat → b < P.sizeof_long →
      w'.tracee.mem (ip + P.sizeof_long * j + b) = Fin.ofNat (buf j / 256 ^ b)) ∧
    (∀ a, a < ip ∨ ip + P.sizeof_long * n.toNat ≤ a → w'.tracee.mem a = w.tracee.mem a) := by
  unfold execute_restore at h
  split at h
  · simp at h
  · rename_i w1 hr
    obtain ⟨h1, h2, h3, h4, h5, h6, h7, h8⟩ := restore_loop_ok P _ _ _ _ _ _ hr
    simp only [Nat.mul_zero, Nat.add_zero, Nat.zero_add] at h7 h8
    rw [try_GETREGS] at h
    by_cases ha : w1.tracee.alive = true
    · simp only [ha, if_true, try_SETREGS] at h
      simp only [Except.ok.injEq] at h
      subst h
      refine ⟨h1, h3, h4, h1, rfl, ?_, ?_, ?_⟩
      · show w1.log ++ [Op.GETREGS] ++ [Op.SETREGS] = _
        rw [h6]; simp
      · intro j b hj hb
        exact h7 j b (Nat.zero_le _) hj hb
      · intro a hA
        exact h8 a hA
    · simp [ha] at h

theorem execute_restore_alive (P : Profile R) (ip : Nat) (n : Int) (buf : Nat → Nat)
    (w : World R) (ha : w.tracee.alive = true) :
    ∃ w', execute_restore P ip n buf w = .ok w' := by
  obtain ⟨w1, hr⟩ := restore_loop_alive P ip buf n.toNat 0 w ha
  have ha1 : w1.tracee.alive = true := by
    rw [(restore_loop_ok P _ _ _ _ _ _ hr).2.2.2.2.1, ha]
  unfold execute_restore
  rw [hr]
  simp only [try_GETREGS, ha1, if_true, try_SETREGS]
  exact ⟨_, rfl⟩

/-- With the tracee gone, the restoration ends the controller: its first request fails. -/
theorem execute_restore_dead (P : Profile R) (ip : Nat) (n : Int) (buf : Nat → Nat)
    (w : World R) (ha : w.tracee.alive = false) :
    ∃ w', execute_restore P ip n buf w = .error (Halt.exit 1, w') := by
  unfold execute_restore
  cases hn : n.toNat with
  | zero =>
    simp only [restore_loop, try_GETREGS, ha]
    exact ⟨_, rfl⟩
  | succ m =>
    simp only [restore_loop, try_POKETEXT, ha]
    exact ⟨_, rfl⟩

theorem execute_ok (P : Profile R) (step : Tracee R → Tracee R × Nat) (fuel : Nat)
    (begin_ end_ : Nat) (ninstr : Int) (w w' : World R)
    (h : execute P step fuel begin_ end_ ninstr w = .ok w') :
    ∃ buf w1 w2, execute_inject P begin_ end_ w = .ok (buf, w1) ∧
      execute_run P step fuel ninstr w1 = .ok w2 ∧
      execute_restore P (P.IP w1.regs) (nwords P begin_ end_) buf w2 = .ok w' := by
  unfold execute at h
  split at h
  · simp at h
  · rename_i buf w1 h1
    split at h
    · simp at h
    · rename_i w2 h2
      exact ⟨buf, w1, w2, h1, h2, h⟩

theorem execute_of_phases (P : Profile R) (step : Tracee R → Tracee R × Nat) (fuel : Nat)
    (begin_ end_ : Nat) (ninstr : Int) (w : World R) (buf : Nat → Nat) (w1 : World R)
    (h1 : execute_inject P begin_ end_ w = .ok (buf, w1)) :
    execute P step fuel begin_ end_ ninstr w =
      match execute_run P step fuel ninstr w1 with
      | .error e => .error e
      | .ok w2 => execute_restore P (P.IP w1.regs) (nwords P begin_ end_) buf w2 := by
  unfold execute
  rw [h1]

/-- A returning call leaves the baseline snapshot as it was and the tracee's registers equal
to it. -/
theorem execute_baseline (P : Profile R) (step : Tracee R → Tracee R × Nat) (fuel : Nat)
    (begin_ end_ : Nat) (ninstr : Int) (w w' : World R)
    (h : execute P step fuel begin_ end_ ninstr w = .ok w') :
    w'.reset_regs = w.reset_regs ∧ w'.tracee.regs = w.reset_regs ∧ w'.text = w.text := by
  obtain ⟨buf, w1, w2, h1, h2, h3⟩ := execute_ok P step fuel begin_ end_ ninstr w w' h
  have i := execute_inject_ok P begin_ end_ w buf w1 h1
  have r := execute_restore_ok P _ _ _ _ _ h3
  have hrun : w2.reset_regs = w1.reset_regs ∧ w2.text = w1.text := by
    unfold execute_run at h2
    split at h2
    · have f := step_fixed_ok P step _ _ _ h2
      exact ⟨f.1, f.2.2.1⟩
    · split at h2
      · simp at h2
      · exact step_trap_frame P step _ _ _ h2
  exact ⟨by rw [r.1, hrun.1, i.1], by rw [r.2.2.2.1, hrun.1, i.1], by rw [r.2.1, hrun.2, i.2.1]⟩

end Phases

/-! ## The marshalling of `tracee_syscall` -/

section Marshal

theorem amd64_marshal_ok (nr narg : Int) (args : Nat → Int) (w w1 : World user_regs_struct)
    (h : Amd64.tracee_syscall_marshal nr narg args w = .ok w1) :
    w.tracee.alive = true ∧ w1.reset_regs = w.reset_regs ∧ w1.text = w.text ∧
    w1.tracee = w.tracee ∧ w1.log = w.log ++ [Op.GETREGS] ∧ w1.errno = w.errno ∧
    w1.status = w.status := by
  unfold Amd64.tracee_syscall_marshal at h
  rw [try_GETREGS] at h
  by_cases ha : w.tracee.alive = true
  · simp only [ha, if_true, Except.ok.injEq] at h
    subst h
    exact ⟨ha, rfl, rfl, rfl, rfl, rfl, rfl⟩
  · simp [ha] at h

/-- The working set after the amd64 marshalling, register by register. -/
theorem amd64_marshal_regs (nr narg : Int) (args : Nat → Int) (w w1 : World user_regs_struct)
    (h : Amd64.tracee_syscall_marshal nr narg args w = .ok w1) :
    w1.regs = { w.tracee.regs with
      rax := toUnsigned 64 nr,
      rdi := if narg ≥ 1 then toUnsigned 64 (args 0) else w.tracee.regs.rdi,
      rsi := if narg ≥ 2 then toUnsigned 64 (args 1) else w.tracee.regs.rsi,
      rdx := if narg ≥ 3 then toUnsigned 64 (args 2) else w.tracee.regs.rdx,
      r10 := if narg ≥ 4 then toUnsigned 64 (args 3) else w.tracee.regs.r10,
      r8 := if narg ≥ 5 then toUnsigned 64 (args 4) else w.tracee.regs.r8,
      r9 := if narg ≥ 6 then toUnsigned 64 (args 5) else w.tracee.regs.r9 } := by
  unfold Amd64.tracee_syscall_marshal at h
  rw [try_GETREGS] at h
  by_cases ha : w.tracee.alive = true
  · rw [if_pos ha] at h
    injection h with h
    rw [← h]
  · simp [ha] at h

theorem amd64_tracee_syscall_ok
    (step : Tracee user_regs_struct → Tracee user_regs_struct × Nat) (fuel : Nat)
    (code_begin code_end : Nat) (nr narg : Int) (args : Nat → Int)
    (w : World user_regs_struct) (v : Int) (w' : World user_regs_struct)
    (h : Amd64.tracee_syscall step fuel code_begin code_end nr narg args w = .ok (v, w')) :
    ∃ w1, Amd64.tracee_syscall_marshal nr narg args w = .ok w1 ∧
      execute amd64 step fuel code_begin code_end (-1) w1 = .ok w' ∧
      v = toSigned 64 w'.regs.rax := by
  unfold Amd64.tracee_syscall at h
  split at h
  · simp at h
  · rename_i w1 h1
    split at h
    · simp at h
    · rename_i w2 h2
      simp only [Except.ok.injEq, Prod.mk.injEq] at h
      obtain ⟨rfl, rfl⟩ := h
      exact ⟨w1, h1, h2, rfl⟩

theorem amd64_run_call_baseline
    (step : Tracee user_regs_struct → Tracee user_regs_struct × Nat) (fuel : Nat)
    (c : Amd64.Call) (w w' : World user_regs_struct)
    (h : Amd64.run_call step fuel c w = .ok w') :
    w'.reset_regs = w.reset_regs ∧ w'.tracee.regs = w.reset_regs := by
  cases c with
  | execute b e n =>
    have := execute_baseline amd64 step fuel b e n w w' h
    exact ⟨this.1, this.2.1⟩
  | tracee_syscall b e nr narg args =>
    simp only [Amd64.run_call] at h
    split at h
    · simp at h
    · rename_i v w1 hs
      simp only [Except.ok.injEq] at h
      subst h
      obtain ⟨w0, hm, he, _⟩ := amd64_tracee_syscall_ok step fuel b e nr narg args w _ _ hs
      have m := amd64_marshal_ok nr narg args w w0 hm
      have := execute_baseline amd64 step fuel b e (-1) w0 _ he
      exact ⟨by rw [this.1, m.2.1], by rw [this.2.1, m.2.1]⟩

theorem amd64_run_calls_baseline
    (step : Tracee user_regs_struct → Tracee user_regs_struct × Nat) (fuel : Nat) :
    ∀ (cs : List Amd64.Call) (w w' : World user_regs_struct),
      Amd64.run_calls step fuel cs w = .ok w' →
      w'.reset_regs = w.reset_regs ∧ (cs ≠ [] → w'.tracee.regs = w.reset_regs) := by
  intro cs
  induction cs with
  | nil =>
    intro w w' h
    simp only [Amd64.run_calls, Except.ok.injEq] at h
    subst h
    exact ⟨rfl, fun hne => absurd rfl hne⟩
  | cons c cs ih =>
    intro w w' h
    simp only [Amd64.run_calls] at h
    split at h
    · simp at h
    · rename_i w1 h1
      have b1 := amd64_run_call_baseline step fuel c w w1 h1
      have b2 := ih w1 w' h
      refine ⟨by rw [b2.1, b1.1], fun _ => ?_⟩
      cases cs with
      | nil =>
        simp only [Amd64.run_calls, Except.ok.injEq] at h
        subst h
        exact b1.2
      | cons c2 cs2 => rw [b2.2 (by simp), b1.1]

theorem arm_marshal_ok (nr narg : Int) (args : Nat → Int) (w w1 : World user_regs)
    (h : Arm.tracee_syscall_marshal nr narg args w = .ok w1) :
    w.tracee.alive = true ∧ w1.reset_regs = w.reset_regs ∧ w1.text = w.text ∧
    w1.tracee = w.tracee ∧ w1.log = w.log ++ [Op.GETREGS] := by
  unfold Arm.tracee_syscall_marshal at h
  rw [try_GETREGS] at h
  by_cases ha : w.tracee.alive = true
  · simp only [ha, if_true, Except.ok.injEq] at h
    subst h
    exact ⟨ha, rfl, rfl, rfl, rfl⟩
  · simp [ha] at h

theorem arm_uregs_ite_set (c : Prop) [Decidable c] (r : user_regs) (i k : Fin 18) (v : Nat) :
    (if c then Arm.set_ureg r i v else r).uregs k =
      if c ∧ k.val = i.val then v else r.uregs k := by
  by_cases hc : c
  · by_cases hk : k = i
    · subst hk
      simp [hc, Arm.set_ureg]
    · have hv : ¬ k.val = i.val := fun e => hk (Fin.ext e)
      simp [hc, hv, Arm.set_ureg, Function.update_noteq hk]
  · simp [hc]

/-- The working set after the arm marshalling, register by register. -/
theorem arm_marshal_regs (nr narg : Int) (args : Nat → Int) (w w1 : World user_regs)
    (h : Arm.tracee_syscall_marshal nr narg args w = .ok w1) (k : Fin 18) :
    w1.regs.uregs k =
      if narg ≥ 7 ∧ k.val = 6 then toUnsigned 32 (args 6)
      else if narg ≥ 6 ∧ k.val = 5 then toUnsigned 32 (args 5)
      else if narg ≥ 5 ∧ k.val = 4 then toUnsigned 32 (args 4)
      else if narg ≥ 4 ∧ k.val = 3 then toUnsigned 32 (args 3)
      else if narg ≥ 3 ∧ k.val = 2 then toUnsigned 32 (args 2)
      else if narg ≥ 2 ∧ k.val = 1 then toUnsigned 32 (args 1)
      else if narg ≥ 1 ∧ k.val = 0 then toUnsigned 32 (args 0)
      else if k.val = 7 then toUnsigned 32 nr
      else w.tracee.regs.uregs k := by
  unfold Arm.tracee_syscall_marshal at h
  rw [try_GETREGS] at h
  by_cases ha : w.tracee.alive = true
  · rw [if_pos ha] at h
    injection h with h
    rw [← h]
    simp only [arm_uregs_ite_set]
    have e := arm_uregs_ite_set True w.tracee.regs 7 k (toUnsigned 32 nr)
    simp only [if_true, true_and] at e
    rw [e]
    rfl
  · simp [ha] at h

theorem arm_tracee_syscall_ok
    (step : Tracee user_regs → Tracee user_regs × Nat) (fuel : Nat)
    (code_begin code_end : Nat) (nr narg : Int) (args : Nat → Int)
    (w : World user_regs) (v : Int) (w' : World user_regs)
    (h : Arm.tracee_syscall step fuel code_begin code_end nr narg args w = .ok (v, w')) :
    ∃ w1, Arm.tracee_syscall_marshal nr narg args w = .ok w1 ∧
      execute arm32 step fuel code_begin code_end 1 w1 = .ok w' ∧
      v = toSigned 32 (w'.regs.uregs 0) := by
  unfold Arm.tracee_syscall at h
  split at h
  · simp at h
  · rename_i w1 h1
    split at h
    · simp at h
    · rename_i w2 h2
      simp only [Except.ok.injEq, Prod.mk.injEq] at h
      obtain ⟨rfl, rfl⟩ := h
      exact ⟨w1, h1, h2, rfl⟩

end Marshal

/-! ## Words with all bits set -/

section AllOnes
variable {R : Type}

theorem try_ptrace_error_iff (P : Profile R) (r : Nat × World R) :
    (∃ e, try_ptrace P r = .error e) ↔ (r.1 = neg1 P.bits ∧ r.2.errno ≠ 0) := by
  unfold try_ptrace
  by_cases h : r.1 = neg1 P.bits ∧ r.2.errno ≠ 0
  · rw [if_pos h]
    exact ⟨fun _ => h, fun _ => ⟨_, rfl⟩⟩
  · rw [if_neg h]
    constructor
    · rintro ⟨e, he⟩
      simp at he
    · intro h'
      exact absurd h' h

/-- The low byte of the all-ones word is `0xff`. -/
theorem neg1_low_byte (P : Profile R) : neg1 P.bits &&& 0xff = 0xff := by
  have h := Nat.and_pow_two_sub_one_eq_mod (neg1 P.bits) 8
  have h2 : (2 ^ 8 - 1 : Nat) = 0xff := by norm_num
  rw [h2] at h
  rw [h]
  obtain ⟨n, hn⟩ : ∃ n, P.sizeof_long = n + 1 :=
    ⟨P.sizeof_long - 1, by have := P.sizeof_pos; omega⟩
  have e : 2 ^ P.bits = 256 * 256 ^ n := by
    unfold Profile.bits
    rw [hn, Nat.pow_mul]
    norm_num
    rw [Nat.pow_succ, Nat.mul_comm]
  have hq : 0 < 256 ^ n := Nat.pos_pow_of_pos n (by decide)
  unfold neg1
  rw [e]
  norm_num
  omega

theorem mem_restore_log (s ip : Nat) (buf : Nat → Nat) :
    ∀ (n i j : Nat), j < n →
      Op.POKETEXT (ip + s * (i + j)) (buf (i + j)) ∈ restore_log s ip buf n i := by
  intro n
  induction n with
  | zero => intro i j h; omega
  | succ n ih =>
    intro i j hj
    simp only [restore_log, List.mem_cons]
    cases j with
    | zero => left; rfl
    | succ j =>
      right
      have := ih (i + 1) j (by omega)
      rwa [show i + 1 + j = i + (j + 1) by omega] at this

/-- On a live tracee a snippet of at most 512 words that passes the asserts gets through
lines 138-158, whatever `errno` and the tracee's memory hold. -/
theorem execute_inject_alive (P : Profile R) (begin_ end_ : Nat) (w : World R)
    (ha : w.tracee.alive = true)
    (hb : begin_ = ALIGN_DOWN P.bits begin_ P.sizeof_long)
    (he : ptrdiff P.bits end_ begin_ > 0)
    (hn : (nwords P begin_ end_).toNat ≤ 512) :
    ∃ buf w1, execute_inject P begin_ end_ w = .ok (buf, w1) := by
  have key : ∀ (w0 : World R), w0.tracee.alive = true →
      ∃ buf w1, (match save_loop P
          (P.IP (P.setIP w0.regs (ALIGN_DOWN P.bits (P.IP w0.regs) P.sizeof_long)))
          begin_ (nwords P begin_ end_).toNat 0 (fun _ => 0)
          { w0 with regs := P.setIP w0.regs (ALIGN_DOWN P.bits (P.IP w0.regs) P.sizeof_long) } with
        | .error e => (.error e : Result R ((Nat → Nat) × World R))
        | .ok (buffer, w3) =>
          match try_ptrace P (ptrace_SETREGS P w3 w3.regs) with
          | .error e => .error e
          | .ok (_, w4) => .ok (buffer, w4)) = .ok (buf, w1) := by
    intro w0 h0
    obtain ⟨buf, w3, hs⟩ := save_loop_alive P
      (P.IP (P.setIP w0.regs (ALIGN_DOWN P.bits (P.IP w0.regs) P.sizeof_long)))
      begin_ (nwords P begin_ end_).toNat 0 (fun _ => 0)
      { w0 with regs := (P.setIP w0.regs (ALIGN_DOWN P.bits (P.IP w0.regs) P.sizeof_long)) }
      h0 (by omega)
    have h3 : w3.tracee.alive = true := by
      rw [(save_loop_ok P _ _ _ _ _ _ _ _ hs).2.2.2.2.1]
      exact h0
    rw [hs]
    simp only [try_SETREGS, h3, if_true]
    exact ⟨_, _, rfl⟩
  unfold execute_inject
  rw [if_neg (not_not.mpr hb), if_neg (not_not.mpr he)]
  by_cases h0 : P.IP w.regs = 0
  · rw [if_pos h0, try_GETREGS, if_pos ha]
    exact key { w with regs := w.tracee.regs, log := w.log ++ [Op.GETREGS] } ha
  · rw [if_neg h0]
    exact key w ha

/-- A returning call leaves the `j`-th word of the injection region as it was, and its
restoration ends with one poke per saved word. -/
theorem execute_restores_word (P : Profile R) (step : Tracee R → Tracee R × Nat)
    (fuel begin_ end_ : Nat) (ninstr : Int) (w w' : World R)
    (h : execute P step fuel begin_ end_ ninstr w = .ok w') :
    ∃ buf w1 w2, execute_inject P begin_ end_ w = .ok (buf, w1) ∧
      execute_run P step fuel ninstr w1 = .ok w2 ∧
      w'.log = w2.log ++ restore_log P.sizeof_long (injection_address P w) buf
        (nwords P begin_ end_).toNat 0 ++ [Op.GETREGS, Op.SETREGS] ∧
      ∀ j, j < (nwords P begin_ end_).toNat →
        buf j = peek_word w.tracee.mem (injection_address P w + P.sizeof_long * j)
          P.sizeof_long ∧
        peek_word w'.tracee.mem (injection_address P w + P.sizeof_long * j) P.sizeof_long =
          peek_word w.tracee.mem (injection_address P w + P.sizeof_long * j) P.sizeof_long := by
  obtain ⟨buf, w1, w2, h1, h2, h3⟩ := execute_ok P step fuel begin_ end_ ninstr w w' h
  obtain ⟨_, _, _, i4, _, _, _, i8, _, _, _, _⟩ := execute_inject_ok P begin_ end_ w buf w1 h1
  obtain ⟨_, _, _, _, _, r6, r7, _⟩ := execute_restore_ok P _ _ _ _ _ h3
  rw [i4] at r6 r7
  refine ⟨buf, w1, w2, h1, h2, r6, fun j hj => ⟨i8 j hj, ?_⟩⟩
  apply peek_word_congr
  intro b hb
  rw [r7 j b hj hb, i8 j hj, peek_word_byte _ _ _ _ hb]

end AllOnes

/-! ## The alignment arithmetic -/

theorem align_mask_eq (bits k : Nat) (hk : k ≤ bits) :
    2 ^ bits - 1 - (2 ^ k - 1) = (2 ^ (bits - k) - 1) <<< k := by
  rw [Nat.shiftLeft_eq, Nat.sub_mul, ← Nat.pow_add, Nat.sub_add_cancel hk]
  have h1 : 1 ≤ 2 ^ k := Nat.one_le_two_pow
  have h2 : 2 ^ k ≤ 2 ^ bits := Nat.pow_le_pow_right (by decide) hk
  omega

theorem ALIGN_DOWN_eq (bits k x : Nat) (hk : k ≤ bits) (hx : x < 2 ^ bits) :
    ALIGN_DOWN bits x (2 ^ k) = 2 ^ k * (x / 2 ^ k) := by
  unfold ALIGN_DOWN
  rw [align_mask_eq bits k hk]
  apply Nat.eq_of_testBit_eq
  intro i
  rw [Nat.testBit_and, Nat.testBit_shiftLeft, Nat.testBit_two_pow_sub_one, Nat.mul_comm,
    ← Nat.shiftLeft_eq, Nat.testBit_shiftLeft, ← Nat.shiftRight_eq_div_pow,
    Nat.testBit_shiftRight]
  by_cases h1 : k ≤ i
  · have e : k + (i - k) = i := by omega
    rw [e]
    by_cases h2 : i < bits
    · have : i - k < bits - k := by omega
      simp [h1, this]
    · have hf : x.testBit i = false :=
        Nat.testBit_lt_two_pow (lt_of_lt_of_le hx (Nat.pow_le_pow_right (by decide) (by omega)))
      simp [hf]
  · simp [h1]

theorem toInt32_of_range (z : Int) (h0 : 0 ≤ z) (h1 : z < 2 ^ 31) : toInt32 z = z := by
  unfold toInt32
  norm_num at h1 ⊢
  omega

theorem ALIGN_UP_eq (bits k x : Nat) (hx : x + 2 ^ k - 1 < 2 ^ bits) :
    ALIGN_UP bits x (2 ^ k) = 2 ^ k * ((x + 2 ^ k - 1) / 2 ^ k) := by
  have h1 : 1 ≤ 2 ^ k := Nat.one_le_two_pow
  have hk : k ≤ bits := by
    by_contra hc
    have h2 : 2 ^ (bits + 1) ≤ 2 ^ k := Nat.pow_le_pow_right (by decide) (by omega)
    have h3 : 0 < 2 ^ bits := Nat.two_pow_pos bits
    rw [Nat.pow_succ] at h2
    omega
  have h := ALIGN_DOWN_eq bits k (x + 2 ^ k - 1) hk hx
  unfold ALIGN_DOWN at h
  unfold ALIGN_UP
  rw [Nat.mod_eq_of_lt hx, h]

theorem greatest_multiple (W x : Nat) (hW : 0 < W) :
    W ∣ W * (x / W) ∧ W * (x / W) ≤ x ∧ x < W * (x / W) + W ∧
    ∀ m, W ∣ m → m ≤ x → m ≤ W * (x / W) := by
  refine ⟨Dvd.intro _ rfl, Nat.mul_div_le x W, ?_, ?_⟩
  · have := Nat.div_add_mod x W
    have := Nat.mod_lt x hW
    omega
  · rintro m ⟨c, rfl⟩ hm
    apply Nat.mul_le_mul_left
    rw [Nat.le_div_iff_mul_le hW, Nat.mul_comm]
    exact hm

theorem least_multiple (W x : Nat) (hW : 0 < W) :
    W ∣ W * ((x + W - 1) / W) ∧ x ≤ W * ((x + W - 1) / W) ∧ W * ((x + W - 1) / W) < x + W ∧
    ∀ m, W ∣ m → x ≤ m → W * ((x + W - 1) / W) ≤ m := by
  have hdm := Nat.div_add_mod (x + W - 1) W
  have hlt := Nat.mod_lt (x + W - 1) hW
  refine ⟨Dvd.intro _ rfl, by omega, by omega, ?_⟩
  rintro m ⟨c, rfl⟩ hm
  apply Nat.mul_le_mul_left
  have : (x + W - 1) / W < c + 1 := by
    rw [Nat.div_lt_iff_lt_mul hW, Nat.add_mul, Nat.mul_comm c W]
    omega
  omega

theorem ptrdiff_of_small (bits a b d : Nat) (hd : d < 2 ^ (bits - 1))
    (h : ((a : Int) - (b : Int)) % ((2 ^ bits : Nat) : Int) = (d : Int)) :
    ptrdiff bits a b = (d : Int) := by
  have hle : 2 ^ (bits - 1) ≤ 2 ^ bits := Nat.pow_le_pow_right (by decide) (Nat.sub_le _ _)
  unfold ptrdiff toUnsigned
  rw [h, Int.toNat_ofNat]
  unfold toSigned
  rw [Nat.mod_eq_of_lt (lt_of_lt_of_le hd hle), if_pos hd]

/-- `ALIGN_UP` computes the least multiple of the word size at or above `x`, reduced to
a machine word: at the top of the address range the result wraps to 0. -/
theorem ALIGN_UP_eq_mod (bits k x : Nat) (hk : k ≤ bits) (hx : x < 2 ^ bits) :
    ALIGN_UP bits x (2 ^ k) = (2 ^ k * ((x + 2 ^ k - 1) / 2 ^ k)) % 2 ^ bits := by
  have h1 : 0 < 2 ^ k := Nat.two_pow_pos k
  have hM : 2 ^ bits = 2 ^ k * 2 ^ (bits - k) := by
    rw [← Nat.pow_add, Nat.add_sub_cancel' hk]
  have hle : 2 ^ k ≤ 2 ^ bits := Nat.pow_le_pow_right (by decide) hk
  have hA : ALIGN_UP bits x (2 ^ k) =
      ALIGN_DOWN bits ((x + 2 ^ k - 1) % 2 ^ bits) (2 ^ k) := rfl
  rw [hA, ALIGN_DOWN_eq bits k _ hk (Nat.mod_lt _ (Nat.two_pow_pos bits))]
  by_cases hw : x + 2 ^ k - 1 < 2 ^ bits
  · rw [Nat.mod_eq_of_lt hw]
    have := Nat.mul_div_le (x + 2 ^ k - 1) (2 ^ k)
    rw [Nat.mod_eq_of_lt (by omega)]
  · have hr : (x + 2 ^ k - 1) % 2 ^ bits = x + 2 ^ k - 1 - 2 ^ bits := by
      rw [Nat.mod_eq_sub_mod (by omega), Nat.mod_eq_of_lt (by omega)]
    have hq : (x + 2 ^ k - 1) / 2 ^ k = 2 ^ (bits - k) := by
      have e1 : x + 2 ^ k - 1 = (x + 2 ^ k - 1 - 2 ^ bits) + 2 ^ k * 2 ^ (bits - k) := by
        omega
      rw [e1, Nat.add_mul_div_left _ _ h1, Nat.div_eq_of_lt (by omega)]
      omega
    rw [hr, hq, ← hM, Nat.mod_self, Nat.div_eq_of_lt (by omega), Nat.mul_zero]

theorem nwords_eq_ceil (bits k b e : Nat) (hE : e < 2 ^ bits)
    (hb : b = ALIGN_DOWN bits b (2 ^ k)) (hbe : b < e)
    (hd : 2 ^ k * ((e - b + 2 ^ k - 1) / 2 ^ k) < 2 ^ (bits - 1))
    (hn : (e - b + 2 ^ k - 1) / 2 ^ k < 2 ^ 31) :
    ptrdiff bits (ALIGN_UP bits e (2 ^ k)) b =
      ((2 ^ k * ((e - b + 2 ^ k - 1) / 2 ^ k) : Nat) : Int) ∧
    toInt32 (Int.tdiv (ptrdiff bits (ALIGN_UP bits e (2 ^ k)) b) ((2 ^ k : Nat) : Int)) =
      (((e - b + 2 ^ k - 1) / 2 ^ k : Nat) : Int) := by
  have h1 : 0 < 2 ^ k := Nat.two_pow_pos k
  have hc1 : 1 ≤ (e - b + 2 ^ k - 1) / 2 ^ k := by
    rw [Nat.le_div_iff_mul_le h1]
    omega
  have hWd : 2 ^ k ≤ 2 ^ k * ((e - b + 2 ^ k - 1) / 2 ^ k) := Nat.le_mul_of_pos_right _ hc1
  have hle : 2 ^ (bits - 1) ≤ 2 ^ bits := Nat.pow_le_pow_right (by decide) (Nat.sub_le _ _)
  have hk : k ≤ bits := by
    by_contra hc
    have h2 : 2 ^ bits ≤ 2 ^ k := Nat.pow_le_pow_right (by decide) (by omega)
    omega
  have hbd := ALIGN_DOWN_eq bits k b hk (by omega)
  rw [← hb] at hbd
  have hU := ALIGN_UP_eq_mod bits k e hk hE
  generalize hW : 2 ^ k = W at *
  have hq : (e + W - 1) / W = (e - b + W - 1) / W + b / W := by
    have e1 : e + W - 1 = (e - b + W - 1) + W * (b / W) := by omega
    rw [e1, Nat.add_mul_div_left _ _ h1]
  have hp : ptrdiff bits (ALIGN_UP bits e W) b =
      ((W * ((e - b + W - 1) / W) : Nat) : Int) := by
    apply ptrdiff_of_small bits _ _ _ hd
    rw [hU, hq, Int.natCast_mod, Int.sub_emod, Int.emod_emod, ← Int.sub_emod]
    have e2 : ((W * ((e - b + W - 1) / W + b / W) : Nat) : Int) - (b : Int) =
        ((W * ((e - b + W - 1) / W) : Nat) : Int) := by
      have : ((b : Nat) : Int) = ((W * (b / W) : Nat) : Int) := by rw [← hbd]
      rw [this]
      push_cast
      ring
    rw [e2]
    apply Int.emod_eq_of_lt (Int.natCast_nonneg _)
    exact_mod_cast lt_of_lt_of_le hd hle
  refine ⟨hp, ?_⟩
  rw [hp, Nat.cast_mul, Int.mul_tdiv_cancel_left _ (by omega)]
  exact toInt32_of_range _ (Int.natCast_nonneg _) (by exact_mod_cast hn)

theorem ptrdiff_pos_of_small (bits b e : Nat) (hbe : b < e) (hd : e - b < 2 ^ (bits - 1)) :
    ptrdiff bits e b > 0 := by
  have hle : 2 ^ (bits - 1) ≤ 2 ^ bits := Nat.pow_le_pow_right (by decide) (Nat.sub_le _ _)
  have h := ptrdiff_of_small bits e b (e - b) hd (by
    have e1 : (e : Int) - (b : Int) = ((e - b : Nat) : Int) := by omega
    rw [e1]
    apply Int.emod_eq_of_lt (Int.natCast_nonneg _)
    exact_mod_cast lt_of_lt_of_le hd hle)
  rw [h]
  omega


/-! ## The claims -/

section Claims
variable {R : Type}

/-- C1. Memory round trip of `execute`: whenever a call of `execute` returns, in either
stepping mode, every byte, and so every word, of tracee memory in the injection region
`[a, a + nwords words)`, `a` the working instruction pointer aligned down to the word size,
holds after the call the value it held before.  (A returning call has at most 512 words;
the restore loop rewrites the whole region, so nothing has to be assumed about what the
stepped instructions wrote.) -/
theorem execute_memory_round_trip (P : Profile R) (step : Tracee R → Tracee R × Nat)
    (fuel begin_ end_ : Nat) (ninstr : Int) (w w' : World R)
    (h : execute P step fuel begin_ end_ ninstr w = .ok w') :
    (∀ addr, injection_address P w ≤ addr →
      addr < injection_address P w + P.sizeof_long * (nwords P begin_ end_).toNat →
      w'.tracee.mem addr = w.tracee.mem addr) ∧
    (∀ j, j < (nwords P begin_ end_).toNat →
      peek_word w'.tracee.mem (injection_address P w + P.sizeof_long * j) P.sizeof_long =
        peek_word w.tracee.mem (injection_address P w + P.sizeof_long * j) P.sizeof_long) := by
  obtain ⟨buf, w1, w2, h1, h2, h3⟩ := execute_ok P step fuel begin_ end_ ninstr w w' h
  obtain ⟨_, _, _, i4, _, _, _, i8, _, _, _, _⟩ := execute_inject_ok P begin_ end_ w buf w1 h1
  obtain ⟨_, _, _, _, _, _, r7, _⟩ := execute_restore_ok P _ _ _ _ _ h3
  rw [i4] at r7
  have bytes : ∀ addr, injection_address P w ≤ addr →
      addr < injection_address P w + P.sizeof_long * (nwords P begin_ end_).toNat →
      w'.tracee.mem addr = w.tracee.mem addr := by
    intro addr ha1 ha2
    have hs := P.sizeof_pos
    have hdm := Nat.div_add_mod (addr - injection_address P w) P.sizeof_long
    have hb : (addr - injection_address P w) % P.sizeof_long < P.sizeof_long :=
      Nat.mod_lt _ hs
    have hj : (addr - injection_address P w) / P.sizeof_long < (nwords P begin_ end_).toNat := by
      apply Nat.div_lt_of_lt_mul
      omega
    have e : addr = injection_address P w +
        P.sizeof_long * ((addr - injection_address P w) / P.sizeof_long) +
        (addr - injection_address P w) % P.sizeof_long := by omega
    rw [e, r7 _ _ hj hb, i8 _ hj, peek_word_byte _ _ _ _ hb]
  refine ⟨bytes, ?_⟩
  intro j hj
  apply peek_word_congr
  intro b hb
  apply bytes
  · omega
  · have : P.sizeof_long * (j + 1) ≤ P.sizeof_long * (nwords P begin_ end_).toNat :=
      Nat.mul_le_mul_left _ hj
    rw [Nat.mul_add, Nat.mul_one] at this
    omega

theorem world0_returns :
    execute amd64 Sample.toy_step 5 0x2000 0x2003 (-1) Sample.world0 = .ok Sample.world0_done :=
  rfl

/-- C1, exercised: `execute(0x2000, 0x2003, -1)` on `Sample.world0` returns, its injection
region is the one word at `0x1000`, holding `90 ff 90 ..` before and after. -/
theorem execute_memory_round_trip_witness :
    execute amd64 Sample.toy_step 5 0x2000 0x2003 (-1) Sample.world0 = .ok Sample.world0_done ∧
    injection_address amd64 Sample.world0 = 0x1000 ∧
    (nwords amd64 0x2000 0x2003).toNat = 1 ∧
    Sample.world0_done.tracee.mem 0x1001 = Sample.world0.tracee.mem 0x1001 ∧
    peek_word Sample.world0_done.tracee.mem 0x1000 8 = 0x909090909090ff90 :=
  ⟨world0_returns, by decide, by decide,
    (execute_memory_round_trip amd64 Sample.toy_step 5 0x2000 0x2003 (-1) Sample.world0
      Sample.world0_done world0_returns).1 0x1001 (by decide) (by decide),
    ((execute_memory_round_trip amd64 Sample.toy_step 5 0x2000 0x2003 (-1) Sample.world0
      Sample.world0_done world0_returns).2 0 (by decide)).trans (by decide)⟩

theorem fresh_injects :
    execute_inject amd64 0x2000 0x2003 Sample.fresh = .ok Sample.fresh_injected :=
  rfl

theorem fresh_nonzero_returns :
    Amd64.run_calls Sample.toy_step 5 [Amd64.Call.execute 0x2000 0x2003 (-1)]
      Sample.fresh_nonzero = .ok Sample.fresh_nonzero_done :=
  rfl

/-- C2, as stated, fails: the first call captures the tracee's registers R0 in the working
set `regs` only, never in the baseline `reset_regs`.  On a freshly zeroed handle, when the
first call has read the registers (lines 146-148) and pushed them (line 158), `regs` holds
R0 with `rip` aligned down while `reset_regs` is still all zero, not R0.  And `struct
tracexec` gives `reset_regs` no initial value: on a fresh handle whose storage holds
another user-mode register set (`rip = 0x4000`, `rbx = 5`) the one-call sequence returns
with `reset_regs` still that set and the tracee's `rip` and `rbx`, neither a return-value
register, at `0x4000` and 5, not R0's `0x1003` and 0. -/
theorem fresh_handle_baseline_not_captured :
    (execute_inject amd64 0x2000 0x2003 Sample.fresh = .ok Sample.fresh_injected ∧
      Sample.fresh.regs = Sample.zero_regs ∧ Sample.fresh.reset_regs = Sample.zero_regs ∧
      Sample.fresh.tracee.regs.rip = 0x1003 ∧
      Sample.fresh_injected.2.regs = { Sample.fresh.tracee.regs with rip := 0x1000 } ∧
      Sample.fresh_injected.2.reset_regs = Sample.zero_regs ∧
      Sample.fresh_injected.2.reset_regs ≠ Sample.fresh.tracee.regs) ∧
    (Amd64.run_calls Sample.toy_step 5 [Amd64.Call.execute 0x2000 0x2003 (-1)]
        Sample.fresh_nonzero = .ok Sample.fresh_nonzero_done ∧
      Sample.fresh_nonzero.regs = Sample.zero_regs ∧
      Sample.fresh_nonzero.tracee.regs.rip = 0x1003 ∧
      Sample.fresh_nonzero.tracee.regs.rbx = 0 ∧
      Sample.fresh_nonzero.reset_regs =
        { Sample.fresh_nonzero.tracee.regs with rip := 0x4000, rbx := 5, rax := 0 } ∧
      Sample.fresh_nonzero.reset_regs.cs = 0x33 ∧ Sample.fresh_nonzero.reset_regs.ss = 0x2b ∧
      Sample.fresh_nonzero_done.reset_regs = Sample.fresh_nonzero.reset_regs ∧
      Sample.fresh_nonzero_done.reset_regs ≠ Sample.fresh_nonzero.tracee.regs ∧
      Sample.fresh_nonzero_done.tracee.regs.rip = 0x4000 ∧
      Sample.fresh_nonzero_done.tracee.regs.rbx = 5) :=
  ⟨⟨fresh_injects, rfl, rfl, rfl, by decide, rfl, by decide⟩,
    ⟨fresh_nonzero_returns, rfl, rfl, rfl, by decide, rfl, rfl, rfl, by decide, rfl, rfl⟩⟩

/-- C2, amended: no call writes the baseline snapshot `reset_regs`, and after the last call
of any returning sequence of one or more `execute` / `tracee_syscall` calls the tracee's
register set equals `reset_regs` as the handle held it before the sequence, in every
register; so it equals the pre-sequence register set R0 when the caller had stored R0 in
`reset_regs`. -/
theorem run_calls_restore_reset_regs
    (step : Tracee user_regs_struct → Tracee user_regs_struct × Nat) (fuel : Nat)
    (cs : List Amd64.Call) (w w' : World user_regs_struct) (hne : cs ≠ [])
    (h : Amd64.run_calls step fuel cs w = .ok w') :
    w'.reset_regs = w.reset_regs ∧ w'.tracee.regs = w.reset_regs ∧
    (w.reset_regs = w.tracee.regs → w'.tracee.regs = w.tracee.regs) := by
  have b := amd64_run_calls_baseline step fuel cs w w' h
  exact ⟨b.1, b.2 hne, fun e => by rw [b.2 hne, e]⟩

theorem world0_twice_returns :
    Amd64.run_calls Sample.toy_step 5
      [Amd64.Call.tracee_syscall 0x2000 0x2003 16 3 (Amd64.args3 1 2 3),
       Amd64.Call.execute 0x2000 0x2003 (-1)] Sample.world0 = .ok Sample.world0_twice :=
  rfl

/-- C2 amended, exercised: with the baseline set to R0 beforehand, after a
`tracee_syscall` and an `execute` the tracee's registers are R0 again, `rax = 7` included. -/
theorem run_calls_restore_reset_regs_witness :
    [Amd64.Call.tracee_syscall 0x2000 0x2003 16 3 (Amd64.args3 1 2 3),
       Amd64.Call.execute 0x2000 0x2003 (-1)] ≠ [] ∧
    Amd64.run_calls Sample.toy_step 5
      [Amd64.Call.tracee_syscall 0x2000 0x2003 16 3 (Amd64.args3 1 2 3),
       Amd64.Call.execute 0x2000 0x2003 (-1)] Sample.world0 = .ok Sample.world0_twice ∧
    Sample.world0.reset_regs = Sample.world0.tracee.regs ∧
    Sample.world0_twice.tracee.regs = Sample.world0.tracee.regs ∧
    Sample.world0_twice.tracee.regs.rax = 7 :=
  ⟨by simp, world0_twice_returns, rfl,
    (run_calls_restore_reset_regs Sample.toy_step 5 _ Sample.world0 Sample.world0_twice
      (by simp) world0_twice_returns).2.2 rfl,
    rfl⟩

/-- C3. Baseline is reused and restored to: a returning call of `execute` leaves the
baseline snapshot `reset_regs` as it was and the tracee's register set equal to it; so
after a second call from there the snapshot is still the same and the tracee's instruction
pointer is the baseline's, whatever the snippets and injection addresses.  The same holds
for every returning `tracee_syscall`, on both profiles. -/
theorem execute_restores_to_baseline (P : Profile R) (step : Tracee R → Tracee R × Nat)
    (fuel begin_ end_ : Nat) (ninstr : Int) (w w' : World R)
    (h : execute P step fuel begin_ end_ ninstr w = .ok w') :
    w'.reset_regs = w.reset_regs ∧ w'.tracee.regs = w.reset_regs ∧
    (∀ (fuel2 begin2 end2 : Nat) (ninstr2 : Int) (w2 : World R),
      execute P step fuel2 begin2 end2 ninstr2 w' = .ok w2 →
      w2.reset_regs = w.reset_regs ∧ w2.tracee.regs = w.reset_regs ∧
      P.IP w2.tracee.regs = P.IP w.reset_regs) ∧
    (∀ (st : Tracee user_regs_struct → Tracee user_regs_struct × Nat) (fl cb ce : Nat)
      (nr narg : Int) (args : Nat → Int) (u : World user_regs_struct) (v : Int)
      (u' : World user_regs_struct),
      Amd64.tracee_syscall st fl cb ce nr narg args u = .ok (v, u') →
      u'.reset_regs = u.reset_regs ∧ u'.tracee.regs = u.reset_regs) ∧
    (∀ (st : Tracee user_regs → Tracee user_regs × Nat) (fl cb ce : Nat)
      (nr narg : Int) (args : Nat → Int) (u : World user_regs) (v : Int)
      (u' : World user_regs),
      Arm.tracee_syscall st fl cb ce nr narg args u = .ok (v, u') →
      u'.reset_regs = u.reset_regs ∧ u'.tracee.regs = u.reset_regs) := by
  have b := execute_baseline P step fuel begin_ end_ ninstr w w' h
  refine ⟨b.1, b.2.1, ?_, ?_, ?_⟩
  · intro fuel2 begin2 end2 ninstr2 w2 h2
    have b2 := execute_baseline P step fuel2 begin2 end2 ninstr2 w' w2 h2
    exact ⟨by rw [b2.1, b.1], by rw [b2.2.1, b.1], by rw [b2.2.1, b.1]⟩
  · intro st fl cb ce nr narg args u v u' hs
    obtain ⟨u0, hm, he, _⟩ := amd64_tracee_syscall_ok st fl cb ce nr narg args u v u' hs
    have m := amd64_marshal_ok nr narg args u u0 hm
    have e := execute_baseline amd64 st fl cb ce (-1) u0 u' he
    exact ⟨by rw [e.1, m.2.1], by rw [e.2.1, m.2.1]⟩
  · intro st fl cb ce nr narg args u v u' hs
    obtain ⟨u0, hm, he, _⟩ := arm_tracee_syscall_ok st fl cb ce nr narg args u v u' hs
    have m := arm_marshal_ok nr narg args u u0 hm
    have e := execute_baseline arm32 st fl cb ce 1 u0 u' he
    exact ⟨by rw [e.1, m.2.1], by rw [e.2.1, m.2.1]⟩

/-- C3, exercised: the call on `Sample.world0` returns with the baseline kept and the
tracee's instruction pointer back at the baseline's `0x1003`, not at the injection address
`0x1000`. -/
theorem execute_restores_to_baseline_witness :
    execute amd64 Sample.toy_step 5 0x2000 0x2003 (-1) Sample.world0 = .ok Sample.world0_done ∧
    Sample.world0_done.reset_regs = Sample.world0.reset_regs ∧
    Sample.world0_done.tracee.regs = Sample.world0.reset_regs ∧
    Sample.world0_done.tracee.regs.rip = 0x1003 ∧
    injection_address amd64 Sample.world0 = 0x1000 :=
  ⟨world0_returns,
    (execute_restores_to_baseline amd64 Sample.toy_step 5 0x2000 0x2003 (-1) Sample.world0
      Sample.world0_done world0_returns).1,
    (execute_restores_to_baseline amd64 Sample.toy_step 5 0x2000 0x2003 (-1) Sample.world0
      Sample.world0_done world0_returns).2.1,
    rfl, by decide⟩

/-- C4. Fixed-count mode: for every step count `ninstr = N ≥ 0`, a call of `execute` that
returns (no trace request failed) has issued, after the requests that save and overwrite the
region and push the registers and before the pokes that restore the saved words, exactly
`N` times a single-step followed by one wait, and no single-step or wait anywhere else; this
for every `step`, that is whatever the wait statuses were and whatever byte stood at the
instruction pointer. -/
theorem execute_fixed_count_steps (P : Profile R) (step : Tracee R → Tracee R × Nat)
    (fuel begin_ end_ : Nat) (ninstr : Int) (w w' : World R) (hN : 0 ≤ ninstr)
    (h : execute P step fuel begin_ end_ ninstr w = .ok w') :
    w'.log = w.log ++
      ((if P.IP w.regs = 0 then [Op.GETREGS] else []) ++
        save_log P.sizeof_long (injection_address P w) begin_ w.text
          (nwords P begin_ end_).toNat 0 ++ [Op.SETREGS]) ++
      step_log ninstr.toNat ++
      (restore_log P.sizeof_long (injection_address P w)
          (fun j => peek_word w.tracee.mem (injection_address P w + P.sizeof_long * j)
            P.sizeof_long)
          (nwords P begin_ end_).toNat 0 ++ [Op.GETREGS, Op.SETREGS]) ∧
    w'.log.count Op.SINGLESTEP = w.log.count Op.SINGLESTEP + ninstr.toNat ∧
    w'.log.count Op.WAITPID = w.log.count Op.WAITPID + ninstr.toNat := by
  obtain ⟨buf, w1, w2, h1, h2, h3⟩ := execute_ok P step fuel begin_ end_ ninstr w w' h
  obtain ⟨_, _, _, i4, _, _, i7, i8, _, _, _, _⟩ := execute_inject_ok P begin_ end_ w buf w1 h1
  obtain ⟨_, _, _, _, _, r6, _, _⟩ := execute_restore_ok P _ _ _ _ _ h3
  have hne : ninstr ≠ -1 := by omega
  unfold execute_run at h2
  rw [if_pos hne] at h2
  obtain ⟨_, _, _, _, f5⟩ := step_fixed_ok P step _ _ _ h2
  have hc : restore_log P.sizeof_long (P.IP w1.regs) buf (nwords P begin_ end_).toNat 0 =
      restore_log P.sizeof_long (injection_address P w)
        (fun j => peek_word w.tracee.mem (injection_address P w + P.sizeof_long * j)
          P.sizeof_long) (nwords P begin_ end_).toNat 0 := by
    rw [i4]
    apply restore_log_congr
    intro j _ hj
    exact i8 j (by omega)
  have hlog : w'.log = w.log ++
      ((if P.IP w.regs = 0 then [Op.GETREGS] else []) ++
        save_log P.sizeof_long (injection_address P w) begin_ w.text
          (nwords P begin_ end_).toNat 0 ++ [Op.SETREGS]) ++
      step_log ninstr.toNat ++
      (restore_log P.sizeof_long (injection_address P w)
          (fun j => peek_word w.tracee.mem (injection_address P w + P.sizeof_long * j)
            P.sizeof_long)
          (nwords P begin_ end_).toNat 0 ++ [Op.GETREGS, Op.SETREGS]) := by
    rw [r6, f5, i7, hc]
    simp only [List.append_assoc]
  refine ⟨hlog, ?_, ?_⟩
  · rw [hlog]
    simp only [List.count_append, count_save_log _ (Or.inl rfl), count_step_log _ (Or.inl rfl),
      count_restore_log _ (Or.inl rfl)]
    split <;> simp
  · rw [hlog]
    simp only [List.count_append, count_save_log _ (Or.inr rfl), count_step_log _ (Or.inr rfl),
      count_restore_log _ (Or.inr rfl)]
    split <;> simp

theorem world_cc_returns :
    execute amd64 Sample.toy_step 0 0x2000 0x2008 3 Sample.world_cc = .ok Sample.world_cc_done :=
  rfl

/-- C4, exercised: three steps are asked for on a snippet that starts with the breakpoint
opcode `0xcc`, every stop is a SIGTRAP stop, and still exactly three single-steps and three
waits are issued. -/
theorem execute_fixed_count_steps_witness :
    (0 : Int) ≤ 3 ∧
    execute amd64 Sample.toy_step 0 0x2000 0x2008 3 Sample.world_cc = .ok Sample.world_cc_done ∧
    Sample.world_cc.text 0x2000 % 256 = 0xcc ∧
    Sample.world_cc_done.log.count Op.SINGLESTEP = 3 ∧
    Sample.world_cc_done.log.count Op.WAITPID = 3 :=
  ⟨by decide, world_cc_returns, by decide,
    (execute_fixed_count_steps amd64 Sample.toy_step 0 0x2000 0x2008 3 Sample.world_cc
      Sample.world_cc_done (by decide) world_cc_returns).2.1,
    (execute_fixed_count_steps amd64 Sample.toy_step 0 0x2000 0x2008 3 Sample.world_cc
      Sample.world_cc_done (by decide) world_cc_returns).2.2⟩

/-- C5. Trap mode (`ninstr = -1`) on a profile with the trap opcode: starting from the
tracee state `w1.tracee` left by the injection, let `k ≥ 1` be the least step count after
which the tracee is stopped with SIGTRAP and the byte at its instruction pointer is `0xcc`
(the tracee alive up to there and no earlier wait status reporting an exit).  Then
`execute` returns as soon as the model is given `k` iterations of fuel, having issued
exactly `k` single-steps, and with less fuel it is still stepping: it never ends at a
smaller count.  The byte is what the code tests: the low 8 bits of the word peeked at an
address are the byte stored there, for every word value. -/
theorem execute_trap_mode_steps (P : Profile R) (hP : P.arm = false)
    (step : Tracee R → Tracee R × Nat) (begin_ end_ : Nat) (w : World R)
    (buf : Nat → Nat) (w1 : World R)
    (hi : execute_inject P begin_ end_ w = .ok (buf, w1))
    (k : Nat) (hk : 1 ≤ k)
    (halive : ∀ j, j ≤ k → (tracee_after step j w1.tracee).alive = true)
    (hnoexit : ∀ j, 1 ≤ j → j < k → WIFEXITED (status_after step j w1.tracee) = false)
    (htrap : trap_seen P step w1.tracee k = true)
    (hleast : ∀ j, 1 ≤ j → j < k → trap_seen P step w1.tracee j = false) :
    (∀ fuel, k ≤ fuel → ∃ w', execute P step fuel begin_ end_ (-1) w = .ok w' ∧
      w'.log.count Op.SINGLESTEP = w.log.count Op.SINGLESTEP + k) ∧
    (∀ fuel, fuel < k → ∃ w', execute P step fuel begin_ end_ (-1) w =
      .error (Halt.outOfFuel, w')) ∧
    (∀ (m : Nat → Fin 256) (a : Nat), peek_word m a P.sizeof_long &&& 0xff = (m a).val) := by
  obtain ⟨_, _, _, _, _, _, i7, _, _, _, _, _⟩ := execute_inject_ok P begin_ end_ w buf w1 hi
  have hrun : ∀ fuel, execute_run P step fuel (-1) w1 = step_trap P step fuel w1 := by
    intro fuel
    unfold execute_run
    simp [hP]
  refine ⟨?_, ?_, ?_⟩
  · intro fuel hf
    obtain ⟨w2, r1, r2, r3⟩ :=
      step_trap_run P step k fuel w1 hk hf halive hnoexit hleast htrap
    have ha2 : w2.tracee.alive = true := by rw [r2]; exact halive k (Nat.le_refl _)
    obtain ⟨w', hr⟩ :=
      execute_restore_alive P (P.IP w1.regs) (nwords P begin_ end_) buf w2 ha2
    obtain ⟨_, _, _, _, _, r6, _, _⟩ := execute_restore_ok P _ _ _ _ _ hr
    refine ⟨w', ?_, ?_⟩
    · rw [execute_of_phases P step fuel begin_ end_ (-1) w buf w1 hi, hrun, r1]
      exact hr
    · rw [r6]
      simp only [List.count_append, count_restore_log _ (Or.inl rfl), r3, i7,
        count_save_log _ (Or.inl rfl)]
      split <;> simp
  · intro fuel hf
    obtain ⟨w2, r1⟩ := step_trap_starve P step fuel w1
      (fun j hj => halive j (by omega))
      (fun j hj1 hj2 => hnoexit j hj1 (by omega))
      (fun j hj1 hj2 => hleast j hj1 (by omega))
    refine ⟨w2, ?_⟩
    rw [execute_of_phases P step fuel begin_ end_ (-1) w buf w1 hi, hrun, r1]
  · intro m a
    obtain ⟨n, hn⟩ : ∃ n, P.sizeof_long = n + 1 :=
      ⟨P.sizeof_long - 1, by have := P.sizeof_pos; omega⟩
    rw [hn]
    exact peek_word_low_byte m a n

theorem world_nop_injects :
    execute_inject amd64 0x2000 0x2004 Sample.world_nop = .ok Sample.world_nop_injected :=
  rfl

/-- C5, exercised on the snippet `nop; syscall; int3`: the first step stops with SIGTRAP at a
byte that is not `0xcc`, the second stops at the `int3`; `execute` returns with two
single-steps as soon as it has fuel for two iterations, and with fuel for one it is still
stepping. -/
theorem execute_trap_mode_steps_witness :
    execute_inject amd64 0x2000 0x2004 Sample.world_nop = .ok Sample.world_nop_injected ∧
    trap_seen amd64 Sample.toy_step Sample.world_nop_injected.2.tracee 1 = false ∧
    trap_seen amd64 Sample.toy_step Sample.world_nop_injected.2.tracee 2 = true ∧
    (∀ fuel, 2 ≤ fuel → ∃ w', execute amd64 Sample.toy_step fuel 0x2000 0x2004 (-1)
        Sample.world_nop = .ok w' ∧
      w'.log.count Op.SINGLESTEP = Sample.world_nop.log.count Op.SINGLESTEP + 2) ∧
    (∀ fuel, fuel < 2 → ∃ w', execute amd64 Sample.toy_step fuel 0x2000 0x2004 (-1)
        Sample.world_nop = .error (Halt.outOfFuel, w')) :=
  have t := execute_trap_mode_steps amd64 rfl Sample.toy_step 0x2000 0x2004 Sample.world_nop
      Sample.world_nop_injected.1 Sample.world_nop_injected.2 world_nop_injects 2 (by decide)
      (by decide)
      (by intro j h1 h2; interval_cases j; decide)
      (by decide)
      (by intro j h1 h2; interval_cases j; decide)
  ⟨world_nop_injects, by decide, by decide, t.1, t.2.1⟩

theorem toUnsigned_natCast (bits n : Nat) : toUnsigned bits (n : Int) = n % 2 ^ bits := by
  unfold toUnsigned
  rw [← Int.natCast_mod, Int.toNat_ofNat]

theorem toUnsigned_lt (bits : Nat) (x : Int) : toUnsigned bits x < 2 ^ bits := by
  unfold toUnsigned
  have hp : (0 : Int) < ((2 ^ bits : Nat) : Int) := by exact_mod_cast Nat.two_pow_pos bits
  have h1 := Int.emod_lt_of_pos x hp
  have h0 := Int.emod_nonneg x (ne_of_gt hp)
  omega

theorem slot32_pattern (x : Int) : toUnsigned 64 (Amd64.slot32 x) = toUnsigned 32 x := by
  unfold Amd64.slot32
  rw [toUnsigned_natCast]
  have := toUnsigned_lt 32 x
  omega

theorem arm_slot_pattern (x : Int) : toUnsigned 32 (Arm.slot x) = toUnsigned 32 x := by
  unfold Arm.slot
  rw [toUnsigned_toSigned_32]
  exact Nat.mod_eq_of_lt (toUnsigned_lt 32 x)

theorem amd64_syscall_result
    (step : Tracee user_regs_struct → Tracee user_regs_struct × Nat) (fuel : Nat)
    (code_begin code_end : Nat) (nr narg : Int) (args : Nat → Int)
    (w : World user_regs_struct) (v : Int) (w' : World user_regs_struct)
    (h : Amd64.tracee_syscall step fuel code_begin code_end nr narg args w = .ok (v, w')) :
    ∃ w0 buf w1 w2, Amd64.tracee_syscall_marshal nr narg args w = .ok w0 ∧
      execute_inject amd64 code_begin code_end w0 = .ok (buf, w1) ∧
      execute_run amd64 step fuel (-1) w1 = .ok w2 ∧
      v = toSigned 64 w2.tracee.regs.rax ∧ toUnsigned 64 v = w2.tracee.regs.rax % 2 ^ 64 := by
  obtain ⟨w0, hm, he, hv⟩ :=
    amd64_tracee_syscall_ok step fuel code_begin code_end nr narg args w v w' h
  obtain ⟨buf, w1, w2, h1, h2, h3⟩ := execute_ok amd64 step fuel _ _ _ w0 w' he
  obtain ⟨_, _, r3, _⟩ := execute_restore_ok amd64 _ _ _ _ _ h3
  refine ⟨w0, buf, w1, w2, hm, h1, h2, ?_, ?_⟩
  · rw [hv, r3]
  · rw [hv, r3, toUnsigned_toSigned_64]

theorem arm_syscall_result
    (st : Tracee user_regs → Tracee user_regs × Nat) (fl cb ce : Nat) (n na : Int)
    (as : Nat → Int) (u : World user_regs) (x : Int) (u' : World user_regs)
    (hs : Arm.tracee_syscall st fl cb ce n na as u = .ok (x, u')) :
    ∃ u0 buf u1 u2, Arm.tracee_syscall_marshal n na as u = .ok u0 ∧
      execute_inject arm32 cb ce u0 = .ok (buf, u1) ∧
      execute_run arm32 st fl 1 u1 = .ok u2 ∧
      x = toSigned 32 (u2.tracee.regs.uregs 0) ∧
      toUnsigned 32 x = u2.tracee.regs.uregs 0 % 2 ^ 32 := by
  obtain ⟨u0, hm, he, hv⟩ := arm_tracee_syscall_ok st fl cb ce n na as u x u' hs
  obtain ⟨buf, u1, u2, h1, h2, h3⟩ := execute_ok arm32 st fl _ _ _ u0 u' he
  obtain ⟨_, _, r3, _⟩ := execute_restore_ok arm32 _ _ _ _ _ h3
  refine ⟨u0, buf, u1, u2, hm, h1, h2, ?_, ?_⟩
  · rw [hv, r3]
  · rw [hv, r3, toUnsigned_toSigned_32]

/-- C6. Raw result pass-through: the integer a returning `tracee_syscall` returns is the
signed reading of the tracee's return-value register as it stood when the stepping phase
ended (`rax`, 64 bits; on the arm profile `r0`, 32 bits), with the same bit pattern; the
baseline plays no part in it.  On both profiles the wrappers `ioctl`, `fcntl`, `read` are
`tracee_syscall` with their call number, `narg = 3` and their three arguments in order, each
argument with the bits the caller passed (on the 64-bit profile a 32-bit `fd` or `cmd`
fills the low half of its slot); so what a returning wrapper returns is likewise the signed
reading of `rax`, respectively `r0`, at the end of the stepping of its call. -/
theorem tracee_syscall_returns_raw_result
    (step : Tracee user_regs_struct → Tracee user_regs_struct × Nat) (fuel : Nat)
    (code_begin code_end : Nat) (nr narg : Int) (args : Nat → Int)
    (w : World user_regs_struct) (v : Int) (w' : World user_regs_struct)
    (h : Amd64.tracee_syscall step fuel code_begin code_end nr narg args w = .ok (v, w')) :
    (∃ w0 buf w1 w2, Amd64.tracee_syscall_marshal nr narg args w = .ok w0 ∧
      execute_inject amd64 code_begin code_end w0 = .ok (buf, w1) ∧
      execute_run amd64 step fuel (-1) w1 = .ok w2 ∧
      v = toSigned 64 w2.tracee.regs.rax ∧ toUnsigned 64 v = w2.tracee.regs.rax % 2 ^ 64) ∧
    (∀ (st : Tracee user_regs → Tracee user_regs × Nat) (fl cb ce : Nat) (n na : Int)
      (as : Nat → Int) (u : World user_regs) (x : Int) (u' : World user_regs),
      Arm.tracee_syscall st fl cb ce n na as u = .ok (x, u') →
      ∃ u0 buf u1 u2, Arm.tracee_syscall_marshal n na as u = .ok u0 ∧
        execute_inject arm32 cb ce u0 = .ok (buf, u1) ∧
        execute_run arm32 st fl 1 u1 = .ok u2 ∧
        x = toSigned 32 (u2.tracee.regs.uregs 0) ∧
        toUnsigned 32 x = u2.tracee.regs.uregs 0 % 2 ^ 32) ∧
    (∀ (fd : Int) (cmd arg : Nat),
      Amd64.ioctl step fuel code_begin code_end fd cmd arg =
        Amd64.tracee_syscall step fuel code_begin code_end 16 3
          (Amd64.args3 (Amd64.slot32 fd) (Amd64.slot32 cmd) (Amd64.slot64 arg)) ∧
      Amd64.fcntl step fuel code_begin code_end fd cmd arg =
        Amd64.tracee_syscall step fuel code_begin code_end 72 3
          (Amd64.args3 (Amd64.slot32 fd) (Amd64.slot32 cmd) (Amd64.slot64 arg)) ∧
      Amd64.read step fuel code_begin code_end fd cmd arg =
        Amd64.tracee_syscall step fuel code_begin code_end 0 3
          (Amd64.args3 (Amd64.slot32 fd) (Amd64.slot64 cmd) (Amd64.slot64 arg)) ∧
      toUnsigned 64 (Amd64.slot32 fd) = toUnsigned 32 fd ∧
      toUnsigned 64 (Amd64.slot32 cmd) = cmd % 2 ^ 32 ∧
      toUnsigned 64 (Amd64.slot64 arg) = arg % 2 ^ 64) ∧
    (∀ (st : Tracee user_regs → Tracee user_regs × Nat) (fl cb ce : Nat)
      (fd : Int) (cmd arg : Nat),
      Arm.ioctl st fl cb ce fd cmd arg =
        Arm.tracee_syscall st fl cb ce 54 3
          (Amd64.args3 (Arm.slot fd) (Arm.slot cmd) (Arm.slot arg)) ∧
      Arm.fcntl st fl cb ce fd cmd arg =
        Arm.tracee_syscall st fl cb ce 55 3
          (Amd64.args3 (Arm.slot fd) (Arm.slot cmd) (Arm.slot arg)) ∧
      Arm.read st fl cb ce fd cmd arg =
        Arm.tracee_syscall st fl cb ce 3 3
          (Amd64.args3 (Arm.slot fd) (Arm.slot cmd) (Arm.slot arg)) ∧
      toUnsigned 32 (Arm.slot fd) = toUnsigned 32 fd ∧
      toUnsigned 32 (Arm.slot cmd) = cmd % 2 ^ 32) ∧
    (∀ a b c : Int, Amd64.args3 a b c 0 = a ∧ Amd64.args3 a b c 1 = b ∧
      Amd64.args3 a b c 2 = c) ∧
    (∀ (fd : Int) (cmd arg : Nat) (u : World user_regs_struct) (x : Int)
      (u' : World user_regs_struct),
      Amd64.ioctl step fuel code_begin code_end fd cmd arg u = .ok (x, u') →
      ∃ u0 buf u1 u2,
        Amd64.tracee_syscall_marshal 16 3
          (Amd64.args3 (Amd64.slot32 fd) (Amd64.slot32 cmd) (Amd64.slot64 arg)) u = .ok u0 ∧
        execute_inject amd64 code_begin code_end u0 = .ok (buf, u1) ∧
        execute_run amd64 step fuel (-1) u1 = .ok u2 ∧
        x = toSigned 64 u2.tracee.regs.rax ∧ toUnsigned 64 x = u2.tracee.regs.rax % 2 ^ 64) ∧
    (∀ (fd : Int) (cmd arg : Nat) (u : World user_regs_struct) (x : Int)
      (u' : World user_regs_struct),
      Amd64.fcntl step fuel code_begin code_end fd cmd arg u = .ok (x, u') →
      ∃ u0 buf u1 u2,
        Amd64.tracee_syscall_marshal 72 3
          (Amd64.args3 (Amd64.slot32 fd) (Amd64.slot32 cmd) (Amd64.slot64 arg)) u = .ok u0 ∧
        execute_inject amd64 code_begin code_end u0 = .ok (buf, u1) ∧
        execute_run amd64 step fuel (-1) u1 = .ok u2 ∧
        x = toSigned 64 u2.tracee.regs.rax ∧ toUnsigned 64 x = u2.tracee.regs.rax % 2 ^ 64) ∧
    (∀ (fd : Int) (cmd arg : Nat) (u : World user_regs_struct) (x : Int)
      (u' : World user_regs_struct),
      Amd64.read step fuel code_begin code_end fd cmd arg u = .ok (x, u') →
      ∃ u0 buf u1 u2,
        Amd64.tracee_syscall_marshal 0 3
          (Amd64.args3 (Amd64.slot32 fd) (Amd64.slot64 cmd) (Amd64.slot64 arg)) u = .ok u0 ∧
        execute_inject amd64 code_begin code_end u0 = .ok (buf, u1) ∧
        execute_run amd64 step fuel (-1) u1 = .ok u2 ∧
        x = toSigned 64 u2.tracee.regs.rax ∧ toUnsigned 64 x = u2.tracee.regs.rax % 2 ^ 64) ∧
    (∀ (st : Tracee user_regs → Tracee user_regs × Nat) (fl cb ce : Nat)
      (fd : Int) (cmd arg : Nat) (u : World user_regs) (x : Int) (u' : World user_regs),
      Arm.ioctl st fl cb ce fd cmd arg u = .ok (x, u') →
      ∃ u0 buf u1 u2,
        Arm.tracee_syscall_marshal 54 3
          (Amd64.args3 (Arm.slot fd) (Arm.slot cmd) (Arm.slot arg)) u = .ok u0 ∧
        execute_inject arm32 cb ce u0 = .ok (buf, u1) ∧
        execute_run arm32 st fl 1 u1 = .ok u2 ∧
        x = toSigned 32 (u2.tracee.regs.uregs 0) ∧
        toUnsigned 32 x = u2.tracee.regs.uregs 0 % 2 ^ 32) ∧
    (∀ (st : Tracee user_regs → Tracee user_regs × Nat) (fl cb ce : Nat)
      (fd : Int) (cmd arg : Nat) (u : World user_regs) (x : Int) (u' : World user_regs),
      Arm.fcntl st fl cb ce fd cmd arg u = .ok (x, u') →
      ∃ u0 buf u1 u2,
        Arm.tracee_syscall_marshal 55 3
          (Amd64.args3 (Arm.slot fd) (Arm.slot cmd) (Arm.slot arg)) u = .ok u0 ∧
        execute_inject arm32 cb ce u0 = .ok (buf, u1) ∧
        execute_run arm32 st fl 1 u1 = .ok u2 ∧
        x = toSigned 32 (u2.tracee.regs.uregs 0) ∧
        toUnsigned 32 x = u2.tracee.regs.uregs 0 % 2 ^ 32) ∧
    (∀ (st : Tracee user_regs → Tracee user_regs × Nat) (fl cb ce : Nat)
      (fd : Int) (cmd arg : Nat) (u : World user_regs) (x : Int) (u' : World user_regs),
      Arm.read st fl cb ce fd cmd arg u = .ok (x, u') →
      ∃ u0 buf u1 u2,
        Arm.tracee_syscall_marshal 3 3
          (Amd64.args3 (Arm.slot fd) (Arm.slot cmd) (Arm.slot arg)) u = .ok u0 ∧
        execute_inject arm32 cb ce u0 = .ok (buf, u1) ∧
        execute_run arm32 st fl 1 u1 = .ok u2 ∧
        x = toSigned 32 (u2.tracee.regs.uregs 0) ∧
        toUnsigned 32 x = u2.tracee.regs.uregs 0 % 2 ^ 32) := by
  refine ⟨amd64_syscall_result step fuel code_begin code_end nr narg args w v w' h,
    arm_syscall_result, ?_, ?_, fun a b c => ⟨rfl, rfl, rfl⟩,
    fun fd cmd arg u x u' hx =>
      amd64_syscall_result step fuel code_begin code_end _ _ _ u x u' hx,
    fun fd cmd arg u x u' hx =>
      amd64_syscall_result step fuel code_begin code_end _ _ _ u x u' hx,
    fun fd cmd arg u x u' hx =>
      amd64_syscall_result step fuel code_begin code_end _ _ _ u x u' hx,
    fun st fl cb ce fd cmd arg u x u' hx => arm_syscall_result st fl cb ce _ _ _ u x u' hx,
    fun st fl cb ce fd cmd arg u x u' hx => arm_syscall_result st fl cb ce _ _ _ u x u' hx,
    fun st fl cb ce fd cmd arg u x u' hx => arm_syscall_result st fl cb ce _ _ _ u x u' hx⟩
  · intro fd cmd arg
    refine ⟨rfl, rfl, rfl, ?_, ?_, ?_⟩
    · exact slot32_pattern fd
    · exact (slot32_pattern cmd).trans (toUnsigned_natCast 32 cmd)
    · exact toUnsigned_toSigned_64 arg
  · intro st fl cb ce fd cmd arg
    refine ⟨rfl, rfl, rfl, ?_, ?_⟩
    · exact arm_slot_pattern fd
    · exact (arm_slot_pattern cmd).trans (toUnsigned_natCast 32 cmd)

theorem world0_ioctl_returns :
    Amd64.ioctl Sample.toy_step 5 0x2000 0x2003 1 2 3 Sample.world0
      = .ok Sample.world0_ioctl :=
  rfl

theorem arm_live_read_returns :
    Arm.read Sample.arm_toy_step 0 0x2000 0x2004 (-1) 0x9000 16 Sample.arm_live
      = .ok Sample.arm_live_read :=
  rfl

/-- C6, exercised: `ioctl(1, 2, 3)` on `Sample.world0`, whose toy syscall leaves
`rax = 0xfffffffffffffff7`, returns `-9`, while the baseline's `rax` is 7; and on the
32-bit profile `read(-1, 0x9000, 16)` on `Sample.arm_live`, whose toy instruction leaves
`r0 = 0xfffffff7`, returns `-9`, while the baseline's `r0` is 7.  On the 64-bit profile a
file descriptor of -1 reaches the register as `0xffffffff`. -/
theorem tracee_syscall_returns_raw_result_witness :
    Amd64.tracee_syscall Sample.toy_step 5 0x2000 0x2003 16 3
      (Amd64.args3 (Amd64.slot32 1) (Amd64.slot32 2) (Amd64.slot64 3)) Sample.world0
      = .ok (Sample.world0_ioctl.1, Sample.world0_ioctl.2) ∧
    Sample.world0_ioctl.1 = -9 ∧ Sample.world0.reset_regs.rax = 7 ∧
    (∃ w0 buf w1 w2,
      Amd64.tracee_syscall_marshal 16 3
        (Amd64.args3 (Amd64.slot32 1) (Amd64.slot32 2) (Amd64.slot64 3)) Sample.world0
        = .ok w0 ∧
      execute_inject amd64 0x2000 0x2003 w0 = .ok (buf, w1) ∧
      execute_run amd64 Sample.toy_step 5 (-1) w1 = .ok w2 ∧
      Sample.world0_ioctl.1 = toSigned 64 w2.tracee.regs.rax ∧
      toUnsigned 64 Sample.world0_ioctl.1 = w2.tracee.regs.rax % 2 ^ 64) ∧
    Arm.read Sample.arm_toy_step 0 0x2000 0x2004 (-1) 0x9000 16 Sample.arm_live
      = .ok (Sample.arm_live_read.1, Sample.arm_live_read.2) ∧
    Sample.arm_live_read.1 = -9 ∧ Sample.arm_live.reset_regs.uregs 0 = 7 ∧
    (∃ u0 buf u1 u2,
      Arm.tracee_syscall_marshal 3 3
        (Amd64.args3 (Arm.slot (-1)) (Arm.slot (0x9000 : Nat)) (Arm.slot (16 : Nat)))
        Sample.arm_live = .ok u0 ∧
      execute_inject arm32 0x2000 0x2004 u0 = .ok (buf, u1) ∧
      execute_run arm32 Sample.arm_toy_step 0 1 u1 = .ok u2 ∧
      Sample.arm_live_read.1 = toSigned 32 (u2.tracee.regs.uregs 0) ∧
      toUnsigned 32 Sample.arm_live_read.1 = u2.tracee.regs.uregs 0 % 2 ^ 32) ∧
    toUnsigned 64 (Amd64.slot32 (-1)) = 0xffffffff :=
  have t := tracee_syscall_returns_raw_result Sample.toy_step 5 0x2000 0x2003 16 3
    (Amd64.args3 (Amd64.slot32 1) (Amd64.slot32 2) (Amd64.slot64 3)) Sample.world0
    Sample.world0_ioctl.1 Sample.world0_ioctl.2 world0_ioctl_returns
  ⟨world0_ioctl_returns, by decide, rfl, t.1,
    arm_live_read_returns, by decide, rfl,
    t.2.2.2.2.2.2.2.2.2.2 Sample.arm_toy_step 0 0x2000 0x2004 (-1) 0x9000 16 Sample.arm_live
      Sample.arm_live_read.1 Sample.arm_live_read.2 arm_live_read_returns,
    by decide⟩

/-- C7, the code at its failing input: a tracee stopped with its instruction pointer at 0
and the call `tracee_syscall(16, 3, 1, 2, 3)`.  Lines 101-110 marshal `rax = 16`,
`rdi = 1` into the working set; then `execute` (line 146) takes `IP(regs) == 0` for "no
registers read yet" and reads the registers again, which drops the marshalled values: the
register set pushed at line 158 has the tracee's own `rax = 7`, not the call number 16,
and `rdi = 0`, not the first argument 1, so the tracee runs another system call than the
one asked for.  The test at line 146 is meant for the first call on a handle; here it
fires on a working set the caller has just filled. -/
theorem marshalling_lost_at_null_ip :
    Sample.world_null.tracee.regs.rip = 0 ∧
    Amd64.tracee_syscall_marshal 16 3 (Amd64.args3 1 2 3) Sample.world_null
      = .ok Sample.world_null_marshalled ∧
    Sample.world_null_marshalled.regs.rax = 16 ∧
    execute_inject amd64 0x2000 0x2003 Sample.world_null_marshalled
      = .ok Sample.world_null_injected ∧
    Sample.world_null_injected.2.regs.rax = 7 ∧
    Sample.world_null_injected.2.regs.rdi = 0 ∧
    Sample.world_null_injected.2.tracee.regs.rax = 7 ∧
    Sample.world_null_injected.2.tracee.regs.rdi = 0 ∧
    Sample.world_null_injected.2.log =
      [Op.GETREGS, Op.GETREGS, Op.PEEKTEXT 0, Op.POKETEXT 0 0x9090909090cc050f,
        Op.SETREGS] ∧
    toUnsigned 64 16 = 16 ∧ toUnsigned 64 (Amd64.args3 1 2 3 0) = 1 :=
  ⟨rfl, rfl, rfl, rfl, rfl, rfl, rfl, rfl, by decide, by decide, by decide⟩

/-- What the 64-bit marshalling does away from that input: for every tracee register state
`T` whose instruction pointer is not 0, every call number and every `narg` with arguments
`a1..`, the register set `tracee_syscall` pushes into the tracee before stepping has
`rax = nr`, the first `narg` of `rdi, rsi, rdx, r10, r8, r9` equal to the arguments in
order, `rip` equal to `T.rip` aligned down to 8, and every other register, the argument
registers past the `narg`-th included, as in `T`. -/
theorem tracee_syscall_pushed_registers (nr narg : Int) (args : Nat → Int)
    (code_begin code_end : Nat) (w w0 : World user_regs_struct) (buf : Nat → Nat)
    (w1 : World user_regs_struct) (hip : w.tracee.regs.rip ≠ 0)
    (hm : Amd64.tracee_syscall_marshal nr narg args w = .ok w0)
    (hi : execute_inject amd64 code_begin code_end w0 = .ok (buf, w1)) :
    w1.tracee.regs.rax = toUnsigned 64 nr ∧
    w1.tracee.regs.rdi = (if 1 ≤ narg then toUnsigned 64 (args 0) else w.tracee.regs.rdi) ∧
    w1.tracee.regs.rsi = (if 2 ≤ narg then toUnsigned 64 (args 1) else w.tracee.regs.rsi) ∧
    w1.tracee.regs.rdx = (if 3 ≤ narg then toUnsigned 64 (args 2) else w.tracee.regs.rdx) ∧
    w1.tracee.regs.r10 = (if 4 ≤ narg then toUnsigned 64 (args 3) else w.tracee.regs.r10) ∧
    w1.tracee.regs.r8 = (if 5 ≤ narg then toUnsigned 64 (args 4) else w.tracee.regs.r8) ∧
    w1.tracee.regs.r9 = (if 6 ≤ narg then toUnsigned 64 (args 5) else w.tracee.regs.r9) ∧
    w1.tracee.regs.rip = ALIGN_DOWN 64 w.tracee.regs.rip 8 ∧
    w1.tracee.regs.r15 = w.tracee.regs.r15 ∧ w1.tracee.regs.r14 = w.tracee.regs.r14 ∧
    w1.tracee.regs.r13 = w.tracee.regs.r13 ∧ w1.tracee.regs.r12 = w.tracee.regs.r12 ∧
    w1.tracee.regs.rbp = w.tracee.regs.rbp ∧ w1.tracee.regs.rbx = w.tracee.regs.rbx ∧
    w1.tracee.regs.r11 = w.tracee.regs.r11 ∧ w1.tracee.regs.rcx = w.tracee.regs.rcx ∧
    w1.tracee.regs.orig_rax = w.tracee.regs.orig_rax ∧ w1.tracee.regs.cs = w.tracee.regs.cs ∧
    w1.tracee.regs.eflags = w.tracee.regs.eflags ∧ w1.tracee.regs.rsp = w.tracee.regs.rsp ∧
    w1.tracee.regs.ss = w.tracee.regs.ss ∧ w1.tracee.regs.fs_base = w.tracee.regs.fs_base ∧
    w1.tracee.regs.gs_base = w.tracee.regs.gs_base ∧ w1.tracee.regs.ds = w.tracee.regs.ds ∧
    w1.tracee.regs.es = w.tracee.regs.es ∧ w1.tracee.regs.fs = w.tracee.regs.fs ∧
    w1.tracee.regs.gs = w.tracee.regs.gs := by
  obtain ⟨_, _, i3, _, i5, _⟩ := execute_inject_ok amd64 code_begin code_end w0 buf w1 hi
  have hregs := amd64_marshal_regs nr narg args w w0 hm
  have hrip : w0.regs.rip = w.tracee.regs.rip := by rw [hregs]
  have hwork : working_regs amd64 w0 = w0.regs := by
    unfold working_regs
    rw [if_neg]
    show ¬ w0.regs.rip = 0
    rw [hrip]
    exact hip
  have hpush : w1.tracee.regs = { w0.regs with rip := ALIGN_DOWN 64 w.tracee.regs.rip 8 } := by
    rw [i5, i3, hwork]
    show ({ w0.regs with rip := ALIGN_DOWN 64 (working_regs amd64 w0).rip 8 } : user_regs_struct) = _
    rw [hwork, hrip]
  rw [hpush, hregs]
  exact ⟨rfl, rfl, rfl, rfl, rfl, rfl, rfl, rfl, rfl, rfl, rfl, rfl, rfl, rfl, rfl, rfl, rfl,
    rfl, rfl, rfl, rfl, rfl, rfl, rfl, rfl, rfl, rfl⟩

theorem world0_marshals :
    Amd64.tracee_syscall_marshal 16 2 (Amd64.args3 1 2 3) Sample.world0
      = .ok Sample.world0_marshalled :=
  rfl

theorem world0_marshalled_injects :
    execute_inject amd64 0x2000 0x2003 Sample.world0_marshalled = .ok Sample.world0_injected :=
  rfl

/-- The same, exercised: `tracee_syscall(16, 2, 1, 2)` on a tracee at `0x1003` pushes
`rax = 16`, `rdi = 1`, `rsi = 2`, the tracee's own `rdx`, and `rip = 0x1000`. -/
theorem tracee_syscall_pushed_registers_witness :
    Sample.world0.tracee.regs.rip ≠ 0 ∧
    Amd64.tracee_syscall_marshal 16 2 (Amd64.args3 1 2 3) Sample.world0
      = .ok Sample.world0_marshalled ∧
    execute_inject amd64 0x2000 0x2003 Sample.world0_marshalled = .ok Sample.world0_injected ∧
    Sample.world0_injected.2.tracee.regs.rax = 16 ∧
    Sample.world0_injected.2.tracee.regs.rdi = 1 ∧
    Sample.world0_injected.2.tracee.regs.rsi = 2 ∧
    Sample.world0_injected.2.tracee.regs.rdx = Sample.world0.tracee.regs.rdx ∧
    Sample.world0_injected.2.tracee.regs.rip = 0x1000 :=
  have t := tracee_syscall_pushed_registers 16 2 (Amd64.args3 1 2 3) 0x2000 0x2003
    Sample.world0 Sample.world0_marshalled Sample.world0_injected.1 Sample.world0_injected.2
    (by decide) world0_marshals world0_marshalled_injects
  ⟨by decide, world0_marshals, world0_marshalled_injects,
    t.1.trans (by decide), t.2.1.trans (by decide), t.2.2.1.trans (by decide),
    t.2.2.2.1.trans (by decide), t.2.2.2.2.2.2.2.1.trans (by decide)⟩

/-- C8, as stated, fails for `narg = 7`: the arm `tracee_syscall` stores the seventh
argument in `r6`, which then no longer holds the value read from the tracee. -/
theorem arm_seventh_argument_goes_to_r6 :
    Arm.tracee_syscall_marshal 54 7 Sample.counting_args Sample.arm_world
      = .ok Sample.arm_marshalled7 ∧
    Sample.arm_world.tracee.regs.uregs 6 = 106 ∧
    Sample.arm_marshalled7.regs.uregs 6 = 7 ∧
    toUnsigned 32 (Sample.counting_args 6) = 7 :=
  ⟨rfl, rfl, by decide, by decide⟩

/-- C8, amended: on the 32-bit profile, for every call number and every `narg`,
`tracee_syscall` writes the call number to `r7` and the first `min(narg, 7)` arguments to
`r0..r6` in order, a seventh argument going to `r6`; the registers it modifies are always
among `r0..r7`, every register `r8..r17` keeps the value read from the tracee, and so does
each of `r0..r6` that is not below `narg`: with at most six arguments `r6` is kept. -/
theorem arm_marshalling_registers (nr narg : Int) (args : Nat → Int)
    (w w0 : World user_regs) (h : Arm.tracee_syscall_marshal nr narg args w = .ok w0) :
    w0.regs.uregs 7 = toUnsigned 32 nr ∧
    (∀ k : Fin 18, k.val < 7 →
      w0.regs.uregs k =
        if (k.val : Int) < narg then toUnsigned 32 (args k.val) else w.tracee.regs.uregs k) ∧
    (∀ k : Fin 18, 8 ≤ k.val → w0.regs.uregs k = w.tracee.regs.uregs k) ∧
    (narg ≤ 6 → w0.regs.uregs 6 = w.tracee.regs.uregs 6) := by
  have key : ∀ k : Fin 18, k.val < 7 →
      w0.regs.uregs k =
        if (k.val : Int) < narg then toUnsigned 32 (args k.val) else w.tracee.regs.uregs k := by
    intro k hk
    rw [arm_marshal_regs nr narg args w w0 h k]
    rcases (by omega : k.val = 0 ∨ k.val = 1 ∨ k.val = 2 ∨ k.val = 3 ∨ k.val = 4 ∨
      k.val = 5 ∨ k.val = 6) with e | e | e | e | e | e | e <;>
    · rw [e]
      norm_num
      split_ifs <;> first | rfl | omega
  refine ⟨?_, key, ?_, ?_⟩
  · rw [arm_marshal_regs nr narg args w w0 h 7]
    have e : ((7 : Fin 18) : Nat) = 7 := rfl
    rw [e]
    norm_num
  · intro k hk
    rw [arm_marshal_regs nr narg args w w0 h k]
    have h0 : ¬ k.val = 0 := by omega
    have h1 : ¬ k.val = 1 := by omega
    have h2 : ¬ k.val = 2 := by omega
    have h3 : ¬ k.val = 3 := by omega
    have h4 : ¬ k.val = 4 := by omega
    have h5 : ¬ k.val = 5 := by omega
    have h6 : ¬ k.val = 6 := by omega
    have h7 : ¬ k.val = 7 := by omega
    simp only [h0, h1, h2, h3, h4, h5, h6, h7, and_false, if_false]
  · intro hn
    rw [key 6 (by decide)]
    have e : ((6 : Fin 18) : Nat) = 6 := rfl
    rw [if_neg]
    rw [e]
    norm_num
    omega

theorem arm_world_marshals3 :
    Arm.tracee_syscall_marshal 54 3 Sample.counting_args Sample.arm_world
      = .ok Sample.arm_marshalled3 :=
  rfl

/-- C8 amended, exercised: with three arguments `r7 = 54`, `r0..r2 = 1, 2, 3`, and `r3`,
`r6`, `r15` keep the tracee's `103`, `106`, `115`. -/
theorem arm_marshalling_registers_witness :
    Arm.tracee_syscall_marshal 54 3 Sample.counting_args Sample.arm_world
      = .ok Sample.arm_marshalled3 ∧
    Sample.arm_marshalled3.regs.uregs 7 = 54 ∧
    Sample.arm_marshalled3.regs.uregs 2 = 3 ∧
    Sample.arm_marshalled3.regs.uregs 3 = 103 ∧
    Sample.arm_marshalled3.regs.uregs 6 = 106 ∧
    Sample.arm_marshalled3.regs.uregs 15 = 115 :=
  have t := arm_marshalling_registers 54 3 Sample.counting_args Sample.arm_world
    Sample.arm_marshalled3 arm_world_marshals3
  ⟨arm_world_marshals3, t.1.trans (by decide), (t.2.1 2 (by decide)).trans (by decide),
    (t.2.1 3 (by decide)).trans (by decide), (t.2.2.2 (by decide)).trans (by decide),
    (t.2.2.1 15 (by decide)).trans (by decide)⟩

/-- C9, the code at a failing input: a snippet of 513 words (`begin = 0x2000`,
`end = 0x3008`) passes both asserts, since `execute` has no check against the 512-word
scratch buffer; the call is not rejected: the word at the injection address `0x1000` has
been overwritten with the first snippet word (its first byte is `0x0f`, was `0x90`), as
have the 511 words after it, when the 513th saved word is stored past the end of the
buffer. -/
theorem execute_oversized_snippet_not_rejected :
    (nwords amd64 0x2000 0x3008).toNat = 513 ∧
    ∃ w', execute amd64 Sample.toy_step 0 0x2000 0x3008 1 Sample.world0 =
        .error (Halt.bufferOverrun, w') ∧
      Op.POKETEXT 0x1000 0x9090909090cc050f ∈ w'.log ∧
      w'.tracee.mem 0x1000 = 0x0f ∧ Sample.world0.tracee.mem 0x1000 = 0x90 := by
  refine ⟨by decide, ?_⟩
  obtain ⟨w', h1, h2, h3⟩ := execute_overrun amd64 Sample.toy_step 0 0x2000 0x3008 1
    Sample.world0 (by decide) (by decide) rfl (by decide)
  have e : injection_address amd64 Sample.world0 = 0x1000 := by decide
  rw [e] at h2 h3
  exact ⟨w', h1, h2, (h3 0 (by decide)).trans (by decide), by decide⟩

/-- C10. Tracee exit is fatal in both modes: if during a call of `execute` that got as far
as the stepping the tracee is gone after its `k`-th single-step (`k ≥ 1`; in fixed-count
mode `k ≤ ninstr`, the last step included; in trap mode no trap seen before), then the
call never returns a result, whatever the fuel, and the controller is ended by `exit` as
soon as the model follows it one request past that step. -/
theorem execute_tracee_exit_is_fatal (P : Profile R) (step : Tracee R → Tracee R × Nat)
    (begin_ end_ : Nat) (ninstr : Int) (w : World R) (buf : Nat → Nat) (w1 : World R)
    (hi : execute_inject P begin_ end_ w = .ok (buf, w1))
    (k : Nat) (hk : 1 ≤ k)
    (halive : ∀ j, j < k → (tracee_after step j w1.tracee).alive = true)
    (hdead : (tracee_after step k w1.tracee).alive = false)
    (hfixed : ninstr ≠ -1 → (k : Int) ≤ ninstr)
    (htrap : ninstr = -1 → ∀ j, 1 ≤ j → j < k → trap_seen P step w1.tracee j = false) :
    (∀ fuel, ∃ h w', execute P step fuel begin_ end_ ninstr w = .error (h, w')) ∧
    (∀ fuel, k < fuel →
      ∃ c w', execute P step fuel begin_ end_ ninstr w = .error (Halt.exit c, w')) := by
  by_cases hn : ninstr = -1
  · -- trap mode
    subst hn
    by_cases ha : P.arm = true
    · have hrun : ∀ fuel, execute P step fuel begin_ end_ (-1) w = .error (Halt.exit 2, w1) := by
        intro fuel
        rw [execute_of_phases P step fuel begin_ end_ (-1) w buf w1 hi]
        unfold execute_run
        simp [ha]
      exact ⟨fun fuel => ⟨_, _, hrun fuel⟩, fun fuel _ => ⟨_, _, hrun fuel⟩⟩
    · have hrun : ∀ fuel, execute_run P step fuel (-1) w1 = step_trap P step fuel w1 := by
        intro fuel
        unfold execute_run
        simp [ha]
      constructor
      · intro fuel
        obtain ⟨⟨h, w', r⟩, _⟩ := step_trap_fatal P step k fuel w1 hk halive hdead (htrap rfl)
        refine ⟨h, w', ?_⟩
        rw [execute_of_phases P step fuel begin_ end_ (-1) w buf w1 hi, hrun, r]
      · intro fuel hf
        obtain ⟨_, r2⟩ := step_trap_fatal P step k fuel w1 hk halive hdead (htrap rfl)
        obtain ⟨w', r⟩ := r2 hf
        refine ⟨1, w', ?_⟩
        rw [execute_of_phases P step fuel begin_ end_ (-1) w buf w1 hi, hrun, r]
  · -- fixed-count mode
    have hkn : k ≤ ninstr.toNat := by have := hfixed hn; omega
    have hrun : ∀ fuel, execute_run P step fuel ninstr w1 = step_fixed P step ninstr.toNat w1 := by
      intro fuel
      unfold execute_run
      simp [hn]
    have main : ∀ fuel, ∃ w', execute P step fuel begin_ end_ ninstr w =
        .error (Halt.exit 1, w') := by
      intro fuel
      rw [execute_of_phases P step fuel begin_ end_ ninstr w buf w1 hi, hrun]
      by_cases hlt : k < ninstr.toNat
      · obtain ⟨w', r⟩ := step_fixed_dead P step ninstr.toNat w1 k hlt hdead
        exact ⟨w', by rw [r]⟩
      · have e : ninstr.toNat = k := by omega
        obtain ⟨w2, r⟩ := step_fixed_alive P step ninstr.toNat w1 (by rw [e]; exact halive)
        have hd2 : w2.tracee.alive = false := by
          rw [(step_fixed_ok P step _ _ _ r).2.2.2.1, e]
          exact hdead
        obtain ⟨w', r'⟩ :=
          execute_restore_dead P (P.IP w1.regs) (nwords P begin_ end_) buf w2 hd2
        exact ⟨w', by rw [r]; exact r'⟩
    exact ⟨fun fuel => (main fuel).elim fun w' r => ⟨_, w', r⟩,
      fun fuel _ => (main fuel).elim fun w' r => ⟨1, w', r⟩⟩

theorem world0_injects :
    execute_inject amd64 0x2000 0x2003 Sample.world0 = .ok Sample.world0_injected_raw :=
  rfl

/-- C10, exercised on a tracee whose injected syscall is `exit`: gone after the first step,
in trap mode and, in fixed-count mode with `ninstr = 1`, on the last step; neither call
returns and both end in `exit`. -/
theorem execute_tracee_exit_is_fatal_witness :
    execute_inject amd64 0x2000 0x2003 Sample.world0 = .ok Sample.world0_injected_raw ∧
    (tracee_after Sample.dying_step 1 Sample.world0_injected_raw.2.tracee).alive = false ∧
    ((∀ fuel, ∃ h w', execute amd64 Sample.dying_step fuel 0x2000 0x2003 (-1) Sample.world0
        = .error (h, w')) ∧
      (∀ fuel, 1 < fuel → ∃ c w', execute amd64 Sample.dying_step fuel 0x2000 0x2003 (-1)
        Sample.world0 = .error (Halt.exit c, w'))) ∧
    ((∀ fuel, ∃ h w', execute amd64 Sample.dying_step fuel 0x2000 0x2003 1 Sample.world0
        = .error (h, w')) ∧
      (∀ fuel, 1 < fuel → ∃ c w', execute amd64 Sample.dying_step fuel 0x2000 0x2003 1
        Sample.world0 = .error (Halt.exit c, w'))) :=
  ⟨world0_injects, by decide,
    execute_tracee_exit_is_fatal amd64 Sample.dying_step 0x2000 0x2003 (-1) Sample.world0
      Sample.world0_injected_raw.1 Sample.world0_injected_raw.2 world0_injects 1 (by decide)
      (by intro j hj; interval_cases j; decide) (by decide)
      (by intro h; exact absurd rfl h)
      (by intro _ j h1 h2; omega),
    execute_tracee_exit_is_fatal amd64 Sample.dying_step 0x2000 0x2003 1 Sample.world0
      Sample.world0_injected_raw.1 Sample.world0_injected_raw.2 world0_injects 1 (by decide)
      (by intro j hj; interval_cases j; decide) (by decide)
      (by intro _; decide)
      (by intro h; exact absurd h (by decide))⟩

theorem arm_live_injects :
    execute_inject arm32 0x10000 0x8000ffff Sample.arm_live = .ok Sample.arm_live_injected :=
  rfl

/-- C11, as stated, fails where the machine arithmetic wraps.  At the top of the address
range `ALIGN_UP(x, 8)` is 0, not a multiple of 8 at or above `x`.  On the 32-bit profile
the aligned `begin = 0x10000` and `end = 0x8000ffff` pass both asserts (`end - begin` is
`2 ^ 31 - 1`), the snippet takes `2 ^ 29` words, but `lend - lbegin` is `2 ^ 31` bytes,
which the signed pointer difference reads as `-2 ^ 31`: the count is `-2 ^ 29` and
`execute` saves and overwrites no word at all (the requests up to the register push are
the register read and the push only).  On the 64-bit profile a snippet of `2 ^ 31` words
passes both asserts and has the count `int nwords` wrap to `-2 ^ 31`. -/
theorem align_up_wraps_at_top :
    ALIGN_UP 64 (2 ^ 64 - 1) 8 = 0 ∧ ¬ (2 ^ 64 - 1 ≤ ALIGN_UP 64 (2 ^ 64 - 1) 8) ∧
    (0x10000 = ALIGN_DOWN arm32.bits 0x10000 arm32.sizeof_long ∧ 0x10000 < 0x8000ffff ∧
      ptrdiff arm32.bits 0x8000ffff 0x10000 = 2 ^ 31 - 1 ∧
      (0x8000ffff - 0x10000 + arm32.sizeof_long - 1) / arm32.sizeof_long = 2 ^ 29 ∧
      ptrdiff arm32.bits (ALIGN_UP arm32.bits 0x8000ffff arm32.sizeof_long) 0x10000
        = -(2 ^ 31) ∧
      nwords arm32 0x10000 0x8000ffff = -(2 ^ 29) ∧
      execute_inject arm32 0x10000 0x8000ffff Sample.arm_live
        = .ok Sample.arm_live_injected ∧
      Sample.arm_live_injected.2.log = [Op.GETREGS, Op.SETREGS]) ∧
    (0x400000 = ALIGN_DOWN amd64.bits 0x400000 amd64.sizeof_long ∧
      ptrdiff amd64.bits (0x400000 + 2 ^ 34) 0x400000 = 2 ^ 34 ∧
      (0x400000 + 2 ^ 34 - 0x400000 + amd64.sizeof_long - 1) / amd64.sizeof_long = 2 ^ 31 ∧
      nwords amd64 0x400000 (0x400000 + 2 ^ 34) = -(2 ^ 31)) :=
  ⟨by decide, by decide,
    ⟨by decide, by decide, by decide, by decide, by decide, by decide, arm_live_injects,
      by decide⟩,
    ⟨by decide, by decide, by decide, by decide⟩⟩

/-- C11, amended: for the word size `W = sizeof(long)`, a power of two, `ALIGN_DOWN(x, W)`
is the greatest multiple of `W` that is `≤ x` for every word `x`; `ALIGN_UP(x, W)` is the
least multiple of `W` that is `≥ x` for every `x` with `x + W - 1` still a word, and for
every word `x` it is that multiple reduced modulo `2 ^ bits` (0 at the top of the range).
Consequently, for every word-aligned `begin` and every word `end > begin` whose
`ceil((end - begin) / W)` words take fewer than `2 ^ (bits - 1)` bytes and are fewer than
`2 ^ 31`: both asserts pass; the word count `nwords` is `ceil((end - begin) / W)`, also when
`ALIGN_UP(end, W)` has wrapped to 0; the region of that many words covers `end - begin`
bytes and extends past them by fewer than `W`; with at most 512 words the lines 138-158
get through on a live tracee; and a call that gets through the save loop has saved and
overwritten exactly that many words, starting at the working instruction pointer aligned
down to `W`. -/
theorem injection_site_arithmetic (P : Profile R) (k : Nat) (hW : P.sizeof_long = 2 ^ k)
    (begin_ end_ : Nat) (hb : begin_ = ALIGN_DOWN P.bits begin_ P.sizeof_long)
    (hbe : begin_ < end_) (he : end_ < 2 ^ P.bits)
    (hd : P.sizeof_long * ((end_ - begin_ + P.sizeof_long - 1) / P.sizeof_long)
      < 2 ^ (P.bits - 1))
    (hn : (end_ - begin_ + P.sizeof_long - 1) / P.sizeof_long < 2 ^ 31) :
    (∀ x, x < 2 ^ P.bits →
      P.sizeof_long ∣ ALIGN_DOWN P.bits x P.sizeof_long ∧
      ALIGN_DOWN P.bits x P.sizeof_long ≤ x ∧
      ∀ m, P.sizeof_long ∣ m → m ≤ x → m ≤ ALIGN_DOWN P.bits x P.sizeof_long) ∧
    (∀ x, x + P.sizeof_long - 1 < 2 ^ P.bits →
      P.sizeof_long ∣ ALIGN_UP P.bits x P.sizeof_long ∧
      x ≤ ALIGN_UP P.bits x P.sizeof_long ∧
      ∀ m, P.sizeof_long ∣ m → x ≤ m → ALIGN_UP P.bits x P.sizeof_long ≤ m) ∧
    (∀ x, x < 2 ^ P.bits →
      ALIGN_UP P.bits x P.sizeof_long =
        (P.sizeof_long * ((x + P.sizeof_long - 1) / P.sizeof_long)) % 2 ^ P.bits) ∧
    ptrdiff P.bits end_ begin_ > 0 ∧
    nwords P begin_ end_ =
      (((end_ - begin_ + P.sizeof_long - 1) / P.sizeof_long : Nat) : Int) ∧
    end_ - begin_ ≤ P.sizeof_long * (nwords P begin_ end_).toNat ∧
    P.sizeof_long * (nwords P begin_ end_).toNat < end_ - begin_ + P.sizeof_long ∧
    (∀ w : World R, w.tracee.alive = true →
      (end_ - begin_ + P.sizeof_long - 1) / P.sizeof_long ≤ 512 →
      ∃ buf w1, execute_inject P begin_ end_ w = .ok (buf, w1)) ∧
    (∀ (w : World R) (buf : Nat → Nat) (w1 : World R),
      execute_inject P begin_ end_ w = .ok (buf, w1) →
      w1.log = w.log ++ (if P.IP w.regs = 0 then [Op.GETREGS] else []) ++
        save_log P.sizeof_long (injection_address P w) begin_ w.text
          ((end_ - begin_ + P.sizeof_long - 1) / P.sizeof_long) 0 ++ [Op.SETREGS] ∧
      (P.IP (working_regs P w) < 2 ^ P.bits →
        injection_address P w =
          P.sizeof_long * (P.IP (working_regs P w) / P.sizeof_long))) := by
  have hpos : 0 < P.sizeof_long := P.sizeof_pos
  have hk : k ≤ P.bits := by
    have h1 := Nat.lt_two_pow k
    unfold Profile.bits
    omega
  have hdown : ∀ x, x < 2 ^ P.bits →
      ALIGN_DOWN P.bits x P.sizeof_long = P.sizeof_long * (x / P.sizeof_long) := by
    intro x hx
    rw [hW]
    exact ALIGN_DOWN_eq P.bits k x hk hx
  have hup : ∀ x, x + P.sizeof_long - 1 < 2 ^ P.bits →
      ALIGN_UP P.bits x P.sizeof_long =
        P.sizeof_long * ((x + P.sizeof_long - 1) / P.sizeof_long) := by
    intro x hx
    rw [hW] at hx ⊢
    exact ALIGN_UP_eq P.bits k x hx
  have hnw : nwords P begin_ end_ =
      (((end_ - begin_ + P.sizeof_long - 1) / P.sizeof_long : Nat) : Int) := by
    unfold nwords
    rw [hW] at hb hd hn ⊢
    exact (nwords_eq_ceil P.bits k begin_ end_ he hb hbe hd hn).2
  have hnat : (nwords P begin_ end_).toNat =
      (end_ - begin_ + P.sizeof_long - 1) / P.sizeof_long := by
    rw [hnw]
    exact Int.toNat_natCast _
  obtain ⟨_, c2, c3, _⟩ := least_multiple P.sizeof_long (end_ - begin_) hpos
  have hpd : ptrdiff P.bits end_ begin_ > 0 :=
    ptrdiff_pos_of_small P.bits begin_ end_ hbe (lt_of_le_of_lt c2 hd)
  refine ⟨?_, ?_, ?_, hpd, hnw, by rw [hnat]; exact c2, by rw [hnat]; exact c3, ?_, ?_⟩
  · intro x hx
    rw [hdown x hx]
    obtain ⟨g1, g2, _, g4⟩ := greatest_multiple P.sizeof_long x hpos
    exact ⟨g1, g2, g4⟩
  · intro x hx
    rw [hup x hx]
    obtain ⟨l1, l2, _, l4⟩ := least_multiple P.sizeof_long x hpos
    exact ⟨l1, l2, l4⟩
  · intro x hx
    rw [hW]
    exact ALIGN_UP_eq_mod P.bits k x hk hx
  · intro w ha hc
    exact execute_inject_alive P begin_ end_ w ha hb hpd (by rw [hnat]; exact hc)
  · intro w buf w1 hi
    obtain ⟨_, _, _, _, _, _, i7, _⟩ := execute_inject_ok P begin_ end_ w buf w1 hi
    refine ⟨by rw [i7, hnat], fun hip => ?_⟩
    unfold injection_address
    exact hdown _ hip

/-- C11 amended, exercised on the 64-bit profile with `begin = 0x2000`, `end = 0x2003`:
one word, covering the three bytes and five more; `ALIGN_DOWN(0x1003, 8) = 0x1000` and
`ALIGN_UP(0x2003, 8) = 0x2008`. -/
theorem injection_site_arithmetic_witness :
    amd64.sizeof_long = 2 ^ 3 ∧
    0x2000 = ALIGN_DOWN amd64.bits 0x2000 amd64.sizeof_long ∧ 0x2000 < 0x2003 ∧
    0x2003 < 2 ^ amd64.bits ∧
    amd64.sizeof_long * ((0x2003 - 0x2000 + amd64.sizeof_long - 1) / amd64.sizeof_long)
      < 2 ^ (amd64.bits - 1) ∧
    (0x2003 - 0x2000 + amd64.sizeof_long - 1) / amd64.sizeof_long < 2 ^ 31 ∧
    ptrdiff amd64.bits 0x2003 0x2000 > 0 ∧
    nwords amd64 0x2000 0x2003 = 1 ∧
    ALIGN_DOWN amd64.bits 0x1003 amd64.sizeof_long = 0x1000 ∧
    (∀ m, amd64.sizeof_long ∣ m → m ≤ 0x1003 → m ≤ 0x1000) ∧
    ALIGN_UP amd64.bits 0x2003 amd64.sizeof_long = 0x2008 ∧
    (∀ m, amd64.sizeof_long ∣ m → 0x2003 ≤ m → 0x2008 ≤ m) ∧
    (∃ buf w1, execute_inject amd64 0x2000 0x2003 Sample.world0 = .ok (buf, w1)) :=
  have t := injection_site_arithmetic amd64 3 (by decide) 0x2000 0x2003 (by decide)
    (by decide) (by decide) (by decide) (by decide)
  ⟨by decide, by decide, by decide, by decide, by decide, by decide, t.2.2.2.1,
    t.2.2.2.2.1.trans (by decide),
    by decide, (t.1 0x1003 (by decide)).2.2, by decide, (t.2.1 0x2003 (by decide)).2.2,
    t.2.2.2.2.2.2.2.1 Sample.world0 rfl (by decide)⟩

/-- C12. A legitimately read word of -1 is not a failure.  `try_ptrace` takes a request
for failed exactly when it returned -1 with `errno` nonzero.  Both peeks of `execute` are
issued with `errno` cleared, so a peek of a word with all bits set on a live tracee is
accepted whatever `errno` held (with a stale nonzero `errno` left in place it would be
taken for a failure).  So when the `j`-th word of the injection region has all bits set,
the lines 138-158 get through and save it as -1, and a returning call has poked -1 back
there and left the word all ones; and a trap-loop iteration that finds such a word at the
instruction pointer goes on to the next iteration. -/
theorem all_ones_word_is_no_failure (P : Profile R) (step : Tracee R → Tracee R × Nat)
    (begin_ end_ : Nat) (w : World R) (j : Nat)
    (ha : w.tracee.alive = true)
    (hb : begin_ = ALIGN_DOWN P.bits begin_ P.sizeof_long)
    (he : ptrdiff P.bits end_ begin_ > 0)
    (hn : (nwords P begin_ end_).toNat ≤ 512) (hj : j < (nwords P begin_ end_).toNat)
    (hw : peek_word w.tracee.mem (injection_address P w + P.sizeof_long * j) P.sizeof_long
      = neg1 P.bits) :
    (∀ r : Nat × World R,
      (∃ e, try_ptrace P r = .error e) ↔ (r.1 = neg1 P.bits ∧ r.2.errno ≠ 0)) ∧
    (∀ (u : World R) (addr : Nat), u.tracee.alive = true →
      peek_word u.tracee.mem addr P.sizeof_long = neg1 P.bits →
      try_ptrace P (ptrace_PEEKTEXT P { u with errno := 0 } addr) =
        .ok (neg1 P.bits, { u with errno := 0, log := u.log ++ [Op.PEEKTEXT addr] }) ∧
      (u.errno ≠ 0 → ∃ e, try_ptrace P (ptrace_PEEKTEXT P u addr) = .error e)) ∧
    (∃ buf w1, execute_inject P begin_ end_ w = .ok (buf, w1) ∧ buf j = neg1 P.bits) ∧
    (∀ (fuel : Nat) (ninstr : Int) (w' : World R),
      execute P step fuel begin_ end_ ninstr w = .ok w' →
      ∃ buf w1 w2, execute_inject P begin_ end_ w = .ok (buf, w1) ∧
        execute_run P step fuel ninstr w1 = .ok w2 ∧
        w'.log = w2.log ++ restore_log P.sizeof_long (injection_address P w) buf
          (nwords P begin_ end_).toNat 0 ++ [Op.GETREGS, Op.SETREGS] ∧
        Op.POKETEXT (injection_address P w + P.sizeof_long * j) (neg1 P.bits) ∈
          restore_log P.sizeof_long (injection_address P w) buf
            (nwords P begin_ end_).toNat 0 ∧
        peek_word w'.tracee.mem (injection_address P w + P.sizeof_long * j) P.sizeof_long
          = neg1 P.bits) ∧
    (∀ (fuel : Nat) (u : World R), u.tracee.alive = true → (step u.tracee).1.alive = true →
      (WIFSTOPPED (step u.tracee).2 && WSTOPSIG (step u.tracee).2 == SIGTRAP) = true →
      peek_word (step u.tracee).1.mem (P.IP (step u.tracee).1.regs) P.sizeof_long
        = neg1 P.bits →
      ∃ u4, step_trap P step (fuel + 1) u = step_trap P step fuel u4 ∧
        u4.tracee = (step u.tracee).1 ∧
        u4.log = u.log ++ [Op.SINGLESTEP, Op.WAITPID, Op.GETREGS,
          Op.PEEKTEXT (P.IP (step u.tracee).1.regs)]) := by
  refine ⟨try_ptrace_error_iff P, ?_, ?_, ?_, ?_⟩
  · intro u addr hu hp
    constructor
    · rw [try_PEEKTEXT, if_pos hu, hp]
    · intro hne
      rw [try_ptrace_error_iff]
      unfold ptrace_PEEKTEXT
      rw [if_pos hu]
      exact ⟨hp, hne⟩
  · obtain ⟨buf, w1, hi⟩ := execute_inject_alive P begin_ end_ w ha hb he hn
    obtain ⟨_, _, _, _, _, _, _, i8, _⟩ := execute_inject_ok P begin_ end_ w buf w1 hi
    exact ⟨buf, w1, hi, by rw [i8 j hj, hw]⟩
  · intro fuel ninstr w' hx
    obtain ⟨buf, w1, w2, h1, h2, h3, h4⟩ :=
      execute_restores_word P step fuel begin_ end_ ninstr w w' hx
    refine ⟨buf, w1, w2, h1, h2, h3, ?_, by rw [(h4 j hj).2, hw]⟩
    have hm := mem_restore_log P.sizeof_long (injection_address P w) buf
      (nwords P begin_ end_).toNat 0 j hj
    rw [Nat.zero_add, (h4 j hj).1, hw] at hm
    exact hm
  · intro fuel u hu hu1 hs hp
    obtain ⟨n, hn1⟩ : ∃ n, P.sizeof_long = n + 1 :=
      ⟨P.sizeof_long - 1, by have := P.sizeof_pos; omega⟩
    have hbyte : ((step u.tracee).1.mem (P.IP (step u.tracee).1.regs)).val = 0xff := by
      have h1 := peek_word_low_byte (step u.tracee).1.mem (P.IP (step u.tracee).1.regs) n
      rw [← hn1, hp, neg1_low_byte] at h1
      exact h1.symm
    have hne : ¬ ((step u.tracee).1.mem (P.IP (step u.tracee).1.regs)).val = 0xcc := by
      rw [hbyte]
      decide
    rw [step_trap_succ P step fuel u hu]
    simp only [hs, if_true, hu1, hne, if_false]
    exact ⟨_, rfl, rfl, rfl⟩

theorem world_ones_returns :
    execute amd64 Sample.toy_step 5 0x2000 0x2003 (-1) Sample.world_ones
      = .ok Sample.world_ones_done :=
  rfl

/-- C12, exercised: the one word of the injection region at `0x1000` is
`0xffffffffffffffff` and the handle's `errno` is a stale 11; the call returns, a peek at
`0x1000` with `errno` cleared is accepted with that value, and the word is all ones again
afterwards. -/
theorem all_ones_word_is_no_failure_witness :
    Sample.world_ones.tracee.alive = true ∧ Sample.world_ones.errno = 11 ∧
    0x2000 = ALIGN_DOWN amd64.bits 0x2000 amd64.sizeof_long ∧
    ptrdiff amd64.bits 0x2003 0x2000 > 0 ∧
    (nwords amd64 0x2000 0x2003).toNat = 1 ∧
    injection_address amd64 Sample.world_ones = 0x1000 ∧
    peek_word Sample.world_ones.tracee.mem 0x1000 8 = 2 ^ 64 - 1 ∧
    execute amd64 Sample.toy_step 5 0x2000 0x2003 (-1) Sample.world_ones
      = .ok Sample.world_ones_done ∧
    try_ptrace amd64 (ptrace_PEEKTEXT amd64 { Sample.world_ones with errno := 0 } 0x1000) =
      .ok (neg1 amd64.bits, { Sample.world_ones with
        errno := 0, log := Sample.world_ones.log ++ [Op.PEEKTEXT 0x1000] }) ∧
    (∃ e, try_ptrace amd64 (ptrace_PEEKTEXT amd64 Sample.world_ones 0x1000) = .error e) ∧
    peek_word Sample.world_ones_done.tracee.mem 0x1000 8 = 2 ^ 64 - 1 :=
  have t := all_ones_word_is_no_failure amd64 Sample.toy_step 0x2000 0x2003
    Sample.world_ones 0 rfl (by decide) (by decide) (by decide) (by decide) (by decide)
  have p := t.2.1 Sample.world_ones 0x1000 rfl (by decide)
  have q := t.2.2.2.1 5 (-1) Sample.world_ones_done world_ones_returns
  ⟨rfl, rfl, by decide, by decide, by decide, by decide, by decide, world_ones_returns,
    p.1, p.2 (by decide),
    q.elim fun _ h1 => h1.elim fun _ h2 => h2.elim fun _ h3 => h3.2.2.2.2.trans (by decide)⟩

end Claims

end Tracexec

/-! ## The touch state machine -/

namespace Inputs

theorem toInt32_of_int32 (z : Int) (h0 : -2147483648 ≤ z) (h1 : z ≤ 2147483647) :
    Tracexec.toInt32 z = z := by
  unfold Tracexec.toInt32
  norm_num
  omega

theorem switch_key_frame (s : istate) (ev : input_event) :
    (switch_key s ev).prev_x = s.prev_x ∧ (switch_key s ev).prev_y = s.prev_y ∧
    (switch_key s ev).moved = s.moved := by
  unfold switch_key
  split_ifs <;> exact ⟨rfl, rfl, rfl⟩

theorem switch_abs_frame (s : istate) (ev : input_event) :
    (switch_abs s ev).prev_x = s.prev_x ∧ (switch_abs s ev).prev_y = s.prev_y ∧
    (switch_abs s ev).moved = s.moved := by
  unfold switch_abs
  split_ifs <;> exact ⟨rfl, rfl, rfl⟩

/-- C13. Touch movement threshold: on an `EV_SYN / SYN_REPORT` event, with `prev_x ± 2`
and `prev_y ± 2` inside the `int32` range, the single-event `handle_evdev` returns true and
leaves `x`, `y`, `tool` and `state` as they were; the new state is the old one with
`prev_x := x`, `prev_y := y`, `moved := true` when `|x - prev_x| > 2` or
`|y - prev_y| > 2`, and the old state unchanged otherwise.  On every other event it
returns false and leaves `prev_x`, `prev_y` and `moved` as they were. -/
theorem handle_evdev_movement_threshold (s : istate) (ev : input_event) :
    (ev.type = EV_SYN ∧ ev.code = SYN_REPORT →
      -2147483648 + 2 ≤ s.prev_x ∧ s.prev_x + 2 ≤ 2147483647 →
      -2147483648 + 2 ≤ s.prev_y ∧ s.prev_y + 2 ≤ 2147483647 →
      (handle_evdev s ev).1 = true ∧
      (handle_evdev s ev).2.x = s.x ∧ (handle_evdev s ev).2.y = s.y ∧
      (handle_evdev s ev).2.tool = s.tool ∧ (handle_evdev s ev).2.state = s.state ∧
      (handle_evdev s ev).2 =
        if 2 < |s.x - s.prev_x| ∨ 2 < |s.y - s.prev_y| then
          { s with prev_x := s.x, prev_y := s.y, moved := true }
        else s) ∧
    (¬ (ev.type = EV_SYN ∧ ev.code = SYN_REPORT) →
      (handle_evdev s ev).1 = false ∧
      (handle_evdev s ev).2.prev_x = s.prev_x ∧ (handle_evdev s ev).2.prev_y = s.prev_y ∧
      (handle_evdev s ev).2.moved = s.moved) := by
  have hcond : ((s.x > s.prev_x + 2 ∨ s.x < s.prev_x - 2) ∨
        (s.y > s.prev_y + 2 ∨ s.y < s.prev_y - 2)) ↔
      (2 < |s.x - s.prev_x| ∨ 2 < |s.y - s.prev_y|) := by
    rw [lt_abs, lt_abs]
    constructor <;> intro h <;> omega
  constructor
  · intro h hx hy
    have e1 : Tracexec.toInt32 (s.prev_x + 2) = s.prev_x + 2 :=
      toInt32_of_int32 _ (by omega) (by omega)
    have e2 : Tracexec.toInt32 (s.prev_x - 2) = s.prev_x - 2 :=
      toInt32_of_int32 _ (by omega) (by omega)
    have e3 : Tracexec.toInt32 (s.prev_y + 2) = s.prev_y + 2 :=
      toInt32_of_int32 _ (by omega) (by omega)
    have e4 : Tracexec.toInt32 (s.prev_y - 2) = s.prev_y - 2 :=
      toInt32_of_int32 _ (by omega) (by omega)
    unfold handle_evdev
    rw [if_pos h, e1, e2, e3, e4]
    by_cases hc : (s.x > s.prev_x + 2 ∨ s.x < s.prev_x - 2) ∨
        (s.y > s.prev_y + 2 ∨ s.y < s.prev_y - 2)
    · rw [if_pos hc, if_pos (hcond.mp hc)]
      exact ⟨rfl, rfl, rfl, rfl, rfl, rfl⟩
    · rw [if_neg hc, if_neg (fun h' => hc (hcond.mpr h'))]
      exact ⟨rfl, rfl, rfl, rfl, rfl, rfl⟩
  · intro h
    unfold handle_evdev
    rw [if_neg h]
    refine ⟨rfl, ?_, ?_, ?_⟩
    · show (if ev.type = EV_ABS then switch_abs (if ev.type = EV_KEY then switch_key s ev else s) ev
        else (if ev.type = EV_KEY then switch_key s ev else s)).prev_x = s.prev_x
      split_ifs <;> simp only [(switch_abs_frame _ ev).1, (switch_key_frame s ev).1]
    · show (if ev.type = EV_ABS then switch_abs (if ev.type = EV_KEY then switch_key s ev else s) ev
        else (if ev.type = EV_KEY then switch_key s ev else s)).prev_y = s.prev_y
      split_ifs <;> simp only [(switch_abs_frame _ ev).2.1, (switch_key_frame s ev).2.1]
    · show (if ev.type = EV_ABS then switch_abs (if ev.type = EV_KEY then switch_key s ev else s) ev
        else (if ev.type = EV_KEY then switch_key s ev else s)).moved = s.moved
      split_ifs <;> simp only [(switch_abs_frame _ ev).2.2, (switch_key_frame s ev).2.2]

/-- C13, exercised: a finger that moved from `x = 100` to `x = 103` is reported as moved on
`SYN_REPORT`, with the previous position updated; a position event returns false and
leaves the previous position and the moved flag alone. -/
theorem handle_evdev_movement_threshold_witness :
    (-2147483648 + 2 ≤ touch0.prev_x ∧ touch0.prev_x + 2 ≤ 2147483647) ∧
    (-2147483648 + 2 ≤ touch0.prev_y ∧ touch0.prev_y + 2 ≤ 2147483647) ∧
    (syn_report.type = EV_SYN ∧ syn_report.code = SYN_REPORT) ∧
    (handle_evdev touch0 syn_report).1 = true ∧
    (handle_evdev touch0 syn_report).2 =
      { touch0 with prev_x := 103, prev_y := 200, moved := true } ∧
    ¬ (abs_x_640.type = EV_SYN ∧ abs_x_640.code = SYN_REPORT) ∧
    (handle_evdev touch0 abs_x_640).1 = false ∧
    (handle_evdev touch0 abs_x_640).2.prev_x = 100 ∧
    (handle_evdev touch0 abs_x_640).2.moved = false ∧
    (handle_evdev touch0 abs_x_640).2.x = 640 :=
  have t := (handle_evdev_movement_threshold touch0 syn_report).1 (by decide) (by decide)
    (by decide)
  have u := (handle_evdev_movement_threshold touch0 abs_x_640).2 (by decide)
  ⟨by decide, by decide, by decide, t.1, t.2.2.2.2.2.trans (by decide), by decide, u.1,
    u.2.1.trans (by decide), u.2.2.2.trans (by decide), by decide⟩

end Inputs
